import Mathlib

/-!
# A* search on a grid: a shallow embedding of `AStarSearchAlgorithm.cpp`

The C++ functions `Compare`, `CellSort`, `Heuristic`, `IsValidCoord`, `CheckValidCell`,
`AddToOpen`, `ExpandNeighbors` and `Search` are transcribed as Lean functions.

* `int` values are `Int`; a coordinate pair `int[2]` is `Int × Int`.
* `vector<vector<State>>` is `List (List State)`; a node `vector<int>{x, y, g, h}` is the
  structure `Node`.
* Indexing a vector out of range is undefined behaviour in C++; here every indexed access
  is checked and yields `Fault.outOfRange`, so the functions return `Except Fault _`.
* The `while` loop of `Search` is unrolled by a fuel counter that bounds the number of
  executions of the loop body; running out of it yields `Fault.outOfFuel`.
* `std::sort` does not fix the relative order of elements that compare equal, so the
  sorting routine is a parameter `stdSort`; `IsStdSort` is its postcondition and
  `insertionSort` is the instance that keeps equal elements in insertion order.
  `libstdcxxSort` is `std::sort` as libstdc++ implements it: insertion sort on ranges of at
  most 16 elements, median-of-three partitioning above that, heap sort at the depth limit.
-/

namespace AStarSearchAlgorithm

/-- Modelled from the spec: the enumeration `State`, declared in the header
`AStarSearchAlgorithm.hpp` that is not part of the sources. The spec lists the closed set
of cell tags Empty, Obstacle, Closed, Path, Start and Finish. -/
inductive State where
  | kEmpty
  | kObstacle
  | kClosed
  | kPath
  | kStart
  | kFinish
  deriving DecidableEq

/-- The grid `vector<vector<State>>`, row-major. -/
abbrev Grid := List (List State)

/-- A search node `vector<int>{x, y, g, h}` as built by `AddToOpen`. -/
structure Node where
  x : Int
  y : Int
  g : Int
  h : Int
  deriving DecidableEq

/-- The two ways a run of the model can fail to produce a value: an indexed access outside
a vector (undefined behaviour in the C++ code) and exhaustion of the loop fuel. -/
inductive Fault where
  | outOfRange
  | outOfFuel
  deriving DecidableEq

/-- Modelled from the spec: the direction table `delta`, declared in the header
`AStarSearchAlgorithm.hpp` that is not part of the sources. The spec gives the four cardinal
offsets in the order (-1,0), (1,0), (0,-1), (0,1). -/
def delta : List (Int × Int) := [(-1, 0), (1, 0), (0, -1), (0, 1)]

/-- `Compare(node1, node2)`: the f-value of `node1` is greater than that of `node2`. -/
def Compare (node1 node2 : Node) : Bool :=
  decide (node1.g + node1.h > node2.g + node2.h)

/-- The postcondition of `std::sort(first, last, Compare)`: the result is a rearrangement of
the input in which no element is `Compare`-before an element that precedes it. -/
structure IsStdSort (stdSort : (Node → Node → Bool) → List Node → List Node) : Prop where
  perm : ∀ v, (stdSort Compare v).Perm v
  sorted : ∀ v, (stdSort Compare v).Pairwise (fun a b => Compare b a = false)

/-- Insertion sort with comparator `comp`; elements that compare equal keep their order. -/
def insertionSort (comp : Node → Node → Bool) (v : List Node) : List Node :=
  v.insertionSort (fun a b => comp b a = false)

/-- `CellSort(v)`: sort the open list with `Compare`, that is by descending f-value. -/
def CellSort (stdSort : (Node → Node → Bool) → List Node → List Node) (v : List Node) :
    List Node :=
  stdSort Compare v

/-- `std::abs` on `int`. -/
def intAbs (v : Int) : Int := if v < 0 then -v else v

/-- `Heuristic(x1, y1, x2, y2)`: `abs(x2 - x1) + abs(y2 - y1)`. -/
def Heuristic (x1 y1 x2 y2 : Int) : Int :=
  intAbs (x2 - x1) + intAbs (y2 - y1)

/-- The read `grid[x][y]`. -/
def getCell (grid : Grid) (x y : Int) : Except Fault State :=
  if 0 ≤ x ∧ x < grid.length then
    if 0 ≤ y ∧ y < (grid.getD x.toNat []).length then
      .ok ((grid.getD x.toNat []).getD y.toNat State.kEmpty)
    else .error Fault.outOfRange
  else .error Fault.outOfRange

/-- The write `grid[x][y] = s`. -/
def setCell (grid : Grid) (x y : Int) (s : State) : Except Fault Grid :=
  if 0 ≤ x ∧ x < grid.length then
    if 0 ≤ y ∧ y < (grid.getD x.toNat []).length then
      .ok (grid.set x.toNat ((grid.getD x.toNat []).set y.toNat s))
    else .error Fault.outOfRange
  else .error Fault.outOfRange

/-- `IsValidCoord(x, y, grid)` with `verbose = false`. Both tests are always evaluated; the
second reads `grid[0].size()`, which is out of range on a grid without rows. The `int` is
compared with an unsigned size, but only after `x < 0` (`y < 0`) was found false, so the
conversion does not change its value. -/
def IsValidCoord (x y : Int) (grid : Grid) : Except Fault Bool :=
  match grid with
  | [] => .error Fault.outOfRange
  | row0 :: _ =>
    let res := true
    let res := if x < 0 ∨ x ≥ grid.length then false else res
    let res := if y < 0 ∨ y ≥ row0.length then false else res
    .ok res

/-- `CheckValidCell(x, y, grid)`: the coordinate is valid and the cell is `kEmpty`. -/
def CheckValidCell (x y : Int) (grid : Grid) : Except Fault Bool := do
  if !(← IsValidCoord x y grid) then
    return false
  if (← getCell grid x y) = State.kEmpty then
    return true
  return false

/-- `AddToOpen(x, y, g, h, openlist, grid)`: push the node and mark its cell `kClosed`. -/
def AddToOpen (x y g h : Int) (openlist : List Node) (grid : Grid) :
    Except Fault (List Node × Grid) := do
  let node : Node := { x := x, y := y, g := g, h := h }
  let openlist := openlist ++ [node]
  let grid ← setCell grid x y State.kClosed
  return (openlist, grid)

/-- One pass of the `for` loop of `ExpandNeighbors`, for the offset `d = delta[i]`. -/
def expandOne (currentNode : Node) (goal : Int × Int) (acc : List Node × Grid)
    (d : Int × Int) : Except Fault (List Node × Grid) := do
  let newX := currentNode.x + d.1
  let newY := currentNode.y + d.2
  if (← CheckValidCell newX newY acc.2) then
    let h := Heuristic newX newY goal.1 goal.2
    AddToOpen newX newY (currentNode.g + 1) h acc.1 acc.2
  else
    return acc

/-- `ExpandNeighbors(currentNode, goal, openlist, grid)`. -/
def ExpandNeighbors (currentNode : Node) (goal : Int × Int) (openlist : List Node)
    (grid : Grid) : Except Fault (List Node × Grid) :=
  delta.foldlM (expandOne currentNode goal) (openlist, grid)

/-- The body of the `while` loop of `Search`, run on a non-empty open list: either the goal
node was popped (`Sum.inl`, with the node and the finished grid) or the loop goes on with a
new open list and grid (`Sum.inr`). -/
def searchBody (stdSort : (Node → Node → Bool) → List Node → List Node)
    (init goal : Int × Int) (openlist : List Node) (grid : Grid) :
    Except Fault (Sum (Node × Grid) (List Node × Grid)) := do
  let openlist := CellSort stdSort openlist
  match openlist.getLast? with
  | none => throw Fault.outOfRange
  | some currentNode =>
    let openlist := openlist.dropLast
    let curX := currentNode.x
    let curY := currentNode.y
    let grid ← setCell grid curX curY State.kPath
    if curX = goal.1 ∧ curY = goal.2 then
      let grid ← setCell grid init.1 init.2 State.kStart
      let grid ← setCell grid goal.1 goal.2 State.kFinish
      return Sum.inl (currentNode, grid)
    else
      let next ← ExpandNeighbors currentNode goal openlist grid
      return Sum.inr next

/-- The `while (!openlist.empty())` loop of `Search`; `fuel` bounds the number of times the
body runs. The result is `none` when the open list ran empty and `some (node, grid)` when
the goal node `node` was popped. -/
def searchLoop (stdSort : (Node → Node → Bool) → List Node → List Node)
    (init goal : Int × Int) : Nat → List Node → Grid → Except Fault (Option (Node × Grid))
  | 0, openlist, _ =>
    if openlist.isEmpty then .ok none else .error Fault.outOfFuel
  | fuel + 1, openlist, grid =>
    if openlist.isEmpty then .ok none
    else
      match searchBody stdSort init goal openlist grid with
      | .error e => .error e
      | .ok (Sum.inl found) => .ok (some found)
      | .ok (Sum.inr next) => searchLoop stdSort init goal fuel next.1 next.2

/-- `Search` up to its `return`: seeds the open list with the start node and runs the loop;
the goal node as popped is kept next to the finished grid. -/
def searchRun (stdSort : (Node → Node → Bool) → List Node → List Node) (fuel : Nat)
    (grid : Grid) (init goal : Int × Int) : Except Fault (Option (Node × Grid)) := do
  let openlist : List Node := []
  let x := init.1
  let y := init.2
  let g := 0
  let h := Heuristic x y goal.1 goal.2
  let seeded ← AddToOpen x y g h openlist grid
  searchLoop stdSort init goal fuel seeded.1 seeded.2

/-- `Search(grid, init, goal)`: the finished grid, or the empty grid when no path is found. -/
def Search (stdSort : (Node → Node → Bool) → List Node → List Node) (fuel : Nat)
    (grid : Grid) (init goal : Int × Int) : Except Fault Grid := do
  match ← searchRun stdSort fuel grid init goal with
  | some found => return found.2
  | none => return []


/-! ## Vocabulary of the claims -/

/-- The cell `(x, y)` a node stands on. -/
def Node.cell (n : Node) : Int × Int := (n.x, n.y)

/-- The tag `grid[c.1][c.2]` of a coordinate pair, a fault when `c` is outside the grid. -/
def cellAt (grid : Grid) (c : Int × Int) : Except Fault State := getCell grid c.1 c.2

/-- Two cells are 4-adjacent: they differ by one of the four cardinal offsets. -/
def Adjacent4 (a b : Int × Int) : Prop := intAbs (b.1 - a.1) + intAbs (b.2 - a.2) = 1

instance (a b : Int × Int) : Decidable (Adjacent4 a b) :=
  inferInstanceAs (Decidable (intAbs (b.1 - a.1) + intAbs (b.2 - a.2) = 1))

/-- A sequence of cells leading from `a` to `b` by 4-adjacent steps. -/
structure IsWalk (a b : Int × Int) (path : List (Int × Int)) : Prop where
  head : path.head? = some a
  last : path.getLast? = some b
  chain : path.Chain' Adjacent4

/-- A route of the input grid from `init` to `goal`: a walk of cells of the grid whose cells
other than `init` are all `kEmpty`. -/
structure IsRoute (grid : Grid) (init goal : Int × Int) (path : List (Int × Int)) : Prop where
  walk : IsWalk init goal path
  inside : ∀ c ∈ path, ∃ s, cellAt grid c = .ok s
  empty : ∀ c ∈ path, c ≠ init → cellAt grid c = .ok State.kEmpty

/-- The grid is rectangular: every row is as long as row 0. -/
def IsRect (grid : Grid) : Prop := ∀ row ∈ grid, row.length = (grid.headD []).length

/-- The coordinate pair `c` lies on the grid: `0 ≤ c.1 < rowCount` and `0 ≤ c.2 < colCount`,
the column count being the length of row 0. -/
def InBounds (grid : Grid) (c : Int × Int) : Prop :=
  0 ≤ c.1 ∧ c.1 < grid.length ∧ 0 ≤ c.2 ∧ c.2 < (grid.headD []).length

/-- Every cell of the grid is `kEmpty` or `kObstacle`, as in a grid read by `ReadBoardFile`. -/
def IsObstacleMap (grid : Grid) : Prop :=
  ∀ row ∈ grid, ∀ s ∈ row, s = State.kEmpty ∨ s = State.kObstacle

/-- The cell carries one of the tags `kStart`, `kPath`, `kFinish`. -/
def IsTagged (grid : Grid) (c : Int × Int) : Prop :=
  cellAt grid c = .ok State.kStart ∨ cellAt grid c = .ok State.kPath ∨
    cellAt grid c = .ok State.kFinish


/-! ## The loop invariant -/

/-- The state of the `while` loop of `Search` on the input `grid0`, with the list `popped`
of the cells popped so far as a ghost: the grid differs from the input exactly on the popped
cells (`kPath`) and the cells of the open list (`kClosed`), these cells are pairwise distinct,
each was `kEmpty` in the input unless it is `init`, and each hangs on a walk of popped cells
that starts at `init`. -/
structure Inv (grid0 : Grid) (init : Int × Int) (popped : List (Int × Int))
    (openlist : List Node) (grid : Grid) : Prop where
  shape : grid.map List.length = grid0.map List.length
  isPath : ∀ c ∈ popped, cellAt grid c = .ok State.kPath
  isClosed : ∀ n ∈ openlist, cellAt grid n.cell = .ok State.kClosed
  frame : ∀ c, c ∉ popped → c ∉ openlist.map Node.cell → cellAt grid c = cellAt grid0 c
  origin : ∀ c, c ∈ popped ++ openlist.map Node.cell →
    c = init ∨ cellAt grid0 c = .ok State.kEmpty
  seeded : init ∈ popped ++ openlist.map Node.cell
  nodup : (popped ++ openlist.map Node.cell).Nodup
  tree : ∀ c ∈ popped, ∃ l, IsWalk init c l ∧ ∀ d ∈ l, d ∈ popped
  parent : ∀ n ∈ openlist, n.cell = init ∨ ∃ p ∈ popped, Adjacent4 p n.cell

/-- What a successful run leaves behind: the goal node `node` was popped in a loop state
`popped`, `openlist`, `grid1` that satisfies the invariant, and the returned grid `result`
is `grid1` with `kStart` written on `init` and then `kFinish` on `goal`. -/
structure Found (grid0 : Grid) (init goal : Int × Int) (node : Node) (result : Grid)
    (popped : List (Int × Int)) (openlist : List Node) (grid1 : Grid) : Prop where
  inv : Inv grid0 init popped openlist grid1
  atGoal : node.cell = goal
  goalPopped : goal ∈ popped
  cells : ∀ c, cellAt result c =
    if c = goal then .ok State.kFinish else if c = init then .ok State.kStart
    else cellAt grid1 c
  shape : result.map List.length = grid0.map List.length


/-! ## Further sorting routine, counting, decision procedures and sample grids -/

/-- Insertion sort run on the reversed range: elements that compare equal come out in the
reverse of their insertion order. It meets the postcondition of `std::sort` as well. -/
def reverseInsertionSort (comp : Node → Node → Bool) (v : List Node) : List Node :=
  insertionSort comp v.reverse

/-- The coordinate pairs of all cells of the grid, row by row. -/
def gridCells (grid : Grid) : List (Int × Int) :=
  (List.range grid.length).flatMap fun i =>
    (List.range (grid.getD i []).length).map fun j => (Int.ofNat i, Int.ofNat j)

deriving instance DecidableEq for Except

instance (grid : Grid) (c : Int × Int) : Decidable (IsTagged grid c) :=
  inferInstanceAs (Decidable (cellAt grid c = .ok State.kStart ∨
    cellAt grid c = .ok State.kPath ∨ cellAt grid c = .ok State.kFinish))

instance (grid : Grid) : Decidable (IsRect grid) :=
  inferInstanceAs (Decidable (∀ row ∈ grid, row.length = (grid.headD []).length))

instance (grid : Grid) (c : Int × Int) : Decidable (InBounds grid c) :=
  inferInstanceAs (Decidable
    (0 ≤ c.1 ∧ c.1 < grid.length ∧ 0 ≤ c.2 ∧ c.2 < (grid.headD []).length))

instance (grid : Grid) : Decidable (IsObstacleMap grid) :=
  inferInstanceAs (Decidable
    (∀ row ∈ grid, ∀ s ∈ row, s = State.kEmpty ∨ s = State.kObstacle))

/-- The number of cells of the grid tagged `kStart`, `kPath` or `kFinish`. -/
def taggedCount (grid : Grid) : Nat :=
  (gridCells grid).countP fun c => decide (IsTagged grid c)

/-- A 3x5 grid with two walls: from `(1, 0)` the cells that look closest to `(2, 4)` lead into
a pocket below the second wall. -/
def gridPocket : Grid :=
  [[State.kEmpty, State.kEmpty, State.kEmpty, State.kEmpty, State.kEmpty],
   [State.kEmpty, State.kObstacle, State.kEmpty, State.kObstacle, State.kEmpty],
   [State.kEmpty, State.kEmpty, State.kEmpty, State.kObstacle, State.kEmpty]]

/-- The 3x3 grid whose middle row is blocked except for column 1. -/
def gridGate : Grid :=
  [[State.kEmpty, State.kEmpty, State.kEmpty],
   [State.kObstacle, State.kEmpty, State.kObstacle],
   [State.kEmpty, State.kEmpty, State.kEmpty]]

/-- A 3x3 grid with a wall below the centre: from `(1, 0)` the cell `(2, 0)` is a dead end. -/
def gridDeadEnd : Grid :=
  [[State.kEmpty, State.kEmpty, State.kEmpty],
   [State.kEmpty, State.kObstacle, State.kEmpty],
   [State.kEmpty, State.kObstacle, State.kEmpty]]

/-- The grid returned by `Search` on `gridDeadEnd` from `(1, 0)` to `(2, 2)`. -/
def resultDeadEnd : Grid :=
  [[State.kPath, State.kPath, State.kPath],
   [State.kStart, State.kObstacle, State.kPath],
   [State.kPath, State.kObstacle, State.kFinish]]

/-- The 5x5 grid without obstacles. -/
def gridOpen5 : Grid := List.replicate 5 (List.replicate 5 State.kEmpty)


/-- The cell `c` lies in the axis-aligned rectangle spanned by `init` and `goal`. -/
def InBox (init goal c : Int × Int) : Prop :=
  ((init.1 ≤ c.1 ∧ c.1 ≤ goal.1) ∨ (goal.1 ≤ c.1 ∧ c.1 ≤ init.1)) ∧
    ((init.2 ≤ c.2 ∧ c.2 ≤ goal.2) ∨ (goal.2 ≤ c.2 ∧ c.2 ≤ init.2))

/-- Ghost invariant of the loop for completeness: the goal was not popped yet and no popped
cell has a `kEmpty` neighbour left. -/
structure Closure (goal : Int × Int) (popped : List (Int × Int)) (grid : Grid) : Prop where
  goalOpen : goal ∉ popped
  expanded : ∀ c ∈ popped, ∀ d ∈ delta,
    cellAt grid (c.1 + d.1, c.2 + d.2) ≠ .ok State.kEmpty


/-- The node carries the heuristic of its cell, an f-value of at least `Heuristic(init, goal)`
and a g-value of at least the Manhattan distance of its cell from `init`. -/
def GoodNode (init goal : Int × Int) (n : Node) : Prop :=
  n.h = Heuristic n.x n.y goal.1 goal.2 ∧
    Heuristic init.1 init.2 goal.1 goal.2 ≤ n.g + n.h ∧
    Heuristic init.1 init.2 n.x n.y ≤ n.g

/-- Ghost invariant of the loop when nodes of equal f are popped latest first, on a grid
whose rectangle between `init` and `goal` is free: every node of the open list carries the
heuristic of its cell, an f of at least `Heuristic(init, goal)` and a g of at least its
distance from `init`; the popped cells are too far from `goal` to be met again; and the open
list holds a node of least f, with g the number of cells popped, behind which all nodes have
a greater f. -/
structure Stair (init goal : Int × Int) (popped : List (Int × Int))
    (openlist : List Node) : Prop where
  good : ∀ n ∈ openlist, GoodNode init goal n
  far : ∀ p ∈ popped, Heuristic init.1 init.2 goal.1 goal.2 + 1
    ≤ Heuristic p.1 p.2 goal.1 goal.2 + (popped.length : Int)
  start : init ∈ popped ∨ (popped = [] ∧ ∀ n ∈ openlist, n.cell = init)
  next : ∃ pre c post, openlist = pre ++ c :: post ∧
    c.g + c.h = Heuristic init.1 init.2 goal.1 goal.2 ∧ c.g = (popped.length : Int) ∧
    ∀ b ∈ post, Heuristic init.1 init.2 goal.1 goal.2 < b.g + b.h

/-- During `ExpandNeighbors` on the node `cur`: the open list holds a node of f-value `F`
pushed by this expansion, behind which all nodes have a greater f. -/
def Split (F : Int) (cur : Node) (openlist : List Node) : Prop :=
  ∃ pre c post, openlist = pre ++ c :: post ∧ c.g + c.h = F ∧ c.g = cur.g + 1 ∧
    ∀ b ∈ post, F < b.g + b.h


/-! ## Vocabulary of the later claims: machine integers, expansion, loop states -/

/-- The value of an `int` after conversion to the unsigned 64-bit type `size_t`, as it
happens in the comparisons `x >= grid.size()` of `IsValidCoord`. -/
def toSizeT (v : Int) : Nat := (v % 2 ^ 64).toNat

/-- `IsValidCoord(x, y, grid)` with the conversions of the signed/unsigned comparisons written
out. -/
def IsValidCoordUnsigned (x y : Int) (grid : Grid) : Except Fault Bool :=
  match grid with
  | [] => .error Fault.outOfRange
  | row0 :: _ =>
    let res := true
    let res := if x < 0 ∨ toSizeT x ≥ grid.length then false else res
    let res := if y < 0 ∨ toSizeT y ≥ row0.length then false else res
    .ok res

/-- An intermediate value of `int` arithmetic: `none` when it is not representable in 32
bits, signed overflow being undefined behaviour. -/
def checkedInt (v : Int) : Option Int :=
  if -2 ^ 31 ≤ v ∧ v < 2 ^ 31 then some v else none

/-- `Heuristic(x1, y1, x2, y2)` on 32-bit `int`: the two differences, their absolute values
and the sum must each be representable. -/
def HeuristicInt32 (x1 y1 x2 y2 : Int) : Option Int := do
  let dx ← checkedInt (x2 - x1)
  let ax ← checkedInt (intAbs dx)
  let dy ← checkedInt (y2 - y1)
  let ay ← checkedInt (intAbs dy)
  checkedInt (ax + ay)

/-- The offsets of `delta` that lead from the cell of `cur` to a cell that is on the grid and
`kEmpty`, in the order of `delta`. -/
def expandable (cur : Node) (grid : Grid) : List (Int × Int) :=
  delta.filter fun d => decide (cellAt grid (cur.x + d.1, cur.y + d.2) = .ok State.kEmpty)

/-- The node `(x', y', g + 1, Heuristic(x', y', goal))` for the neighbour of `cur` at offset
`d`. -/
def neighborNode (cur : Node) (goal : Int × Int) (d : Int × Int) : Node :=
  Node.mk (cur.x + d.1) (cur.y + d.2) (cur.g + 1)
    (Heuristic (cur.x + d.1) (cur.y + d.2) goal.1 goal.2)


/-! ## The states of the loop of `Search` -/

/-- The variables of `Search` at the head of its `while` loop, `openlist` and `grid`, together
with the list `popped` of the nodes taken from the open list so far (a ghost: the program
keeps only the last of them, in `currentNode`). Every node ever added to the open list is in
`popped` or still in `openlist`. -/
structure LoopState where
  popped : List Node
  openlist : List Node
  grid : Grid

/-- One iteration of the `while` loop of `Search` from the state `s`: `none` when the loop is
left, because the open list is empty or because the body returns at the goal; otherwise the
state at the head of the next iteration, with the node that was popped added to `popped`. -/
def loopStep (stdSort : (Node → Node → Bool) → List Node → List Node)
    (init goal : Int × Int) (s : LoopState) : Except Fault (Option LoopState) :=
  if s.openlist.isEmpty then .ok none
  else
    match searchBody stdSort init goal s.openlist s.grid with
    | .error e => .error e
    | .ok (Sum.inl _) => .ok none
    | .ok (Sum.inr next) =>
      .ok (some (LoopState.mk (s.popped ++ (CellSort stdSort s.openlist).getLast?.toList)
        next.1 next.2))

/-- The state of `Search(grid, init, goal)` at the head of the loop after `k` full iterations:
the state after seeding for `k = 0`, and `none` when the loop was left before. -/
def loopState (stdSort : (Node → Node → Bool) → List Node → List Node) (grid : Grid)
    (init goal : Int × Int) : Nat → Except Fault (Option LoopState)
  | 0 =>
    match AddToOpen init.1 init.2 0 (Heuristic init.1 init.2 goal.1 goal.2) [] grid with
    | .error e => .error e
    | .ok seeded => .ok (some (LoopState.mk [] seeded.1 seeded.2))
  | k + 1 =>
    match loopState stdSort grid init goal k with
    | .error e => .error e
    | .ok none => .ok none
    | .ok (some s) => loopStep stdSort init goal s

/-- The node `n` carries the heuristic of its cell, and its `g` is the number of steps of a
walk from `init` to its cell that stays on the input grid and whose cells after `init` are
all `kEmpty` there. -/
structure CostOk (grid0 : Grid) (init goal : Int × Int) (n : Node) : Prop where
  heuristic : n.h = Heuristic n.x n.y goal.1 goal.2
  walk : ∃ path, IsWalk init n.cell path ∧ (path.length : Int) = n.g + 1 ∧
    (∀ c ∈ path, InBounds grid0 c) ∧ ∀ c ∈ path.tail, cellAt grid0 c = .ok State.kEmpty

/-- The invariant of the loop states: the grid invariant `Inv` over the cells of the popped
nodes, and `CostOk` for every node popped or in the open list. -/
structure StateOk (grid0 : Grid) (init goal : Int × Int) (s : LoopState) : Prop where
  inv : Inv grid0 init (s.popped.map Node.cell) s.openlist s.grid
  cost : ∀ n ∈ s.popped ++ s.openlist, CostOk grid0 init goal n

/-! ## `ParseLine`: formatted extraction from a string stream -/

/-- The test `isspace` of the classic locale, by which formatted extraction skips leading
white space: space, and the control characters `\t`, `\n`, `\v`, `\f`, `\r`. -/
def isSpaceChar (c : Char) : Bool := decide (c.toNat = 32 ∨ (9 ≤ c.toNat ∧ c.toNat ≤ 13))

/-- One of the decimal digits `0` to `9`. -/
def isDigitChar (c : Char) : Bool := decide (48 ≤ c.toNat ∧ c.toNat ≤ 57)

/-- The rest of the stream after its leading white space. -/
def skipSpace : List Char → List Char
  | [] => []
  | c :: cs => if isSpaceChar c then skipSpace cs else c :: cs

/-- The longest run of digits at the front of the stream, and the rest of the stream. -/
def readDigits : List Char → List Char × List Char
  | [] => ([], [])
  | c :: cs =>
    if isDigitChar c then ((c :: (readDigits cs).1), (readDigits cs).2) else ([], c :: cs)

/-- The number written by a run of decimal digits. -/
def digitsValue (ds : List Char) : Nat := ds.foldl (fun acc d => 10 * acc + (d.toNat - 48)) 0

/-- The optional sign at the front of a number: whether it is `-`, and the rest of the
stream. -/
def readSign : List Char → Bool × List Char
  | [] => (false, [])
  | c :: r => if c = '-' then (true, r) else if c = '+' then (false, r) else (false, c :: r)

/-- The extraction `sline >> n` for `int n`: white space is skipped, then an optional sign and
a non-empty run of digits are read. The result is the value and the rest of the stream, or
`none` when the stream fails: no digits, or a value outside the range of `int`. -/
def extractInt (s : List Char) : Option (Int × List Char) :=
  let signed := readSign (skipSpace s)
  let ds := (readDigits signed.2).1
  let rest := (readDigits signed.2).2
  if ds.isEmpty then none
  else
    let v : Int := if signed.1 then -(digitsValue ds : Int) else (digitsValue ds : Int)
    if -2 ^ 31 ≤ v ∧ v < 2 ^ 31 then some (v, rest) else none

/-- The extraction `sline >> c` for `char c`: white space is skipped and one character is
read; `none` when the stream is at its end. -/
def extractChar (s : List Char) : Option (Char × List Char) :=
  match skipSpace s with
  | [] => none
  | c :: r => some (c, r)

/-- The loop condition `sline >> n >> c && c == ','` of `ParseLine`: when it holds, the value
of `n` and the rest of the stream. -/
def parseCond (s : List Char) : Option (Int × List Char) :=
  match extractInt s with
  | none => none
  | some (n, s1) =>
    match extractChar s1 with
    | none => none
    | some (c, s2) => if c = ',' then some (n, s2) else none

/-- The `while` loop of `ParseLine` on the rest `s` of the stream; `fuel` bounds the number of
times the body runs. -/
def parseLoop : Nat → List Char → List State → Except Fault (List State)
  | 0, s, row => if (parseCond s).isNone then .ok row else .error Fault.outOfFuel
  | fuel + 1, s, row =>
    match parseCond s with
    | none => .ok row
    | some (n, rest) =>
      parseLoop fuel rest (row ++ [if n = 0 then State.kEmpty else State.kObstacle])

/-- `ParseLine(line)`. -/
def ParseLine (fuel : Nat) (line : String) : Except Fault (List State) :=
  parseLoop fuel line.toList []

/-- A decimal integer token: an optional sign (`some true` for `-`, `some false` for `+`) and
its digits. -/
structure Token where
  sign : Option Bool
  digits : List Char

/-- The characters of a token. -/
def Token.text (t : Token) : List Char :=
  (match t.sign with
    | none => []
    | some true => ['-']
    | some false => ['+']) ++ t.digits

/-- The integer a token denotes. -/
def Token.value (t : Token) : Int :=
  if t.sign = some true then -(digitsValue t.digits : Int) else (digitsValue t.digits : Int)

/-- The token is a decimal integer in the range of `int`: at least one digit, digits only. -/
def Token.WellFormed (t : Token) : Prop :=
  t.digits ≠ [] ∧ (∀ d ∈ t.digits, isDigitChar d = true) ∧
    -2 ^ 31 ≤ t.value ∧ t.value < 2 ^ 31

/-- The cell a token stands for: `kEmpty` for the value 0, `kObstacle` otherwise. -/
def Token.cell (t : Token) : State :=
  if t.value = 0 then State.kEmpty else State.kObstacle

/-- The line in which every token is followed by a comma. -/
def commaTerminated (toks : List Token) : List Char :=
  toks.flatMap fun t => t.text ++ [',']

instance (t : Token) : Decidable t.WellFormed :=
  inferInstanceAs (Decidable (t.digits ≠ [] ∧ (∀ d ∈ t.digits, isDigitChar d = true) ∧
    -2 ^ 31 ≤ t.value ∧ t.value < 2 ^ 31))

/-! ## `std::sort` as implemented in libstdc++

The routines of `bits/stl_algo.h` and `bits/stl_heap.h` behind `std::sort`, on a vector given as
a list and iterators given as positions. A routine yields `none` when it reads outside the
vector or when a loop takes more steps than the vector has elements; with a comparator that is
a strict weak ordering, as `Compare` is, neither happens. -/

/-- `std::__lg(n)`: the binary logarithm of `n`, rounded down; `fuel` bounds the halvings. -/
def lgAux : Nat → Nat → Nat
  | 0, _ => 0
  | fuel + 1, n => if n < 2 then 0 else lgAux fuel (n / 2) + 1

/-- `std::__lg(n)`. -/
def lg (n : Nat) : Nat := lgAux n n

/-- `std::iter_swap(i, j)`. -/
def iterSwap (v : List Node) (i j : Nat) : Option (List Node) := do
  let x ← v[i]?
  let y ← v[j]?
  some ((v.set i y).set j x)

/-- `std::__move_median_to_first(result, a, b, c, comp)`. -/
def moveMedianToFirst (comp : Node → Node → Bool) (v : List Node) (result a b c : Nat) :
    Option (List Node) := do
  let va ← v[a]?
  let vb ← v[b]?
  let vc ← v[c]?
  if comp va vb then
    if comp vb vc then iterSwap v result b
    else if comp va vc then iterSwap v result c
    else iterSwap v result a
  else if comp va vc then iterSwap v result a
  else if comp vb vc then iterSwap v result c
  else iterSwap v result b

/-- The loop `while (comp(first, pivot)) ++first;` of `std::__unguarded_partition`: the
position at which it stops. -/
def scanUp (comp : Node → Node → Bool) (v : List Node) (pivot : Nat) : Nat → Nat → Option Nat
  | 0, _ => none
  | fuel + 1, first => do
    let x ← v[first]?
    let p ← v[pivot]?
    if comp x p then scanUp comp v pivot fuel (first + 1) else some first

/-- The loop `while (comp(pivot, last)) --last;` of `std::__unguarded_partition`: the position
at which it stops. -/
def scanDown (comp : Node → Node → Bool) (v : List Node) (pivot : Nat) : Nat → Option Nat
  | 0 => do
    let x ← v[0]?
    let p ← v[pivot]?
    if comp p x then none else some 0
  | last + 1 => do
    let x ← v[last + 1]?
    let p ← v[pivot]?
    if comp p x then scanDown comp v pivot last else some (last + 1)

/-- `std::__unguarded_partition(first, last, pivot, comp)`: the cut position and the vector. -/
def unguardedPartition (comp : Node → Node → Bool) (pivot : Nat) :
    Nat → Nat → Nat → List Node → Option (Nat × List Node)
  | 0, _, _, _ => none
  | fuel + 1, first, last, v => do
    let first ← scanUp comp v pivot (v.length + 1) first
    let last ← match last with
      | 0 => none
      | last + 1 => scanDown comp v pivot last
    if first < last then
      let v ← iterSwap v first last
      unguardedPartition comp pivot fuel (first + 1) last v
    else some (first, v)

/-- `std::__unguarded_partition_pivot(first, last, comp)`. -/
def unguardedPartitionPivot (comp : Node → Node → Bool) (first last : Nat) (v : List Node) :
    Option (Nat × List Node) := do
  let mid := first + (last - first) / 2
  let v ← moveMedianToFirst comp v first (first + 1) mid (last - 1)
  unguardedPartition comp first (v.length + 1) (first + 1) last v

/-- `std::__push_heap(first, holeIndex, topIndex, value, comp)`. -/
def pushHeap (comp : Node → Node → Bool) (first topIndex : Nat) (value : Node) :
    Nat → Nat → List Node → Option (List Node)
  | 0, _, _ => none
  | fuel + 1, holeIndex, v =>
    let parent := (holeIndex - 1) / 2
    if holeIndex > topIndex then do
      let p ← v[first + parent]?
      if comp p value then
        pushHeap comp first topIndex value fuel parent (v.set (first + holeIndex) p)
      else some (v.set (first + holeIndex) value)
    else some (v.set (first + holeIndex) value)

/-- The `while` loop of `std::__adjust_heap`: `holeIndex`, `secondChild` and the vector when it
is left. -/
def adjustHeapLoop (comp : Node → Node → Bool) (first len : Nat) :
    Nat → Nat → Nat → List Node → Option (Nat × Nat × List Node)
  | 0, _, _, _ => none
  | fuel + 1, holeIndex, secondChild, v =>
    if secondChild < (len - 1) / 2 then do
      let secondChild := 2 * (secondChild + 1)
      let a ← v[first + secondChild]?
      let b ← v[first + (secondChild - 1)]?
      let secondChild := if comp a b then secondChild - 1 else secondChild
      let x ← v[first + secondChild]?
      adjustHeapLoop comp first len fuel secondChild secondChild (v.set (first + holeIndex) x)
    else some (holeIndex, secondChild, v)

/-- `std::__adjust_heap(first, holeIndex, len, value, comp)`. -/
def adjustHeap (comp : Node → Node → Bool) (first holeIndex len : Nat) (value : Node)
    (v : List Node) : Option (List Node) := do
  let topIndex := holeIndex
  let (holeIndex, secondChild, v) ←
    adjustHeapLoop comp first len (v.length + 1) holeIndex holeIndex v
  if len % 2 = 0 ∧ secondChild = (len - 2) / 2 then
    let secondChild := 2 * (secondChild + 1)
    let x ← v[first + (secondChild - 1)]?
    pushHeap comp first topIndex value (v.length + 1) (secondChild - 1)
      (v.set (first + holeIndex) x)
  else pushHeap comp first topIndex value (v.length + 1) holeIndex v

/-- `std::__pop_heap(first, last, result, comp)`. -/
def popHeap (comp : Node → Node → Bool) (first last result : Nat) (v : List Node) :
    Option (List Node) := do
  let value ← v[result]?
  let top ← v[first]?
  adjustHeap comp first 0 (last - first) value (v.set result top)

/-- The loop of `std::__make_heap`, from `parent` down to 0. -/
def makeHeapLoop (comp : Node → Node → Bool) (first len : Nat) :
    Nat → List Node → Option (List Node)
  | 0, v => do
    let value ← v[first]?
    adjustHeap comp first 0 len value v
  | parent + 1, v => do
    let value ← v[first + (parent + 1)]?
    let v ← adjustHeap comp first (parent + 1) len value v
    makeHeapLoop comp first len parent v

/-- `std::__make_heap(first, last, comp)`. -/
def makeHeap (comp : Node → Node → Bool) (first last : Nat) (v : List Node) :
    Option (List Node) :=
  if last - first < 2 then some v
  else makeHeapLoop comp first (last - first) ((last - first - 2) / 2) v

/-- `std::__heap_select(first, middle, last, comp)`. -/
def heapSelect (comp : Node → Node → Bool) (first middle last : Nat) (v : List Node) :
    Option (List Node) := do
  let v ← makeHeap comp first middle v
  (List.range' middle (last - middle)).foldlM (fun v i => do
    let x ← v[i]?
    let top ← v[first]?
    if comp x top then popHeap comp first middle i v else some v) v

/-- `std::__sort_heap(first, last, comp)`. -/
def sortHeap (comp : Node → Node → Bool) (first : Nat) : Nat → List Node → Option (List Node)
  | 0, v => some v
  | last + 1, v =>
    if last + 1 - first > 1 then do
      let v ← popHeap comp first last last v
      sortHeap comp first last v
    else some v

/-- `std::__partial_sort(first, middle, last, comp)`. -/
def partialSort (comp : Node → Node → Bool) (first middle last : Nat) (v : List Node) :
    Option (List Node) := do
  let v ← heapSelect comp first middle last v
  sortHeap comp first middle v

/-- `std::__introsort_loop(first, last, depth_limit, comp)`, `_S_threshold` being 16: every run
of the loop body lowers `depth_limit`, in the recursive call and in the loop itself. -/
def introsortLoop (comp : Node → Node → Bool) : Nat → Nat → Nat → List Node → Option (List Node)
  | 0, first, last, v =>
    if last - first > 16 then partialSort comp first last last v else some v
  | depthLimit + 1, first, last, v =>
    if last - first > 16 then do
      let (cut, v) ← unguardedPartitionPivot comp first last v
      let v ← introsortLoop comp depthLimit cut last v
      introsortLoop comp depthLimit first cut v
    else some v

/-- The loop of `std::__unguarded_linear_insert` with `val` taken from position `last`: the
elements before `last` that `val` goes in front of move up by one. -/
def linearInsertLoop (comp : Node → Node → Bool) (val : Node) :
    Nat → List Node → Option (List Node)
  | 0, _ => none
  | next + 1, v => do
    let x ← v[next]?
    if comp val x then linearInsertLoop comp val next (v.set (next + 1) x)
    else some (v.set (next + 1) val)

/-- `std::__unguarded_linear_insert(last, comp)`. -/
def unguardedLinearInsert (comp : Node → Node → Bool) (last : Nat) (v : List Node) :
    Option (List Node) := do
  let val ← v[last]?
  linearInsertLoop comp val last v

/-- One pass of the `for` loop of `std::__insertion_sort(first, last, comp)`, for the position
`i`: an element that goes in front of `*first` is moved there by `std::move_backward`, any
other by `std::__unguarded_linear_insert`. -/
def insertionSortStep (comp : Node → Node → Bool) (first : Nat) (v : List Node) (i : Nat) :
    Option (List Node) := do
  let val ← v[i]?
  let front ← v[first]?
  if comp val front then
    some (v.take first ++ val :: (v.drop first).take (i - first) ++ v.drop (i + 1))
  else unguardedLinearInsert comp i v

/-- `std::__insertion_sort(first, last, comp)`. -/
def stlInsertionSort (comp : Node → Node → Bool) (first last : Nat) (v : List Node) :
    Option (List Node) :=
  if first = last then some v
  else (List.range' (first + 1) (last - (first + 1))).foldlM (insertionSortStep comp first) v

/-- `std::__unguarded_insertion_sort(first, last, comp)`. -/
def unguardedInsertionSort (comp : Node → Node → Bool) (first last : Nat) (v : List Node) :
    Option (List Node) :=
  (List.range' first (last - first)).foldlM (fun v i => unguardedLinearInsert comp i v) v

/-- `std::__final_insertion_sort(first, last, comp)`. -/
def finalInsertionSort (comp : Node → Node → Bool) (first last : Nat) (v : List Node) :
    Option (List Node) :=
  if last - first > 16 then do
    let v ← stlInsertionSort comp first (first + 16) v
    unguardedInsertionSort comp (first + 16) last v
  else stlInsertionSort comp first last v

/-- `std::__sort(first, last, comp)` on the whole vector. -/
def stlSort (comp : Node → Node → Bool) (v : List Node) : Option (List Node) :=
  if v.length = 0 then some v
  else do
    let v ← introsortLoop comp (lg v.length * 2) 0 v.length v
    finalInsertionSort comp 0 v.length v

/-- `std::sort(v.begin(), v.end(), comp)` of libstdc++ as a sort routine for `CellSort`. A run
that does not complete leaves the empty list, on which `Search` faults at once, so that a
result of `Search` is a result of completed sorts only. -/
def libstdcxxSort (comp : Node → Node → Bool) (v : List Node) : List Node :=
  match stlSort comp v with
  | some sorted => sorted
  | none => []

/-- The 4x10 grid without obstacles. -/
def gridOpen4x10 : Grid := List.replicate 4 (List.replicate 10 State.kEmpty)

/-- The grid returned by `Search` with `libstdcxxSort` on `gridOpen4x10` from `(1, 0)` to
`(3, 8)`. -/
def resultOpen4x10 : Grid :=
  [[State.kClosed, State.kClosed, State.kClosed, State.kClosed, State.kClosed,
    State.kClosed, State.kClosed, State.kClosed, State.kClosed, State.kEmpty],
   [State.kStart, State.kPath, State.kPath, State.kPath, State.kPath,
    State.kPath, State.kPath, State.kPath, State.kPath, State.kClosed],
   [State.kPath, State.kClosed, State.kClosed, State.kClosed, State.kClosed,
    State.kClosed, State.kClosed, State.kClosed, State.kPath, State.kClosed],
   [State.kClosed, State.kEmpty, State.kEmpty, State.kEmpty, State.kEmpty,
    State.kEmpty, State.kEmpty, State.kEmpty, State.kFinish, State.kEmpty]]

/-! ## Reading and writing cells -/

theorem getCell_ok_iff {grid : Grid} {x y : Int} {s : State} :
    getCell grid x y = .ok s ↔
      0 ≤ x ∧ 0 ≤ y ∧ ∃ row, grid[x.toNat]? = some row ∧ row[y.toNat]? = some s := by
  unfold getCell
  simp only [List.getD_eq_getElem?_getD]
  constructor
  · intro h
    split_ifs at h with h1 h2
    · have hxn : x.toNat < grid.length := by omega
      rw [List.getElem?_eq_getElem hxn, Option.getD_some] at h h2
      have hyn : y.toNat < (grid[x.toNat]).length := by omega
      rw [List.getElem?_eq_getElem hyn, Option.getD_some] at h
      refine ⟨h1.1, h2.1, _, List.getElem?_eq_getElem hxn, ?_⟩
      rw [List.getElem?_eq_getElem hyn]
      simpa using h
  · rintro ⟨hx0, hy0, row, hr, hs⟩
    obtain ⟨hxn, rfl⟩ := List.getElem?_eq_some.1 hr
    obtain ⟨hyn, rfl⟩ := List.getElem?_eq_some.1 hs
    have h1 : 0 ≤ x ∧ x < grid.length := by omega
    rw [if_pos h1, List.getElem?_eq_getElem hxn, Option.getD_some]
    have h2 : 0 ≤ y ∧ y < (grid[x.toNat]).length := by omega
    rw [if_pos h2, List.getElem?_eq_getElem hyn, Option.getD_some]

theorem getCell_error {grid : Grid} {x y : Int} {e : Fault}
    (h : getCell grid x y = .error e) : e = Fault.outOfRange := by
  unfold getCell at h
  split_ifs at h <;> simp_all

theorem getCell_congr {g1 g2 : Grid} {x1 y1 x2 y2 : Int}
    (h : ∀ s, getCell g1 x1 y1 = .ok s ↔ getCell g2 x2 y2 = .ok s) :
    getCell g1 x1 y1 = getCell g2 x2 y2 := by
  cases h1 : getCell g1 x1 y1 with
  | ok s => exact ((h s).1 h1).symm
  | error e =>
    cases h2 : getCell g2 x2 y2 with
    | ok s => rw [(h s).2 h2] at h1; cases h1
    | error e' => rw [getCell_error h1, getCell_error h2]

theorem setCell_ok_iff {grid : Grid} {x y : Int} {s : State} {g' : Grid} :
    setCell grid x y s = .ok g' ↔
      0 ≤ x ∧ 0 ≤ y ∧ ∃ row, grid[x.toNat]? = some row ∧ y.toNat < row.length ∧
        g' = grid.set x.toNat (row.set y.toNat s) := by
  unfold setCell
  simp only [List.getD_eq_getElem?_getD]
  constructor
  · intro h
    split_ifs at h with h1 h2
    · have hxn : x.toNat < grid.length := by omega
      rw [List.getElem?_eq_getElem hxn, Option.getD_some] at h h2
      refine ⟨h1.1, h2.1, _, List.getElem?_eq_getElem hxn, by omega, ?_⟩
      simpa using h.symm
  · rintro ⟨hx0, hy0, row, hr, hyn, rfl⟩
    obtain ⟨hxn, rfl⟩ := List.getElem?_eq_some.1 hr
    have h1 : 0 ≤ x ∧ x < grid.length := by omega
    rw [if_pos h1, List.getElem?_eq_getElem hxn, Option.getD_some]
    have h2 : 0 ≤ y ∧ y < (grid[x.toNat]).length := by omega
    rw [if_pos h2]

theorem setCell_of_getCell {grid : Grid} {x y : Int} {s0 : State}
    (h : getCell grid x y = .ok s0) (s : State) : ∃ g', setCell grid x y s = .ok g' := by
  obtain ⟨hx0, hy0, row, hr, hs⟩ := getCell_ok_iff.1 h
  obtain ⟨hyn, -⟩ := List.getElem?_eq_some.1 hs
  exact ⟨_, setCell_ok_iff.2 ⟨hx0, hy0, row, hr, hyn, rfl⟩⟩

theorem getCell_of_setCell {grid : Grid} {x y : Int} {s : State} {g' : Grid}
    (h : setCell grid x y s = .ok g') : ∃ s0, getCell grid x y = .ok s0 := by
  obtain ⟨hx0, hy0, row, hr, hyn, -⟩ := setCell_ok_iff.1 h
  exact ⟨row[y.toNat], getCell_ok_iff.2 ⟨hx0, hy0, row, hr, List.getElem?_eq_getElem hyn⟩⟩

theorem setCell_shape {grid : Grid} {x y : Int} {s : State} {g' : Grid}
    (h : setCell grid x y s = .ok g') : g'.map List.length = grid.map List.length := by
  obtain ⟨hx0, hy0, row, hr, hyn, rfl⟩ := setCell_ok_iff.1 h
  obtain ⟨hxn, rfl⟩ := List.getElem?_eq_some.1 hr
  apply List.ext_getElem
  · simp
  · intro i h1 h2
    simp only [List.getElem_map, List.getElem_set]
    split_ifs with hi
    · subst hi; simp
    · rfl

theorem getCell_setCell {grid : Grid} {x y : Int} {s : State} {g' : Grid}
    (h : setCell grid x y s = .ok g') (x' y' : Int) :
    getCell g' x' y' = if x' = x ∧ y' = y then .ok s else getCell grid x' y' := by
  obtain ⟨hx0, hy0, row, hr, hyn, rfl⟩ := setCell_ok_iff.1 h
  obtain ⟨hxn, rfl⟩ := List.getElem?_eq_some.1 hr
  split_ifs with hc
  · obtain ⟨rfl, rfl⟩ := hc
    exact getCell_ok_iff.2 ⟨hx0, hy0, _, List.getElem?_set_self hxn,
      List.getElem?_set_self hyn⟩
  · apply getCell_congr
    intro t
    rw [getCell_ok_iff, getCell_ok_iff]
    refine and_congr_right fun hx'0 => and_congr_right fun hy'0 => ?_
    by_cases hx : x.toNat = x'.toNat
    · have hxx : x' = x := by omega
      have hy : y.toNat ≠ y'.toNat := fun hy => hc ⟨hxx, by omega⟩
      rw [← hx, List.getElem?_set_self hxn, List.getElem?_eq_getElem hxn]
      constructor
      · rintro ⟨r, hr, ht⟩
        cases hr
        rw [List.getElem?_set_ne hy] at ht
        exact ⟨_, rfl, ht⟩
      · rintro ⟨r, hr, ht⟩
        cases hr
        exact ⟨_, rfl, by rw [List.getElem?_set_ne hy]; exact ht⟩
    · rw [List.getElem?_set_ne hx]


theorem cellAt_setCell {grid : Grid} {x y : Int} {s : State} {g' : Grid}
    (h : setCell grid x y s = .ok g') (c : Int × Int) :
    cellAt g' c = if c = (x, y) then .ok s else cellAt grid c := by
  unfold cellAt
  rw [getCell_setCell h]
  have : (c.1 = x ∧ c.2 = y) ↔ c = (x, y) := by
    constructor
    · rintro ⟨rfl, rfl⟩; rfl
    · rintro rfl; exact ⟨rfl, rfl⟩
  simp only [this]

theorem cellAt_setCell_self {grid : Grid} {x y : Int} {s : State} {g' : Grid}
    (h : setCell grid x y s = .ok g') : cellAt g' (x, y) = .ok s := by
  rw [cellAt_setCell h, if_pos rfl]

theorem cellAt_setCell_ne {grid : Grid} {x y : Int} {s : State} {g' : Grid}
    (h : setCell grid x y s = .ok g') {c : Int × Int} (hc : c ≠ (x, y)) :
    cellAt g' c = cellAt grid c := by
  rw [cellAt_setCell h, if_neg hc]

/-! ## Adjacency and the direction table -/

theorem adjacent4_iff {a b : Int × Int} :
    Adjacent4 a b ↔ ∃ d ∈ delta, b = (a.1 + d.1, a.2 + d.2) := by
  obtain ⟨a1, a2⟩ := a
  obtain ⟨b1, b2⟩ := b
  simp only [Adjacent4, intAbs, delta, List.mem_cons, List.mem_singleton, List.not_mem_nil,
    or_false, exists_eq_or_imp, exists_eq_left, Prod.mk.injEq]
  constructor
  · intro h
    split_ifs at h <;> omega
  · intro h
    split_ifs <;> omega

theorem Adjacent4.symm {a b : Int × Int} (h : Adjacent4 a b) : Adjacent4 b a := by
  unfold Adjacent4 intAbs at *
  split_ifs at h ⊢ <;> omega


/-! ## The effect of the helper routines -/

theorem isValidCoord_ok {x y : Int} {grid : Grid} {b : Bool}
    (h : IsValidCoord x y grid = .ok b) :
    grid ≠ [] ∧ (b = true ↔ InBounds grid (x, y)) := by
  unfold IsValidCoord at h
  cases grid with
  | nil => cases h
  | cons row0 rest =>
    simp only [Except.ok.injEq] at h
    refine ⟨List.cons_ne_nil _ _, ?_⟩
    subst h
    simp only [InBounds, List.headD_cons]
    split_ifs with h1 h2 <;> simp at * <;> omega

theorem checkValidCell_true {x y : Int} {grid : Grid}
    (h : CheckValidCell x y grid = .ok true) :
    InBounds grid (x, y) ∧ getCell grid x y = .ok State.kEmpty := by
  unfold CheckValidCell at h
  cases hv : IsValidCoord x y grid with
  | error e => simp [hv, bind, Except.bind] at h
  | ok b =>
    have hb := (isValidCoord_ok hv).2
    cases b with
    | false => simp [hv, bind, Except.bind, pure, Except.pure] at h
    | true =>
      refine ⟨hb.1 rfl, ?_⟩
      cases hg : getCell grid x y with
      | error e => simp [hv, hg, bind, Except.bind, pure, Except.pure] at h
      | ok s =>
        by_cases hs : s = State.kEmpty
        · rw [hs]
        · simp [hv, hg, hs, bind, Except.bind, pure, Except.pure] at h

theorem checkValidCell_false {x y : Int} {grid : Grid}
    (h : CheckValidCell x y grid = .ok false) :
    ¬ InBounds grid (x, y) ∨ ∃ s, s ≠ State.kEmpty ∧ getCell grid x y = .ok s := by
  unfold CheckValidCell at h
  cases hv : IsValidCoord x y grid with
  | error e => simp [hv, bind, Except.bind] at h
  | ok b =>
    have hb := (isValidCoord_ok hv).2
    cases b with
    | false => left; intro hin; exact absurd (hb.2 hin) (by simp)
    | true =>
      right
      cases hg : getCell grid x y with
      | error e => simp [hv, hg, bind, Except.bind, pure, Except.pure] at h
      | ok s =>
        by_cases hs : s = State.kEmpty
        · simp [hv, hg, hs, bind, Except.bind, pure, Except.pure] at h
        · exact ⟨s, hs, rfl⟩

theorem expandOne_ok {cur : Node} {goal : Int × Int} {A A' : List Node} {H H' : Grid}
    {d : Int × Int} (h : expandOne cur goal (A, H) d = .ok (A', H')) :
    (cellAt H (cur.x + d.1, cur.y + d.2) = .ok State.kEmpty ∧
      InBounds H (cur.x + d.1, cur.y + d.2) ∧
      A' = A ++ [{ x := cur.x + d.1, y := cur.y + d.2, g := cur.g + 1,
                   h := Heuristic (cur.x + d.1) (cur.y + d.2) goal.1 goal.2 }] ∧
      setCell H (cur.x + d.1) (cur.y + d.2) State.kClosed = .ok H') ∨
    (CheckValidCell (cur.x + d.1) (cur.y + d.2) H = .ok false ∧ A' = A ∧ H' = H) := by
  unfold expandOne at h
  cases hc : CheckValidCell (cur.x + d.1) (cur.y + d.2) H with
  | error e => simp [hc, bind, Except.bind] at h
  | ok b =>
    cases b with
    | false =>
      right
      simp [hc, bind, Except.bind, pure, Except.pure] at h
      exact ⟨rfl, h.1.symm, h.2.symm⟩
    | true =>
      left
      have hv := checkValidCell_true hc
      simp only [hc, bind, Except.bind, AddToOpen, if_true] at h
      cases hset : setCell H (cur.x + d.1) (cur.y + d.2) State.kClosed with
      | error e => simp [hset] at h
      | ok H2 =>
        simp [hset, pure, Except.pure] at h
        exact ⟨hv.2, hv.1, h.1.symm, by rw [h.2]⟩

theorem searchBody_ok {stdSort : (Node → Node → Bool) → List Node → List Node}
    (hs : IsStdSort stdSort) {init goal : Int × Int} {O : List Node} {G : Grid}
    {res : Sum (Node × Grid) (List Node × Grid)}
    (h : searchBody stdSort init goal O G = .ok res) :
    ∃ cur rest G1, (rest ++ [cur]).Perm O ∧ CellSort stdSort O = rest ++ [cur] ∧
      setCell G cur.x cur.y State.kPath = .ok G1 ∧
      ((cur.cell = goal ∧ ∃ G2 G3, setCell G1 init.1 init.2 State.kStart = .ok G2 ∧
          setCell G2 goal.1 goal.2 State.kFinish = .ok G3 ∧ res = Sum.inl (cur, G3)) ∨
       (cur.cell ≠ goal ∧ ∃ next, ExpandNeighbors cur goal rest G1 = .ok next ∧
          res = Sum.inr next)) := by
  unfold searchBody at h
  simp only [bind, Except.bind] at h
  cases hl : (CellSort stdSort O).getLast? with
  | none => simp [hl, throw, throwThe, MonadExceptOf.throw] at h
  | some cur =>
    obtain ⟨rest, hrest⟩ := List.getLast?_eq_some_iff.1 hl
    have hperm : (rest ++ [cur]).Perm O := hrest ▸ hs.perm O
    simp only [hl] at h
    cases hset : setCell G cur.x cur.y State.kPath with
    | error e => simp [hset] at h
    | ok G1 =>
      refine ⟨cur, rest, G1, hperm, hrest, hset, ?_⟩
      simp only [hset, hrest, List.dropLast_concat] at h
      by_cases hg : cur.x = goal.1 ∧ cur.y = goal.2
      · left
        have hcg : cur.cell = goal := Prod.ext hg.1 hg.2
        rw [if_pos hg] at h
        cases h2 : setCell G1 init.1 init.2 State.kStart with
        | error e => simp [h2] at h
        | ok G2 =>
          cases h3 : setCell G2 goal.1 goal.2 State.kFinish with
          | error e => simp [h2, h3] at h
          | ok G3 =>
            simp [h2, h3, pure, Except.pure] at h
            exact ⟨hcg, G2, G3, rfl, h3, h.symm⟩
      · right
        have hcg : cur.cell ≠ goal := fun hc => hg ⟨congrArg Prod.fst hc, congrArg Prod.snd hc⟩
        rw [if_neg hg] at h
        cases h2 : ExpandNeighbors cur goal rest G1 with
        | error e => simp [h2] at h
        | ok next =>
          simp [h2, pure, Except.pure] at h
          exact ⟨hcg, next, rfl, h.symm⟩

theorem searchLoop_rule {stdSort : (Node → Node → Bool) → List Node → List Node}
    {init goal : Int × Int} (I : List Node → Grid → Prop) (Q : Option (Node × Grid) → Prop)
    (hexh : ∀ G, I [] G → Q none)
    (hret : ∀ O G found, I O G → O ≠ [] →
      searchBody stdSort init goal O G = .ok (Sum.inl found) → Q (some found))
    (hstep : ∀ O G next, I O G → O ≠ [] →
      searchBody stdSort init goal O G = .ok (Sum.inr next) → I next.1 next.2) :
    ∀ (fuel : Nat) (O : List Node) (G : Grid) (r : Option (Node × Grid)),
      I O G → searchLoop stdSort init goal fuel O G = .ok r → Q r := by
  intro fuel
  induction fuel with
  | zero =>
    intro O G r hI h
    unfold searchLoop at h
    split_ifs at h with he
    · cases h
      rw [List.isEmpty_iff] at he
      exact hexh G (he ▸ hI)
  | succ fuel ih =>
    intro O G r hI h
    unfold searchLoop at h
    split_ifs at h with he
    · cases h
      rw [List.isEmpty_iff] at he
      exact hexh G (he ▸ hI)
    · have hne : O ≠ [] := fun hO => he (by simp [hO])
      cases hb : searchBody stdSort init goal O G with
      | error e => simp [hb] at h
      | ok res =>
        cases res with
        | inl found =>
          simp only [hb, Except.ok.injEq] at h
          exact h ▸ hret O G found hI hne hb
        | inr next =>
          simp only [hb] at h
          exact ih next.1 next.2 r (hstep O G next hI hne hb) h


/-! ## The invariant is established and kept -/

theorem foldlM_rule_mem {α β : Type} (f : β → α → Except Fault β) (J : β → Prop)
    (l : List α) (hstep : ∀ b a b', a ∈ l → J b → f b a = .ok b' → J b')
    (b r : β) (hb : J b) (h : l.foldlM f b = .ok r) : J r := by
  induction l generalizing b with
  | nil =>
    simp [List.foldlM, pure, Except.pure] at h
    exact h ▸ hb
  | cons a l ih =>
    rw [List.foldlM_cons] at h
    cases hf : f b a with
    | error e => simp [hf, bind, Except.bind] at h
    | ok b' =>
      simp only [hf, bind, Except.bind] at h
      exact ih (fun b a b' ha => hstep b a b' (List.mem_cons_of_mem _ ha)) b'
        (hstep b a b' (List.mem_cons_self _ _) hb hf) h

theorem isWalk_single (a : Int × Int) : IsWalk a a [a] :=
  ⟨rfl, rfl, List.chain'_singleton a⟩

theorem IsWalk.snoc {a b c : Int × Int} {l : List (Int × Int)} (h : IsWalk a b l)
    (hadj : Adjacent4 b c) : IsWalk a c (l ++ [c]) := by
  refine ⟨?_, by simp, ?_⟩
  · cases l with
    | nil => cases h.head
    | cons x l => exact h.head
  · rw [List.chain'_append]
    refine ⟨h.chain, List.chain'_singleton c, ?_⟩
    intro x hx y hy
    rw [h.last] at hx
    cases hx
    cases hy
    exact hadj

theorem Inv.seed {grid0 : Grid} {init : Int × Int} {g h : Int} {O : List Node} {G : Grid}
    (hadd : AddToOpen init.1 init.2 g h [] grid0 = .ok (O, G)) :
    Inv grid0 init [] O G := by
  unfold AddToOpen at hadd
  simp only [bind, Except.bind, List.nil_append] at hadd
  cases hset : setCell grid0 init.1 init.2 State.kClosed with
  | error e => simp [hset] at hadd
  | ok G1 =>
    simp only [hset, pure, Except.pure, Except.ok.injEq, Prod.mk.injEq] at hadd
    obtain ⟨rfl, rfl⟩ := hadd
    refine ⟨setCell_shape hset, ?_, ?_, ?_, ?_, ?_, ?_, ?_, ?_⟩
    · intro c hc; cases hc
    · intro n hn
      rw [List.mem_singleton] at hn
      subst hn
      exact cellAt_setCell_self hset
    · intro c _ hc
      apply cellAt_setCell_ne hset
      intro hcc
      exact hc (by simp [Node.cell, hcc])
    · intro c hc
      left
      simpa [Node.cell] using hc
    · simp [Node.cell]
    · simp
    · intro c hc; cases hc
    · intro n hn
      left
      rw [List.mem_singleton] at hn
      subst hn
      rfl

theorem Inv.pop {grid0 : Grid} {init : Int × Int} {P : List (Int × Int)} {O rest : List Node}
    {cur : Node} {G G1 : Grid} (hI : Inv grid0 init P O G)
    (hperm : (rest ++ [cur]).Perm O)
    (hset : setCell G cur.x cur.y State.kPath = .ok G1) :
    Inv grid0 init (P ++ [cur.cell]) rest G1 := by
  have hmem : ∀ n, n ∈ O ↔ n ∈ rest ∨ n = cur := by
    intro n
    rw [← hperm.mem_iff, List.mem_append, List.mem_singleton]
  have hcells : ((P ++ [cur.cell]) ++ rest.map Node.cell).Perm (P ++ O.map Node.cell) := by
    rw [List.append_assoc]
    apply List.Perm.append_left
    have := hperm.map Node.cell
    rw [List.map_append, List.map_singleton] at this
    exact List.perm_append_comm.trans this
  have hnd : ((P ++ [cur.cell]) ++ rest.map Node.cell).Nodup := hcells.nodup_iff.2 hI.nodup
  have hcurP : cur.cell ∉ P := by
    intro hc
    have := List.nodup_append.1 (List.nodup_append.1 hnd).1
    exact this.2.2 hc (List.mem_singleton_self _)
  have hcurR : cur.cell ∉ rest.map Node.cell := by
    intro hc
    exact (List.nodup_append.1 hnd).2.2 (List.mem_append_right _ (List.mem_singleton_self _)) hc
  have hcurcell : (cur.x, cur.y) = cur.cell := rfl
  refine ⟨(setCell_shape hset).trans hI.shape, ?_, ?_, ?_, ?_, ?_, hnd, ?_, ?_⟩
  · intro c hc
    rw [List.mem_append, List.mem_singleton] at hc
    rcases hc with hc | rfl
    · rw [cellAt_setCell_ne hset (fun h => hcurP (hcurcell ▸ h ▸ hc))]
      exact hI.isPath c hc
    · exact cellAt_setCell_self hset
  · intro n hn
    rw [cellAt_setCell_ne hset (fun h => hcurR (hcurcell ▸ h ▸ List.mem_map_of_mem _ hn))]
    exact hI.isClosed n ((hmem n).2 (Or.inl hn))
  · intro c hcP hcR
    have hne : c ≠ (cur.x, cur.y) := by
      intro h
      exact hcP (List.mem_append_right _ (by rw [h]; exact List.mem_singleton_self _))
    rw [cellAt_setCell_ne hset hne]
    apply hI.frame c (fun h => hcP (List.mem_append_left _ h))
    intro h
    obtain ⟨n, hn, rfl⟩ := List.mem_map.1 h
    rcases (hmem n).1 hn with hn | rfl
    · exact hcR (List.mem_map_of_mem _ hn)
    · exact hne rfl
  · intro c hc
    exact hI.origin c (hcells.mem_iff.1 hc)
  · exact hcells.mem_iff.2 hI.seeded
  · intro c hc
    rw [List.mem_append, List.mem_singleton] at hc
    rcases hc with hc | rfl
    · obtain ⟨l, hl, hlP⟩ := hI.tree c hc
      exact ⟨l, hl, fun d hd => List.mem_append_left _ (hlP d hd)⟩
    · rcases hI.parent cur ((hmem cur).2 (Or.inr rfl)) with h | ⟨p, hp, hadj⟩
      · refine ⟨[cur.cell], ?_, ?_⟩
        · rw [h]; exact isWalk_single init
        · intro d hd
          rw [List.mem_singleton] at hd
          exact List.mem_append_right _ (by rw [hd]; exact List.mem_singleton_self _)
      · obtain ⟨l, hl, hlP⟩ := hI.tree p hp
        refine ⟨l ++ [cur.cell], hl.snoc hadj, ?_⟩
        intro d hd
        rw [List.mem_append] at hd ⊢
        exact hd.imp (hlP d) id
  · intro n hn
    rcases hI.parent n ((hmem n).2 (Or.inl hn)) with h | ⟨p, hp, hadj⟩
    · exact Or.inl h
    · exact Or.inr ⟨p, List.mem_append_left _ hp, hadj⟩

theorem Inv.push {grid0 : Grid} {init : Int × Int} {P : List (Int × Int)} {A : List Node}
    {H H' : Grid} {p : Int × Int} {x y g h : Int} (hI : Inv grid0 init P A H)
    (hp : p ∈ P) (hadj : Adjacent4 p (x, y)) (hE : cellAt H (x, y) = .ok State.kEmpty)
    (hset : setCell H x y State.kClosed = .ok H') :
    Inv grid0 init P (A ++ [{ x := x, y := y, g := g, h := h }]) H' := by
  have hxP : (x, y) ∉ P := by
    intro hc
    have := hI.isPath _ hc
    rw [hE] at this
    cases this
  have hxA : (x, y) ∉ A.map Node.cell := by
    intro hc
    obtain ⟨n, hn, hnc⟩ := List.mem_map.1 hc
    have := hI.isClosed n hn
    rw [hnc, hE] at this
    cases this
  have hmap : (A ++ [({ x := x, y := y, g := g, h := h } : Node)]).map Node.cell
      = A.map Node.cell ++ [(x, y)] := by
    rw [List.map_append]; rfl
  refine ⟨(setCell_shape hset).trans hI.shape, ?_, ?_, ?_, ?_, ?_, ?_, hI.tree, ?_⟩
  · intro c hc
    rw [cellAt_setCell_ne hset (fun h => hxP (h ▸ hc))]
    exact hI.isPath c hc
  · intro n hn
    rw [List.mem_append, List.mem_singleton] at hn
    rcases hn with hn | rfl
    · rw [cellAt_setCell_ne hset (fun h => hxA (h ▸ List.mem_map_of_mem _ hn))]
      exact hI.isClosed n hn
    · exact cellAt_setCell_self hset
  · intro c hcP hcA
    rw [hmap, List.mem_append, List.mem_singleton] at hcA
    rw [cellAt_setCell_ne hset (fun h => hcA (Or.inr h))]
    exact hI.frame c hcP (fun h => hcA (Or.inl h))
  · intro c hc
    rw [hmap, ← List.append_assoc, List.mem_append, List.mem_singleton] at hc
    rcases hc with hc | rfl
    · exact hI.origin c hc
    · right
      rw [← hI.frame _ hxP hxA]
      exact hE
  · rw [hmap, ← List.append_assoc]
    exact List.mem_append_left _ hI.seeded
  · rw [hmap, ← List.append_assoc]
    apply List.Nodup.append hI.nodup (List.nodup_singleton _)
    intro c hc hc'
    rw [List.mem_singleton] at hc'
    subst hc'
    rw [List.mem_append] at hc
    exact hc.elim hxP hxA
  · intro n hn
    rw [List.mem_append, List.mem_singleton] at hn
    rcases hn with hn | rfl
    · exact hI.parent n hn
    · exact Or.inr ⟨p, hp, hadj⟩


theorem Inv.expand {grid0 : Grid} {init goal : Int × Int} {P : List (Int × Int)}
    {A A' : List Node} {H H' : Grid} {cur : Node} (hI : Inv grid0 init P A H)
    (hcur : cur.cell ∈ P) (h : ExpandNeighbors cur goal A H = .ok (A', H')) :
    Inv grid0 init P A' H' := by
  unfold ExpandNeighbors at h
  refine foldlM_rule_mem (expandOne cur goal) (fun acc => Inv grid0 init P acc.1 acc.2) delta
    ?_ (A, H) (A', H') hI h
  rintro ⟨B, K⟩ d ⟨B', K'⟩ hd hJ hstep
  rcases expandOne_ok hstep with ⟨hE, -, rfl, hset⟩ | ⟨-, rfl, rfl⟩
  · exact hJ.push hcur (adjacent4_iff.2 ⟨d, hd, rfl⟩) hE hset
  · exact hJ

theorem searchBody_step {stdSort : (Node → Node → Bool) → List Node → List Node}
    (hs : IsStdSort stdSort) {grid0 : Grid} {init goal : Int × Int} {P : List (Int × Int)}
    {O : List Node} {G : Grid} {next : List Node × Grid} (hI : Inv grid0 init P O G)
    (h : searchBody stdSort init goal O G = .ok (Sum.inr next)) :
    ∃ cur, cur ∈ O ∧ cur.cell ≠ goal ∧ Inv grid0 init (P ++ [cur.cell]) next.1 next.2 := by
  obtain ⟨cur, rest, G1, hperm, -, hset, hcase⟩ := searchBody_ok hs h
  rcases hcase with ⟨-, G2, G3, -, -, hres⟩ | ⟨hne, nxt, hexp, hres⟩
  · cases hres
  · cases hres
    refine ⟨cur, hperm.mem_iff.1 (by simp), hne, ?_⟩
    exact (hI.pop hperm hset).expand (by simp) hexp

theorem searchBody_found {stdSort : (Node → Node → Bool) → List Node → List Node}
    (hs : IsStdSort stdSort) {grid0 : Grid} {init goal : Int × Int} {P : List (Int × Int)}
    {O : List Node} {G : Grid} {node : Node} {result : Grid} (hI : Inv grid0 init P O G)
    (h : searchBody stdSort init goal O G = .ok (Sum.inl (node, result))) :
    ∃ rest G1, Found grid0 init goal node result (P ++ [node.cell]) rest G1 := by
  obtain ⟨cur, rest, G1, hperm, -, hset, hcase⟩ := searchBody_ok hs h
  rcases hcase with ⟨hcg, G2, G3, h2, h3, hres⟩ | ⟨-, nxt, -, hres⟩
  · cases hres
    refine ⟨rest, G1, hI.pop hperm hset, hcg, by simp [hcg], ?_, ?_⟩
    · intro c
      rw [cellAt_setCell h3, cellAt_setCell h2]
    · rw [setCell_shape h3, setCell_shape h2, setCell_shape hset, hI.shape]
  · cases hres

theorem searchRun_found {stdSort : (Node → Node → Bool) → List Node → List Node}
    (hs : IsStdSort stdSort) {fuel : Nat} {grid0 : Grid} {init goal : Int × Int}
    {node : Node} {result : Grid}
    (h : searchRun stdSort fuel grid0 init goal = .ok (some (node, result))) :
    ∃ P O G1, Found grid0 init goal node result P O G1 := by
  unfold searchRun at h
  simp only [bind, Except.bind] at h
  cases hadd : AddToOpen init.1 init.2 0 (Heuristic init.1 init.2 goal.1 goal.2) [] grid0 with
  | error e => simp [hadd] at h
  | ok seeded =>
    simp only [hadd] at h
    obtain ⟨O1, G1⟩ := seeded
    have hseed : ∃ P, Inv grid0 init P O1 G1 := ⟨[], Inv.seed hadd⟩
    refine searchLoop_rule (fun O G => ∃ P, Inv grid0 init P O G)
      (fun r => ∀ node result, r = some (node, result) →
        ∃ P O G1, Found grid0 init goal node result P O G1)
      ?_ ?_ ?_ fuel O1 G1 _ hseed h node result rfl
    · intro G _ node result hr
      cases hr
    · rintro O G ⟨n, r⟩ ⟨P, hI⟩ _ hb node result hr
      cases hr
      obtain ⟨rest, G1, hF⟩ := searchBody_found hs hI hb
      exact ⟨_, _, _, hF⟩
    · rintro O G next ⟨P, hI⟩ _ hb
      obtain ⟨cur, -, -, hI'⟩ := searchBody_step hs hI hb
      exact ⟨_, hI'⟩

theorem search_found {stdSort : (Node → Node → Bool) → List Node → List Node}
    {fuel : Nat} {grid0 : Grid} {init goal : Int × Int} {result : Grid}
    (h : Search stdSort fuel grid0 init goal = .ok result) (hne : result ≠ []) :
    ∃ node, searchRun stdSort fuel grid0 init goal = .ok (some (node, result)) := by
  unfold Search at h
  simp only [bind, Except.bind] at h
  cases hr : searchRun stdSort fuel grid0 init goal with
  | error e => simp [hr] at h
  | ok o =>
    cases o with
    | none =>
      simp [hr, pure, Except.pure] at h
      exact absurd h hne
    | some found =>
      simp [hr, pure, Except.pure] at h
      exact ⟨found.1, by rw [← h]⟩


/-! ## Shapes, bounds and sorting -/

theorem cellAt_ok_of_shape {g g' : Grid} (hshape : g'.map List.length = g.map List.length)
    {c : Int × Int} {s : State} (h : cellAt g c = .ok s) : ∃ s', cellAt g' c = .ok s' := by
  obtain ⟨hx0, hy0, row, hr, hs⟩ := getCell_ok_iff.1 h
  obtain ⟨hxn, rfl⟩ := List.getElem?_eq_some.1 hr
  obtain ⟨hyn, -⟩ := List.getElem?_eq_some.1 hs
  have hlen : g'.length = g.length := by simpa using congrArg List.length hshape
  have hxn' : c.1.toNat < g'.length := by omega
  have hrow : (g'[c.1.toNat]).length = (g[c.1.toNat]).length := by
    have h1 : (g'.map List.length)[c.1.toNat]? = (g.map List.length)[c.1.toNat]? := by
      rw [hshape]
    simpa [List.getElem?_eq_getElem hxn, List.getElem?_eq_getElem hxn'] using h1
  have hyn' : c.2.toNat < (g'[c.1.toNat]).length := by omega
  exact ⟨_, getCell_ok_iff.2 ⟨hx0, hy0, _, List.getElem?_eq_getElem hxn',
    List.getElem?_eq_getElem hyn'⟩⟩

theorem isObstacleMap_cell {grid : Grid} (hmap : IsObstacleMap grid) {c : Int × Int}
    {s : State} (h : cellAt grid c = .ok s) : s = State.kEmpty ∨ s = State.kObstacle := by
  obtain ⟨-, -, row, hr, hs⟩ := getCell_ok_iff.1 h
  exact hmap row (List.getElem?_mem hr) s (List.getElem?_mem hs)

theorem insertionSort_isStdSort : IsStdSort insertionSort := by
  have htot : IsTotal Node (fun a b => Compare b a = false) := by
    constructor
    intro a b
    simp only [Compare, decide_eq_false_iff_not]
    omega
  have htrans : IsTrans Node (fun a b => Compare b a = false) := by
    constructor
    intro a b c
    simp only [Compare, decide_eq_false_iff_not]
    omega
  constructor
  · intro v
    exact List.perm_insertionSort _ v
  · intro v
    exact List.sorted_insertionSort _ v


/-! ## Consequences of a successful run -/

theorem Found.tagged_of_popped {grid0 : Grid} {init goal : Int × Int} {node : Node}
    {result : Grid} {P : List (Int × Int)} {O : List Node} {G1 : Grid}
    (hF : Found grid0 init goal node result P O G1) {c : Int × Int} (hc : c ∈ P) :
    IsTagged result c := by
  unfold IsTagged
  rw [hF.cells c]
  split_ifs with h1 h2
  · exact Or.inr (Or.inr rfl)
  · exact Or.inl rfl
  · exact Or.inr (Or.inl (hF.inv.isPath c hc))

theorem Found.init_tagged {grid0 : Grid} {init goal : Int × Int} {node : Node}
    {result : Grid} {P : List (Int × Int)} {O : List Node} {G1 : Grid}
    (hF : Found grid0 init goal node result P O G1) : IsTagged result init := by
  unfold IsTagged
  rw [hF.cells init]
  by_cases h1 : init = goal
  · rw [if_pos h1]; exact Or.inr (Or.inr rfl)
  · rw [if_neg h1, if_pos rfl]; exact Or.inl rfl

theorem Found.inside {grid0 : Grid} {init goal : Int × Int} {node : Node}
    {result : Grid} {P : List (Int × Int)} {O : List Node} {G1 : Grid}
    (hF : Found grid0 init goal node result P O G1) {c : Int × Int} (hc : c ∈ P) :
    ∃ s, cellAt grid0 c = .ok s :=
  cellAt_ok_of_shape hF.inv.shape.symm (hF.inv.isPath c hc)

theorem Found.route {grid0 : Grid} {init goal : Int × Int} {node : Node}
    {result : Grid} {P : List (Int × Int)} {O : List Node} {G1 : Grid}
    (hF : Found grid0 init goal node result P O G1) {c : Int × Int} (hc : c ∈ P) :
    ∃ l, IsRoute grid0 init c l ∧ ∀ d ∈ l, d ∈ P := by
  obtain ⟨l, hl, hlP⟩ := hF.inv.tree c hc
  refine ⟨l, ⟨hl, fun d hd => hF.inside (hlP d hd), ?_⟩, hlP⟩
  intro d hd hne
  exact (hF.inv.origin d (List.mem_append_left _ (hlP d hd))).resolve_left hne


theorem Found.tagged_cases {grid0 : Grid} {init goal : Int × Int} {node : Node}
    {result : Grid} {P : List (Int × Int)} {O : List Node} {G1 : Grid}
    (hF : Found grid0 init goal node result P O G1) (hmap : IsObstacleMap grid0)
    {c : Int × Int} (hc : IsTagged result c) : c = init ∨ c ∈ P := by
  by_cases hcg : c = goal
  · exact Or.inr (hcg ▸ hF.goalPopped)
  by_cases hci : c = init
  · exact Or.inl hci
  right
  by_contra hcP
  unfold IsTagged at hc
  rw [hF.cells c, if_neg hcg, if_neg hci] at hc
  by_cases hcO : c ∈ O.map Node.cell
  · obtain ⟨n, hn, rfl⟩ := List.mem_map.1 hcO
    rw [hF.inv.isClosed n hn] at hc
    simp at hc
  · rw [hF.inv.frame c hcP hcO] at hc
    rcases hc with hc | hc | hc <;> rcases isObstacleMap_cell hmap hc with h | h <;> cases h

/-- C8, as amended: in every successful result of `Search` the goal cell is tagged `kFinish`,
and the init cell is tagged `kStart` whenever `init` and `goal` are different cells. -/
theorem search_marks_finish_then_start
    {stdSort : (Node → Node → Bool) → List Node → List Node} (hs : IsStdSort stdSort)
    {fuel : Nat} {grid : Grid} {init goal : Int × Int} {result : Grid}
    (h : Search stdSort fuel grid init goal = .ok result) (hne : result ≠ []) :
    cellAt result goal = .ok State.kFinish ∧
      (init ≠ goal → cellAt result init = .ok State.kStart) := by
  obtain ⟨node, hrun⟩ := search_found h hne
  obtain ⟨P, O, G1, hF⟩ := searchRun_found hs hrun
  constructor
  · rw [hF.cells goal, if_pos rfl]
  · intro hig
    rw [hF.cells init, if_neg hig, if_pos rfl]

/-- C10: when the init cell is `kEmpty` in the input, a successful result of `Search` has the
same number of rows and the same row lengths as the input grid, and a cell is `kObstacle` in
the result if and only if it is `kObstacle` in the input. -/
theorem search_keeps_shape_and_obstacles
    {stdSort : (Node → Node → Bool) → List Node → List Node} (hs : IsStdSort stdSort)
    {fuel : Nat} {grid : Grid} {init goal : Int × Int} {result : Grid}
    (hinit : cellAt grid init = .ok State.kEmpty)
    (h : Search stdSort fuel grid init goal = .ok result) (hne : result ≠ []) :
    result.map List.length = grid.map List.length ∧
      ∀ c, cellAt result c = .ok State.kObstacle ↔ cellAt grid c = .ok State.kObstacle := by
  obtain ⟨node, hrun⟩ := search_found h hne
  obtain ⟨P, O, G1, hF⟩ := searchRun_found hs hrun
  refine ⟨hF.shape, fun c => ?_⟩
  have horigin : c ∈ P ++ O.map Node.cell → ¬ cellAt grid c = .ok State.kObstacle := by
    intro hc hob
    rcases hF.inv.origin c hc with rfl | he
    · rw [hinit] at hob; cases hob
    · rw [he] at hob; cases hob
  rw [hF.cells c]
  by_cases hcg : c = goal
  · rw [if_pos hcg]
    constructor
    · intro hc; cases hc
    · intro hob
      exact absurd hob (horigin (List.mem_append_left _ (hcg ▸ hF.goalPopped)))
  rw [if_neg hcg]
  by_cases hci : c = init
  · rw [if_pos hci]
    constructor
    · intro hc; cases hc
    · intro hob
      rw [hci, hinit] at hob; cases hob
  rw [if_neg hci]
  by_cases hcP : c ∈ P
  · rw [hF.inv.isPath c hcP]
    constructor
    · intro hc; cases hc
    · intro hob
      exact absurd hob (horigin (List.mem_append_left _ hcP))
  by_cases hcO : c ∈ O.map Node.cell
  · obtain ⟨n, hn, rfl⟩ := List.mem_map.1 hcO
    rw [hF.inv.isClosed n hn]
    constructor
    · intro hc; cases hc
    · intro hob
      exact absurd hob (horigin (List.mem_append_right _ hcO))
  · rw [hF.inv.frame c hcP hcO]

/-- C4: in every successful result of `Search` there is a walk `init = c0, c1, ..., ck = goal`
of 4-adjacent cells that are all tagged `kStart`, `kPath` or `kFinish` in the returned grid;
hence a cell that lies on every route from `init` to `goal` through cells that are `kEmpty` in
the input grid is tagged in the result. -/
theorem search_result_has_tagged_walk
    {stdSort : (Node → Node → Bool) → List Node → List Node} (hs : IsStdSort stdSort)
    {fuel : Nat} {grid : Grid} {init goal : Int × Int} {result : Grid}
    (h : Search stdSort fuel grid init goal = .ok result) (hne : result ≠ []) :
    (∃ path, IsWalk init goal path ∧ ∀ c ∈ path, IsTagged result c) ∧
      ∀ c, (∀ route, IsRoute grid init goal route → c ∈ route) → IsTagged result c := by
  obtain ⟨node, hrun⟩ := search_found h hne
  obtain ⟨P, O, G1, hF⟩ := searchRun_found hs hrun
  obtain ⟨l, hroute, hlP⟩ := hF.route hF.goalPopped
  refine ⟨⟨l, hroute.walk, fun c hc => hF.tagged_of_popped (hlP c hc)⟩, ?_⟩
  intro c hc
  exact hF.tagged_of_popped (hlP c (hc l hroute))

/-- C5, as amended: in every successful result of `Search` on a grid of `kEmpty` and
`kObstacle` cells, `init` and `goal` are tagged and every cell tagged `kStart`, `kPath` or
`kFinish` is joined to `init` by a walk of 4-adjacent tagged cells (the tagged cells are the
cells popped from the open list; they need not lie on one route from `init` to `goal`). -/
theorem search_tagged_cells_connected
    {stdSort : (Node → Node → Bool) → List Node → List Node} (hs : IsStdSort stdSort)
    {fuel : Nat} {grid : Grid} {init goal : Int × Int} {result : Grid}
    (hmap : IsObstacleMap grid)
    (h : Search stdSort fuel grid init goal = .ok result) (hne : result ≠ []) :
    IsTagged result init ∧ IsTagged result goal ∧
      ∀ c, IsTagged result c →
        ∃ path, IsWalk init c path ∧ ∀ d ∈ path, IsTagged result d := by
  obtain ⟨node, hrun⟩ := search_found h hne
  obtain ⟨P, O, G1, hF⟩ := searchRun_found hs hrun
  refine ⟨hF.init_tagged, hF.tagged_of_popped hF.goalPopped, fun c hc => ?_⟩
  rcases hF.tagged_cases hmap hc with rfl | hcP
  · refine ⟨[c], isWalk_single c, fun d hd => ?_⟩
    rw [List.mem_singleton] at hd
    exact hd ▸ hF.init_tagged
  · obtain ⟨l, hl, hlP⟩ := hF.inv.tree c hcP
    exact ⟨l, hl, fun d hd => hF.tagged_of_popped (hlP d hd)⟩

/-- C6, as amended: when the input grid holds only `kEmpty` and `kObstacle` cells and its init
cell is `kEmpty`, every cell tagged `kPath`, `kStart` or `kFinish` in a successful result of
`Search` is joined to `init` by a walk of 4-adjacent cells that are all `kEmpty` in the input
grid. -/
theorem search_tagged_cells_reachable
    {stdSort : (Node → Node → Bool) → List Node → List Node} (hs : IsStdSort stdSort)
    {fuel : Nat} {grid : Grid} {init goal : Int × Int} {result : Grid}
    (hmap : IsObstacleMap grid) (hinit : cellAt grid init = .ok State.kEmpty)
    (h : Search stdSort fuel grid init goal = .ok result) (hne : result ≠ []) :
    ∀ c, IsTagged result c →
      ∃ path, IsWalk init c path ∧ ∀ d ∈ path, cellAt grid d = .ok State.kEmpty := by
  obtain ⟨node, hrun⟩ := search_found h hne
  obtain ⟨P, O, G1, hF⟩ := searchRun_found hs hrun
  intro c hc
  rcases hF.tagged_cases hmap hc with rfl | hcP
  · refine ⟨[c], isWalk_single c, fun d hd => ?_⟩
    rw [List.mem_singleton] at hd
    exact hd ▸ hinit
  · obtain ⟨l, hl, hlP⟩ := hF.route hcP
    refine ⟨l, hl.walk, fun d hd => ?_⟩
    by_cases hdi : d = init
    · exact hdi ▸ hinit
    · exact hl.empty d hd hdi

/-- C9, as amended: a successful result of `Search` on a grid of `kEmpty` and `kObstacle`
cells can hold cells tagged `kClosed`; such a cell was `kEmpty` in the input, is neither
`init` nor `goal`, and is 4-adjacent to a cell tagged `kStart`, `kPath` or `kFinish` (it was
put on the open list by a popped neighbour and never popped itself). -/
theorem search_closed_cells_were_enqueued
    {stdSort : (Node → Node → Bool) → List Node → List Node} (hs : IsStdSort stdSort)
    {fuel : Nat} {grid : Grid} {init goal : Int × Int} {result : Grid}
    (hmap : IsObstacleMap grid)
    (h : Search stdSort fuel grid init goal = .ok result) (hne : result ≠ []) :
    ∀ c, cellAt result c = .ok State.kClosed →
      cellAt grid c = .ok State.kEmpty ∧ c ≠ init ∧ c ≠ goal ∧
        ∃ p, Adjacent4 p c ∧ IsTagged result p := by
  obtain ⟨node, hrun⟩ := search_found h hne
  obtain ⟨P, O, G1, hF⟩ := searchRun_found hs hrun
  intro c hc
  rw [hF.cells c] at hc
  by_cases hcg : c = goal
  · rw [if_pos hcg] at hc; cases hc
  rw [if_neg hcg] at hc
  by_cases hci : c = init
  · rw [if_pos hci] at hc; cases hc
  rw [if_neg hci] at hc
  have hcP : c ∉ P := by
    intro hcP
    rw [hF.inv.isPath c hcP] at hc
    cases hc
  have hcO : c ∈ O.map Node.cell := by
    by_contra hcO
    rw [hF.inv.frame c hcP hcO] at hc
    rcases isObstacleMap_cell hmap hc with h | h <;> cases h
  obtain ⟨n, hn, rfl⟩ := List.mem_map.1 hcO
  refine ⟨(hF.inv.origin _ (List.mem_append_right _ hcO)).resolve_left hci, hci, hcg, ?_⟩
  rcases hF.inv.parent n hn with hni | ⟨p, hp, hadj⟩
  · exact absurd hni hci
  · exact ⟨p, hadj, hF.tagged_of_popped hp⟩


/-! ## The run never faults and stops within `rowCount * colCount` iterations -/

theorem headD_length_of_shape {g g' : Grid}
    (hshape : g'.map List.length = g.map List.length) :
    (g'.headD []).length = (g.headD []).length := by
  cases g with
  | nil =>
    cases g' with
    | nil => rfl
    | cons r' t' => simp at hshape
  | cons r t =>
    cases g' with
    | nil => simp at hshape
    | cons r' t' =>
      simp only [List.map_cons, List.cons.injEq] at hshape
      simpa using hshape.1

theorem isRect_of_shape {g g' : Grid} (hshape : g'.map List.length = g.map List.length)
    (hrect : IsRect g) : IsRect g' := by
  intro row hrow
  have h1 : row.length ∈ g.map List.length := hshape ▸ List.mem_map_of_mem _ hrow
  obtain ⟨row0, hrow0, hlen⟩ := List.mem_map.1 h1
  rw [headD_length_of_shape hshape, ← hlen]
  exact hrect row0 hrow0

theorem ne_nil_of_shape {g g' : Grid} (hshape : g'.map List.length = g.map List.length)
    (hne : g ≠ []) : g' ≠ [] := by
  intro h
  subst h
  cases g with
  | nil => exact hne rfl
  | cons r t => simp at hshape

theorem cellAt_ok_iff_inBounds {g : Grid} (hrect : IsRect g) {c : Int × Int} :
    (∃ s, cellAt g c = .ok s) ↔ InBounds g c := by
  constructor
  · rintro ⟨s, hs⟩
    obtain ⟨hx0, hy0, row, hr, hs⟩ := getCell_ok_iff.1 hs
    have hrow := hrect row (List.getElem?_mem hr)
    obtain ⟨hxn, -⟩ := List.getElem?_eq_some.1 hr
    obtain ⟨hyn, -⟩ := List.getElem?_eq_some.1 hs
    refine ⟨hx0, by omega, hy0, by omega⟩
  · rintro ⟨hx0, hx1, hy0, hy1⟩
    have hxn : c.1.toNat < g.length := by omega
    have hrow := hrect (g[c.1.toNat]) (List.getElem_mem _)
    have hyn : c.2.toNat < (g[c.1.toNat]).length := by omega
    exact ⟨_, getCell_ok_iff.2 ⟨hx0, hy0, _, List.getElem?_eq_getElem hxn,
      List.getElem?_eq_getElem hyn⟩⟩

theorem isValidCoord_total (x y : Int) {grid : Grid} (hne : grid ≠ []) :
    ∃ b, IsValidCoord x y grid = .ok b := by
  cases grid with
  | nil => exact absurd rfl hne
  | cons row0 rest => exact ⟨_, rfl⟩

theorem checkValidCell_total (x y : Int) {grid : Grid} (hrect : IsRect grid)
    (hne : grid ≠ []) : ∃ b, CheckValidCell x y grid = .ok b := by
  obtain ⟨b, hb⟩ := isValidCoord_total x y hne
  unfold CheckValidCell
  cases b with
  | false => exact ⟨false, by simp [hb, bind, Except.bind, pure, Except.pure]⟩
  | true =>
    have hin : InBounds grid (x, y) := ((isValidCoord_ok hb).2).1 rfl
    obtain ⟨s, hs⟩ := (cellAt_ok_iff_inBounds hrect).2 hin
    have hs' : getCell grid x y = .ok s := hs
    by_cases hse : s = State.kEmpty
    · exact ⟨true, by simp [hb, hs', hse, bind, Except.bind, pure, Except.pure]⟩
    · exact ⟨false, by simp [hb, hs', hse, bind, Except.bind, pure, Except.pure]⟩

theorem expandOne_total (cur : Node) (goal : Int × Int) (A : List Node) {H : Grid}
    (d : Int × Int) (hrect : IsRect H) (hne : H ≠ []) :
    ∃ r, expandOne cur goal (A, H) d = .ok r := by
  obtain ⟨b, hb⟩ := checkValidCell_total (cur.x + d.1) (cur.y + d.2) hrect hne
  unfold expandOne
  cases b with
  | false => exact ⟨(A, H), by simp [hb, bind, Except.bind, pure, Except.pure]⟩
  | true =>
    obtain ⟨H', hH'⟩ := setCell_of_getCell (checkValidCell_true hb).2 State.kClosed
    exact ⟨(A ++ [{ x := cur.x + d.1, y := cur.y + d.2, g := cur.g + 1,
                    h := Heuristic (cur.x + d.1) (cur.y + d.2) goal.1 goal.2 }], H'),
      by simp [hb, hH', AddToOpen, bind, Except.bind, pure, Except.pure]⟩

theorem expandOne_shape {cur : Node} {goal : Int × Int} {A A' : List Node} {H H' : Grid}
    {d : Int × Int} (h : expandOne cur goal (A, H) d = .ok (A', H')) :
    H'.map List.length = H.map List.length := by
  rcases expandOne_ok h with ⟨-, -, -, hset⟩ | ⟨-, -, rfl⟩
  · exact setCell_shape hset
  · rfl

theorem foldlM_total {α β : Type} (f : β → α → Except Fault β) (J : β → Prop)
    (hstep : ∀ b a, J b → ∃ b', f b a = .ok b' ∧ J b') (l : List α) (b : β) (hb : J b) :
    ∃ r, l.foldlM f b = .ok r := by
  induction l generalizing b with
  | nil => exact ⟨b, rfl⟩
  | cons a l ih =>
    obtain ⟨b', hf, hb'⟩ := hstep b a hb
    obtain ⟨r, hr⟩ := ih b' hb'
    exact ⟨r, by rw [List.foldlM_cons]; simp only [hf, bind, Except.bind]; exact hr⟩

theorem expandNeighbors_total (cur : Node) (goal : Int × Int) (A : List Node) {H : Grid}
    (hrect : IsRect H) (hne : H ≠ []) : ∃ r, ExpandNeighbors cur goal A H = .ok r := by
  unfold ExpandNeighbors
  refine foldlM_total (expandOne cur goal) (fun acc => IsRect acc.2 ∧ acc.2 ≠ []) ?_ delta
    (A, H) ⟨hrect, hne⟩
  rintro ⟨B, K⟩ d ⟨hr, hn⟩
  obtain ⟨⟨B', K'⟩, hstep⟩ := expandOne_total cur goal B d hr hn
  have hshape := expandOne_shape hstep
  exact ⟨(B', K'), hstep, isRect_of_shape hshape hr, ne_nil_of_shape hshape hn⟩

theorem Inv.cell_ok {grid0 : Grid} {init : Int × Int} {P : List (Int × Int)}
    {O : List Node} {G : Grid} (hI : Inv grid0 init P O G) {c : Int × Int}
    (hc : c ∈ P ++ O.map Node.cell) : ∃ s, cellAt G c = .ok s := by
  rcases List.mem_append.1 hc with hc | hc
  · exact ⟨_, hI.isPath c hc⟩
  · obtain ⟨n, hn, rfl⟩ := List.mem_map.1 hc
    exact ⟨_, hI.isClosed n hn⟩

theorem searchBody_total {stdSort : (Node → Node → Bool) → List Node → List Node}
    (hs : IsStdSort stdSort) {grid0 : Grid} {init : Int × Int} (goal : Int × Int)
    {P : List (Int × Int)} {O : List Node} {G : Grid} (hrect : IsRect grid0)
    (hne : grid0 ≠ []) (hI : Inv grid0 init P O G) (hO : O ≠ []) :
    ∃ res, searchBody stdSort init goal O G = .ok res := by
  have hsne : CellSort stdSort O ≠ [] := by
    intro h
    have := hs.perm O
    unfold CellSort at h
    rw [h] at this
    exact hO this.symm.eq_nil
  obtain ⟨cur, hlast⟩ : ∃ cur, (CellSort stdSort O).getLast? = some cur := by
    cases hl : (CellSort stdSort O).getLast? with
    | none => exact absurd (List.getLast?_eq_none_iff.1 hl) hsne
    | some cur => exact ⟨cur, rfl⟩
  obtain ⟨rest, hrest⟩ := List.getLast?_eq_some_iff.1 hlast
  have hperm : (rest ++ [cur]).Perm O := hrest ▸ hs.perm O
  have hcur : cur ∈ O := hperm.mem_iff.1 (by simp)
  obtain ⟨G1, hG1⟩ := setCell_of_getCell (hI.isClosed cur hcur) State.kPath
  have hI1 := hI.pop hperm hG1
  unfold searchBody
  have hG1' : setCell G cur.x cur.y State.kPath = .ok G1 := hG1
  simp only [bind, Except.bind, hrest, List.getLast?_concat, List.dropLast_concat, hG1']
  by_cases hg : cur.x = goal.1 ∧ cur.y = goal.2
  · rw [if_pos hg]
    obtain ⟨s, hs1⟩ := hI1.cell_ok hI1.seeded
    obtain ⟨G2, hG2⟩ := setCell_of_getCell hs1 State.kStart
    have hgoal : ∃ s, cellAt G2 goal = .ok s := by
      rw [cellAt_setCell hG2]
      split_ifs
      · exact ⟨_, rfl⟩
      · have : goal = cur.cell := Prod.ext hg.1.symm hg.2.symm
        rw [this]
        exact hI1.cell_ok (by simp)
    obtain ⟨s2, hs2⟩ := hgoal
    obtain ⟨G3, hG3⟩ := setCell_of_getCell hs2 State.kFinish
    exact ⟨_, by simp only [hG2, hG3]; rfl⟩
  · rw [if_neg hg]
    have hshape := hI1.shape
    obtain ⟨next, hnext⟩ := expandNeighbors_total cur goal rest
      (isRect_of_shape hshape hrect) (ne_nil_of_shape hshape hne)
    exact ⟨_, by simp only [hnext]; rfl⟩


theorem length_le_of_inBounds {g : Grid} {L : List (Int × Int)} (hnd : L.Nodup)
    (hin : ∀ c ∈ L, InBounds g c) : L.length ≤ g.length * (g.headD []).length := by
  have hinj : ∀ a ∈ L, ∀ b ∈ L,
      (fun c : Int × Int => (c.1.toNat, c.2.toNat)) a
        = (fun c : Int × Int => (c.1.toNat, c.2.toNat)) b → a = b := by
    intro a ha b hb hab
    obtain ⟨ha0, -, ha2, -⟩ := hin a ha
    obtain ⟨hb0, -, hb2, -⟩ := hin b hb
    simp only [Prod.mk.injEq] at hab
    exact Prod.ext (by omega) (by omega)
  have hnd' := hnd.map_on hinj
  have hsub : L.map (fun c : Int × Int => (c.1.toNat, c.2.toNat))
      ⊆ (List.range g.length) ×ˢ (List.range (g.headD []).length) := by
    intro p hp
    obtain ⟨c, hc, rfl⟩ := List.mem_map.1 hp
    obtain ⟨h0, h1, h2, h3⟩ := hin c hc
    rw [List.mem_product, List.mem_range, List.mem_range]
    exact ⟨by omega, by omega⟩
  have hle := (List.subperm_of_subset hnd' hsub).length_le
  rw [List.length_product, List.length_range, List.length_range] at hle
  rw [List.length_map] at hle
  exact hle

theorem Inv.length_le {grid0 : Grid} {init : Int × Int} {P : List (Int × Int)}
    {O : List Node} {G : Grid} (hrect : IsRect grid0) (hI : Inv grid0 init P O G) :
    P.length + O.length ≤ grid0.length * (grid0.headD []).length := by
  have h := length_le_of_inBounds (g := grid0) hI.nodup (fun c hc => by
    obtain ⟨s, hs⟩ := hI.cell_ok hc
    exact (cellAt_ok_iff_inBounds hrect).1 (cellAt_ok_of_shape hI.shape.symm hs))
  simpa using h

theorem searchLoop_total {stdSort : (Node → Node → Bool) → List Node → List Node}
    (hs : IsStdSort stdSort) {grid0 : Grid} {init : Int × Int} (goal : Int × Int)
    (hrect : IsRect grid0) (hne : grid0 ≠ []) :
    ∀ (fuel : Nat) (P : List (Int × Int)) (O : List Node) (G : Grid),
      Inv grid0 init P O G → grid0.length * (grid0.headD []).length ≤ P.length + fuel →
      ∃ r, searchLoop stdSort init goal fuel O G = .ok r := by
  intro fuel
  induction fuel with
  | zero =>
    intro P O G hI hfuel
    unfold searchLoop
    cases O with
    | nil => exact ⟨none, by simp⟩
    | cons n O =>
      have := hI.length_le hrect
      simp only [List.length_cons] at this
      omega
  | succ fuel ih =>
    intro P O G hI hfuel
    unfold searchLoop
    by_cases hO : O = []
    · exact ⟨none, by simp [hO]⟩
    · have he : O.isEmpty = false := by
        cases O with
        | nil => exact absurd rfl hO
        | cons n O => rfl
      obtain ⟨res, hres⟩ := searchBody_total hs goal hrect hne hI hO
      cases res with
      | inl found => exact ⟨some found, by simp [he, hres]⟩
      | inr next =>
        obtain ⟨cur, -, -, hI'⟩ := searchBody_step hs hI hres
        obtain ⟨r, hr⟩ := ih (P ++ [cur.cell]) next.1 next.2 hI'
          (by simp only [List.length_append, List.length_singleton]; omega)
        exact ⟨r, by simp [he, hres, hr]⟩

theorem searchRun_total {stdSort : (Node → Node → Bool) → List Node → List Node}
    (hs : IsStdSort stdSort) {fuel : Nat} {grid : Grid} {init : Int × Int}
    (goal : Int × Int) (hrect : IsRect grid) (hinit : InBounds grid init)
    (hfuel : grid.length * (grid.headD []).length ≤ fuel) :
    ∃ r, searchRun stdSort fuel grid init goal = .ok r := by
  have hne : grid ≠ [] := by
    intro h
    obtain ⟨h0, h1, -, -⟩ := hinit
    rw [h] at h1
    simp at h1
    omega
  obtain ⟨s, hs0⟩ := (cellAt_ok_iff_inBounds hrect).2 hinit
  obtain ⟨G1, hG1⟩ := setCell_of_getCell hs0 State.kClosed
  have hadd : AddToOpen init.1 init.2 0 (Heuristic init.1 init.2 goal.1 goal.2) [] grid
      = .ok ([{ x := init.1, y := init.2, g := 0,
                h := Heuristic init.1 init.2 goal.1 goal.2 }], G1) := by
    simp [AddToOpen, hG1, bind, Except.bind, pure, Except.pure]
  obtain ⟨r, hr⟩ := searchLoop_total hs goal hrect hne fuel [] _ _ (Inv.seed hadd)
    (by simpa using hfuel)
  exact ⟨r, by unfold searchRun; simp only [hadd, bind, Except.bind]; exact hr⟩

theorem search_eq_nil_of_not_found {stdSort : (Node → Node → Bool) → List Node → List Node}
    (hs : IsStdSort stdSort) {fuel : Nat} {grid : Grid} {init goal : Int × Int}
    (hrect : IsRect grid) (hinit : InBounds grid init)
    (hfuel : grid.length * (grid.headD []).length ≤ fuel)
    (hno : ∀ P O G1 node result, ¬ Found grid init goal node result P O G1) :
    Search stdSort fuel grid init goal = .ok [] := by
  obtain ⟨r, hr⟩ := searchRun_total hs goal hrect hinit hfuel
  cases r with
  | none => unfold Search; simp [hr, bind, Except.bind, pure, Except.pure]
  | some found =>
    obtain ⟨node, result⟩ := found
    obtain ⟨P, O, G1, hF⟩ := searchRun_found hs hr
    exact absurd hF (hno P O G1 _ _)

/-- C2: on a rectangular grid with `init` in bounds, if no route leads from `init` to `goal`
(no sequence of 4-adjacent cells of the grid whose cells other than `init` are all `kEmpty` in
the input), then `Search`, given fuel for `rowCount * colCount` iterations, returns the empty
grid and no grid with `kPath` or `kClosed` markings. -/
theorem search_unreachable_returns_empty
    {stdSort : (Node → Node → Bool) → List Node → List Node} (hs : IsStdSort stdSort)
    {fuel : Nat} {grid : Grid} {init goal : Int × Int}
    (hrect : IsRect grid) (hinit : InBounds grid init)
    (hunreachable : ¬ ∃ path, IsRoute grid init goal path)
    (hfuel : grid.length * (grid.headD []).length ≤ fuel) :
    Search stdSort fuel grid init goal = .ok [] := by
  apply search_eq_nil_of_not_found hs hrect hinit hfuel
  intro P O G1 node result hF
  obtain ⟨l, hl, -⟩ := hF.route hF.goalPopped
  exact hunreachable ⟨l, hl⟩

/-- C3, as amended: on a rectangular grid with `init` in bounds, if the goal cell is
`kObstacle` in the input grid and `goal` is not the cell `init`, then `Search`, given fuel
for `rowCount * colCount` iterations, returns the empty grid. -/
theorem search_obstacle_goal_returns_empty
    {stdSort : (Node → Node → Bool) → List Node → List Node} (hs : IsStdSort stdSort)
    {fuel : Nat} {grid : Grid} {init goal : Int × Int}
    (hrect : IsRect grid) (hinit : InBounds grid init)
    (hgoal : cellAt grid goal = .ok State.kObstacle) (hdiff : goal ≠ init)
    (hfuel : grid.length * (grid.headD []).length ≤ fuel) :
    Search stdSort fuel grid init goal = .ok [] := by
  apply search_eq_nil_of_not_found hs hrect hinit hfuel
  intro P O G1 node result hF
  rcases hF.inv.origin goal (List.mem_append_left _ hF.goalPopped) with h | h
  · exact hdiff h
  · rw [hgoal] at h
    cases h


/-! ## Walks -/

theorem walk_ivt (φ : Int × Int → Int) (hφ : ∀ a b, Adjacent4 a b → φ b ≤ φ a + 1) :
    ∀ (l : List (Int × Int)) (a b : Int × Int), IsWalk a b l →
      ∀ k, φ a ≤ k → k ≤ φ b → ∃ c ∈ l, φ c = k := by
  intro l
  induction l with
  | nil => intro a b hw; cases hw.head
  | cons x t ih =>
    intro a b hw k hak hkb
    have hxa : x = a := by simpa using hw.head
    subst hxa
    cases t with
    | nil =>
      have hxb : x = b := by simpa using hw.last
      subst hxb
      exact ⟨x, List.mem_cons_self _ _, le_antisymm hak hkb⟩
    | cons y t' =>
      by_cases hk : φ x = k
      · exact ⟨x, List.mem_cons_self _ _, hk⟩
      · have hch := hw.chain
        rw [List.chain'_cons] at hch
        have hy := hφ x y hch.1
        have hw' : IsWalk y b (y :: t') := ⟨rfl, by simpa using hw.last, hch.2⟩
        obtain ⟨c, hc, hck⟩ := ih y b hw' k (by omega) hkb
        exact ⟨c, List.mem_cons_of_mem _ hc, hck⟩

theorem IsWalk.interior {a b c : Int × Int} {path : List (Int × Int)}
    (hw : IsWalk a b path) (hnd : path.Nodup) (hc : c ∈ path) (hca : c ≠ a) (hcb : c ≠ b) :
    ∃ p q, p ∈ path ∧ q ∈ path ∧ p ≠ q ∧ Adjacent4 p c ∧ Adjacent4 c q := by
  obtain ⟨s, t, rfl⟩ := List.append_of_mem hc
  have hs : s ≠ [] := by
    intro h
    subst h
    have := hw.head
    simp at this
    exact hca this
  have ht : t ≠ [] := by
    intro h
    subst h
    have := hw.last
    simp at this
    exact hcb this
  obtain ⟨s', p, rfl⟩ : ∃ s' p, s = s' ++ [p] :=
    ⟨s.dropLast, s.getLast hs, (List.dropLast_concat_getLast hs).symm⟩
  obtain ⟨q, t', rfl⟩ := List.exists_cons_of_ne_nil ht
  have hch := hw.chain
  rw [List.append_assoc, List.chain'_append] at hch
  have h1 : Adjacent4 p c := by
    have := hch.2.1
    simp only [List.singleton_append, List.chain'_cons] at this
    exact this.1
  have h2 : Adjacent4 c q := by
    have := hch.2.1
    simp only [List.singleton_append, List.chain'_cons] at this
    exact this.2.1
  refine ⟨p, q, by simp, by simp, ?_, h1, h2⟩
  intro hpq
  subst hpq
  rw [List.append_assoc, List.nodup_append] at hnd
  have := hnd.2.1
  simp at this


/-! ## Completeness: a reachable goal is found -/

theorem reverseInsertionSort_isStdSort : IsStdSort reverseInsertionSort := by
  constructor
  · intro v
    exact (insertionSort_isStdSort.perm v.reverse).trans (List.reverse_perm v)
  · intro v
    exact insertionSort_isStdSort.sorted v.reverse

theorem setCell_keeps_nonEmpty {grid : Grid} {x y : Int} {s : State} {g' : Grid}
    (h : setCell grid x y s = .ok g') (hs : s ≠ State.kEmpty) {c : Int × Int}
    (hc : cellAt grid c ≠ .ok State.kEmpty) : cellAt g' c ≠ .ok State.kEmpty := by
  rw [cellAt_setCell h]
  split_ifs
  · intro he
    cases he
    exact hs rfl
  · exact hc

theorem expand_fold_closes {cur : Node} {goal : Int × Int} :
    ∀ (l : List (Int × Int)) (A : List Node) (H : Grid) (A' : List Node) (H' : Grid),
      IsRect H → l.foldlM (expandOne cur goal) (A, H) = .ok (A', H') →
      (∀ c, cellAt H c ≠ .ok State.kEmpty → cellAt H' c ≠ .ok State.kEmpty) ∧
        ∀ d ∈ l, cellAt H' (cur.x + d.1, cur.y + d.2) ≠ .ok State.kEmpty := by
  intro l
  induction l with
  | nil =>
    intro A H A' H' _ h
    simp only [List.foldlM, pure, Except.pure, Except.ok.injEq, Prod.mk.injEq] at h
    obtain ⟨-, rfl⟩ := h
    exact ⟨fun c hc => hc, fun d hd => by cases hd⟩
  | cons d l ih =>
    intro A H A' H' hrect h
    rw [List.foldlM_cons] at h
    cases hstep : expandOne cur goal (A, H) d with
    | error e => simp [hstep, bind, Except.bind] at h
    | ok acc =>
      obtain ⟨B, K⟩ := acc
      simp only [hstep, bind, Except.bind] at h
      have hK : (∀ c, cellAt H c ≠ .ok State.kEmpty → cellAt K c ≠ .ok State.kEmpty) ∧
          cellAt K (cur.x + d.1, cur.y + d.2) ≠ .ok State.kEmpty := by
        rcases expandOne_ok hstep with ⟨-, -, -, hset⟩ | ⟨hcheck, -, rfl⟩
        · refine ⟨fun c hc => setCell_keeps_nonEmpty hset (by decide) hc, ?_⟩
          rw [cellAt_setCell_self hset]
          decide
        · refine ⟨fun c hc => hc, ?_⟩
          rcases checkValidCell_false hcheck with hout | ⟨s, hs, hcell⟩
          · intro he
            exact hout ((cellAt_ok_iff_inBounds hrect).1 ⟨_, he⟩)
          · intro he
            have : cellAt K (cur.x + d.1, cur.y + d.2) = .ok s := hcell
            rw [this] at he
            cases he
            exact hs rfl
      obtain ⟨hmono, hclosed⟩ := ih B K A' H' (isRect_of_shape (expandOne_shape hstep) hrect) h
      refine ⟨fun c hc => hmono c (hK.1 c hc), ?_⟩
      intro d' hd'
      rcases List.mem_cons.1 hd' with rfl | hd'
      · exact hmono _ hK.2
      · exact hclosed d' hd'

theorem searchBody_step_closure {stdSort : (Node → Node → Bool) → List Node → List Node}
    (hs : IsStdSort stdSort) {grid0 : Grid} {init goal : Int × Int} {P : List (Int × Int)}
    {O : List Node} {G : Grid} {next : List Node × Grid} (hrect : IsRect grid0)
    (hI : Inv grid0 init P O G) (hC : Closure goal P G)
    (h : searchBody stdSort init goal O G = .ok (Sum.inr next)) :
    ∃ P', Inv grid0 init P' next.1 next.2 ∧ Closure goal P' next.2 := by
  obtain ⟨cur, rest, G1, hperm, -, hset, hcase⟩ := searchBody_ok hs h
  rcases hcase with ⟨-, G2, G3, -, -, hres⟩ | ⟨hne, nxt, hexp, hres⟩
  · cases hres
  · cases hres
    have hI1 := hI.pop hperm hset
    have hI2 : Inv grid0 init (P ++ [cur.cell]) next.1 next.2 := hI1.expand (by simp) hexp
    refine ⟨P ++ [cur.cell], hI2, ?_, ?_⟩
    · intro hg
      rcases List.mem_append.1 hg with hg | hg
      · exact hC.goalOpen hg
      · rw [List.mem_singleton] at hg
        exact hne hg.symm
    · have hfold := expand_fold_closes delta rest G1 next.1 next.2
        (isRect_of_shape hI1.shape hrect) hexp
      intro c hc d hd
      rcases List.mem_append.1 hc with hc | hc
      · exact hfold.1 _ (setCell_keeps_nonEmpty hset (by decide) (hC.expanded c hc d hd))
      · rw [List.mem_singleton] at hc
        subst hc
        exact hfold.2 d hd

theorem route_cells_popped {grid0 : Grid} {init goal : Int × Int} {P : List (Int × Int)}
    {G : Grid} (hI : Inv grid0 init P [] G) (hC : Closure goal P G) :
    ∀ (l : List (Int × Int)) (a : Int × Int), a ∈ P → l.head? = some a →
      l.Chain' Adjacent4 → (∀ c ∈ l, c ≠ init → cellAt grid0 c = .ok State.kEmpty) →
      ∀ c ∈ l, c ∈ P := by
  intro l
  induction l with
  | nil => intro a _ _ _ _ c hc; cases hc
  | cons x t ih =>
    intro a ha hhead hchain hempty c hc
    have hxa : x = a := by simpa using hhead
    subst hxa
    rcases List.mem_cons.1 hc with rfl | hc
    · exact ha
    · cases t with
      | nil => cases hc
      | cons y t' =>
        rw [List.chain'_cons] at hchain
        have hy : y ∈ P := by
          by_contra hyP
          have hyi : y ≠ init := by
            intro hyi
            have := hI.seeded
            simp only [List.map_nil, List.append_nil] at this
            exact hyP (hyi ▸ this)
          have hye := hempty y (by simp) hyi
          obtain ⟨d, hd, hyd⟩ := adjacent4_iff.1 hchain.1
          have hframe := hI.frame y hyP (by simp)
          apply hC.expanded x ha d hd
          rw [← hyd, hframe]
          exact hye
        exact ih y hy rfl hchain.2
          (fun c hc hci => hempty c (List.mem_cons_of_mem _ hc) hci) c hc

theorem searchRun_complete {stdSort : (Node → Node → Bool) → List Node → List Node}
    (hs : IsStdSort stdSort) {fuel : Nat} {grid : Grid} {init goal : Int × Int}
    (hrect : IsRect grid) (hinit : InBounds grid init)
    (hfuel : grid.length * (grid.headD []).length ≤ fuel)
    (hreach : ∃ path, IsRoute grid init goal path) :
    ∃ node result, searchRun stdSort fuel grid init goal = .ok (some (node, result)) := by
  obtain ⟨r, hr⟩ := searchRun_total hs goal hrect hinit hfuel
  cases r with
  | some found => exact ⟨found.1, found.2, hr⟩
  | none =>
    exfalso
    unfold searchRun at hr
    simp only [bind, Except.bind] at hr
    cases hadd : AddToOpen init.1 init.2 0 (Heuristic init.1 init.2 goal.1 goal.2) [] grid with
    | error e => simp [hadd] at hr
    | ok seeded =>
      simp only [hadd] at hr
      obtain ⟨O1, G1⟩ := seeded
      have hseed : ∃ P, Inv grid init P O1 G1 ∧ Closure goal P G1 :=
        ⟨[], Inv.seed hadd, ⟨by simp, fun c hc => by cases hc⟩⟩
      refine searchLoop_rule (fun O G => ∃ P, Inv grid init P O G ∧ Closure goal P G)
        (fun r => r ≠ none) ?_ ?_ ?_ fuel O1 G1 none hseed hr rfl
      · rintro G ⟨P, hI, hC⟩ -
        obtain ⟨path, hroute⟩ := hreach
        have hinitP : init ∈ P := by simpa using hI.seeded
        have hall := route_cells_popped hI hC path init hinitP hroute.walk.head
          hroute.walk.chain hroute.empty
        obtain ⟨ys, hys⟩ := List.getLast?_eq_some_iff.1 hroute.walk.last
        exact hC.goalOpen (hall goal (by rw [hys]; simp))
      · intro O G found _ _ _ hnone
        cases hnone
      · rintro O G next ⟨P, hI, hC⟩ _ hb
        exact searchBody_step_closure hs hrect hI hC hb


/-! ## The rectangle spanned by `init` and `goal`, and counting tagged cells -/

theorem IsRoute.extend {grid : Grid} {init b c : Int × Int} {l : List (Int × Int)}
    (h : IsRoute grid init b l) (hadj : Adjacent4 b c)
    (hc : cellAt grid c = .ok State.kEmpty) : IsRoute grid init c (l ++ [c]) := by
  refine ⟨h.walk.snoc hadj, ?_, ?_⟩
  · intro d hd
    rcases List.mem_append.1 hd with hd | hd
    · exact h.inside d hd
    · rw [List.mem_singleton] at hd
      exact ⟨_, hd ▸ hc⟩
  · intro d hd hdi
    rcases List.mem_append.1 hd with hd | hd
    · exact h.empty d hd hdi
    · rw [List.mem_singleton] at hd
      exact hd ▸ hc

theorem box_route {grid : Grid} {init goal : Int × Int}
    (hbox : ∀ c, InBox init goal c → cellAt grid c = .ok State.kEmpty) :
    ∃ path, IsRoute grid init goal path := by
  have key : ∀ (n : Nat) (c : Int × Int), InBox init goal c →
      Heuristic init.1 init.2 c.1 c.2 = n → ∃ path, IsRoute grid init c path := by
    intro n
    induction n with
    | zero =>
      intro c hc hn
      have hci : c = init := by
        unfold Heuristic intAbs at hn
        apply Prod.ext <;> (split_ifs at hn <;> omega)
      subst hci
      exact ⟨[c], isWalk_single c, fun d hd => by
        rw [List.mem_singleton] at hd
        exact ⟨_, hd ▸ hbox c hc⟩, fun d hd hdi => by
        rw [List.mem_singleton] at hd
        exact absurd hd hdi⟩
    | succ n ih =>
      intro c hc hn
      obtain ⟨hc1, hc2⟩ := hc
      have hstep : ∃ c' : Int × Int, InBox init goal c' ∧
          Heuristic init.1 init.2 c'.1 c'.2 = n ∧ Adjacent4 c' c := by
        unfold Heuristic intAbs at hn
        by_cases h1 : init.1 < c.1
        · refine ⟨(c.1 - 1, c.2), ⟨?_, hc2⟩, ?_, ?_⟩
          · simp only; omega
          · simp only [Heuristic, intAbs]; split_ifs at hn ⊢ <;> omega
          · simp only [Adjacent4, intAbs]; split_ifs <;> omega
        by_cases h2 : c.1 < init.1
        · refine ⟨(c.1 + 1, c.2), ⟨?_, hc2⟩, ?_, ?_⟩
          · simp only; omega
          · simp only [Heuristic, intAbs]; split_ifs at hn ⊢ <;> omega
          · simp only [Adjacent4, intAbs]; split_ifs <;> omega
        by_cases h3 : init.2 < c.2
        · refine ⟨(c.1, c.2 - 1), ⟨hc1, ?_⟩, ?_, ?_⟩
          · simp only; omega
          · simp only [Heuristic, intAbs]; split_ifs at hn ⊢ <;> omega
          · simp only [Adjacent4, intAbs]; split_ifs <;> omega
        · refine ⟨(c.1, c.2 + 1), ⟨hc1, ?_⟩, ?_, ?_⟩
          · simp only; split_ifs at hn <;> omega
          · simp only [Heuristic, intAbs]; split_ifs at hn ⊢ <;> omega
          · simp only [Adjacent4, intAbs]; split_ifs <;> omega
      obtain ⟨c', hc', hn', hadj⟩ := hstep
      obtain ⟨path, hpath⟩ := ih c' hc' hn'
      exact ⟨path ++ [c], hpath.extend hadj (hbox c ⟨hc1, hc2⟩)⟩
  have hgoal : InBox init goal goal := by
    unfold InBox
    omega
  have hnonneg : 0 ≤ Heuristic init.1 init.2 goal.1 goal.2 := by
    unfold Heuristic intAbs
    split_ifs <;> omega
  exact key (Heuristic init.1 init.2 goal.1 goal.2).toNat goal hgoal
    (Int.toNat_of_nonneg hnonneg).symm

theorem mem_gridCells {grid : Grid} {c : Int × Int} :
    c ∈ gridCells grid ↔ ∃ s, cellAt grid c = .ok s := by
  unfold gridCells
  simp only [List.mem_flatMap, List.mem_range, List.mem_map]
  constructor
  · rintro ⟨i, hi, j, hj, rfl⟩
    rw [List.getD_eq_getElem?_getD, List.getElem?_eq_getElem hi, Option.getD_some] at hj
    exact ⟨_, getCell_ok_iff.2 ⟨Int.ofNat_nonneg i, Int.ofNat_nonneg j, _,
      List.getElem?_eq_getElem hi, List.getElem?_eq_getElem hj⟩⟩
  · rintro ⟨s, hs⟩
    obtain ⟨hx0, hy0, row, hr, hs⟩ := getCell_ok_iff.1 hs
    obtain ⟨hxn, rfl⟩ := List.getElem?_eq_some.1 hr
    obtain ⟨hyn, -⟩ := List.getElem?_eq_some.1 hs
    refine ⟨c.1.toNat, hxn, c.2.toNat, ?_, ?_⟩
    · rw [List.getD_eq_getElem?_getD, List.getElem?_eq_getElem hxn, Option.getD_some]
      exact hyn
    · exact Prod.ext (Int.toNat_of_nonneg hx0) (Int.toNat_of_nonneg hy0)

theorem length_le_taggedCount {grid : Grid} {L : List (Int × Int)} (hnd : L.Nodup)
    (htag : ∀ c ∈ L, IsTagged grid c) : L.length ≤ taggedCount grid := by
  unfold taggedCount
  rw [List.countP_eq_length_filter]
  apply (List.subperm_of_subset hnd ?_).length_le
  intro c hc
  have ht := htag c hc
  rw [List.mem_filter]
  refine ⟨mem_gridCells.2 ?_, by simpa using ht⟩
  rcases ht with h | h | h <;> exact ⟨_, h⟩

theorem walk_length_ge {a b : Int × Int} {l : List (Int × Int)} (hw : IsWalk a b l) :
    ∃ L : List (Int × Int), L.Nodup ∧ (∀ c ∈ L, c ∈ l) ∧
      Heuristic a.1 a.2 b.1 b.2 + 1 ≤ (L.length : Int) := by
  have hnonneg : ∀ c : Int × Int, 0 ≤ Heuristic c.1 c.2 b.1 b.2 := by
    intro c
    unfold Heuristic intAbs
    split_ifs <;> omega
  have hivt : ∀ k : Nat, (k : Int) ≤ Heuristic a.1 a.2 b.1 b.2 →
      ∃ c ∈ l, (Heuristic c.1 c.2 b.1 b.2).toNat = k := by
    intro k hk
    obtain ⟨c, hc, hck⟩ := walk_ivt (fun c => - Heuristic c.1 c.2 b.1 b.2)
      (fun p q hpq => by
        unfold Adjacent4 intAbs at hpq
        simp only [Heuristic, intAbs]
        split_ifs at hpq ⊢ <;> omega)
      l a b hw (-(k : Int)) (by simp only; omega)
      (by
        simp only [Heuristic, intAbs]
        split_ifs <;> omega)
    refine ⟨c, hc, ?_⟩
    have := hnonneg c
    omega
  refine ⟨l.dedup, List.nodup_dedup l, fun c hc => List.mem_dedup.1 hc, ?_⟩
  have hsub : List.range ((Heuristic a.1 a.2 b.1 b.2).toNat + 1)
      ⊆ l.dedup.map (fun c => (Heuristic c.1 c.2 b.1 b.2).toNat) := by
    intro k hk
    rw [List.mem_range] at hk
    obtain ⟨c, hc, hck⟩ := hivt k (by have := hnonneg a; omega)
    exact List.mem_map.2 ⟨c, List.mem_dedup.2 hc, hck⟩
  have hle := (List.subperm_of_subset (List.nodup_range _) hsub).length_le
  rw [List.length_range, List.length_map] at hle
  have := hnonneg a
  omega


/-! ## Insertion sort pops the latest node of least f -/

theorem getLast?_orderedInsert (r : Node → Node → Prop) [DecidableRel r] (a : Node) :
    ∀ s : List Node, (s.orderedInsert r a).getLast? =
      if ∃ b ∈ s, r a b then s.getLast? else some a := by
  intro s
  induction s with
  | nil => simp
  | cons b t ih =>
    rw [List.orderedInsert]
    by_cases hab : r a b
    · rw [if_pos hab, if_pos ⟨b, List.mem_cons_self _ _, hab⟩]
      rw [List.getLast?_cons_cons]
    · rw [if_neg hab]
      have hne : t.orderedInsert r a ≠ [] := by
        cases t with
        | nil => simp
        | cons c t' => rw [List.orderedInsert]; split_ifs <;> simp
      obtain ⟨x, u, hxu⟩ := List.exists_cons_of_ne_nil hne
      rw [hxu, List.getLast?_cons_cons, ← hxu, ih]
      by_cases hex : ∃ b' ∈ t, r a b'
      · rw [if_pos hex, if_pos (hex.imp fun b' hb' => ⟨List.mem_cons_of_mem _ hb'.1, hb'.2⟩)]
        obtain ⟨b', hb', -⟩ := hex
        obtain ⟨y, v, rfl⟩ := List.exists_cons_of_ne_nil (List.ne_nil_of_mem hb')
        rw [List.getLast?_cons_cons]
      · rw [if_neg hex, if_neg]
        rintro ⟨b', hb', hr⟩
        rcases List.mem_cons.1 hb' with rfl | hb'
        · exact hab hr
        · exact hex ⟨b', hb', hr⟩

theorem insertionSort_getLast? (pre post : List Node) (c : Node)
    (hpre : ∀ b ∈ pre, c.g + c.h ≤ b.g + b.h) (hpost : ∀ b ∈ post, c.g + c.h < b.g + b.h) :
    (CellSort insertionSort (pre ++ c :: post)).getLast? = some c := by
  unfold CellSort insertionSort
  induction pre with
  | nil =>
    rw [List.nil_append, List.insertionSort, getLast?_orderedInsert, if_neg]
    rintro ⟨b, hb, hr⟩
    have hb' : b ∈ post := (List.perm_insertionSort _ post).mem_iff.1 hb
    have := hpost b hb'
    simp only [Compare, decide_eq_false_iff_not] at hr
    omega
  | cons a pre ih =>
    rw [List.cons_append, List.insertionSort, getLast?_orderedInsert, if_pos]
    · exact ih (fun b hb => hpre b (List.mem_cons_of_mem _ hb))
    · refine ⟨c, (List.perm_insertionSort _ _).mem_iff.2 (by simp), ?_⟩
      have := hpre a (List.mem_cons_self _ _)
      simp only [Compare, decide_eq_false_iff_not]
      omega


theorem gridCells_nodup (grid : Grid) : (gridCells grid).Nodup := by
  unfold gridCells
  refine List.nodup_flatMap.2 ⟨?_, ?_⟩
  · intro i _
    refine (List.nodup_range _).map ?_
    intro j1 j2 hj
    simp only [Prod.mk.injEq, Int.ofNat_eq_coe, Nat.cast_inj, true_and] at hj
    exact hj
  · refine (List.nodup_range _).pairwise_of_forall_ne ?_
    intro a _ b _ hab x h1 h2
    obtain ⟨j1, -, rfl⟩ := List.mem_map.1 h1
    obtain ⟨j2, -, hj⟩ := List.mem_map.1 h2
    simp only [Prod.mk.injEq, Int.ofNat_eq_coe, Nat.cast_inj] at hj
    exact hab hj.1.symm

theorem taggedCount_eq_length {grid : Grid} {L : List (Int × Int)} (hnd : L.Nodup)
    (htag : ∀ c, IsTagged grid c ↔ c ∈ L) : taggedCount grid = L.length := by
  unfold taggedCount
  rw [List.countP_eq_length_filter]
  apply List.Perm.length_eq
  rw [List.perm_ext_iff_of_nodup ((gridCells_nodup grid).filter _) hnd]
  intro c
  rw [List.mem_filter]
  constructor
  · rintro ⟨-, hc⟩
    exact (htag c).1 (by simpa using hc)
  · intro hc
    have ht := (htag c).2 hc
    refine ⟨mem_gridCells.2 ?_, by simpa using ht⟩
    rcases ht with h | h | h <;> exact ⟨_, h⟩

theorem Found.taggedCount_eq {grid0 : Grid} {init goal : Int × Int} {node : Node}
    {result : Grid} {P : List (Int × Int)} {O : List Node} {G1 : Grid}
    (hF : Found grid0 init goal node result P O G1) (hmap : IsObstacleMap grid0)
    (hinit : init ∈ P) : taggedCount result = P.length := by
  apply taggedCount_eq_length (List.nodup_append.1 hF.inv.nodup).1
  intro c
  constructor
  · intro hc
    rcases hF.tagged_cases hmap hc with rfl | hcP
    · exact hinit
    · exact hcP
  · exact fun hc => hF.tagged_of_popped hc


/-! ## On a free rectangle insertion sort walks one staircase -/

theorem heuristic_adjacent {a b : Int × Int} (goal : Int × Int) (h : Adjacent4 a b) :
    Heuristic a.1 a.2 goal.1 goal.2 - 1 ≤ Heuristic b.1 b.2 goal.1 goal.2 ∧
      Heuristic b.1 b.2 goal.1 goal.2 ≤ Heuristic a.1 a.2 goal.1 goal.2 + 1 := by
  unfold Adjacent4 intAbs at h
  simp only [Heuristic, intAbs]
  split_ifs at h ⊢ <;> omega

theorem heuristic_from_adjacent {a b : Int × Int} (init : Int × Int) (h : Adjacent4 a b) :
    Heuristic init.1 init.2 b.1 b.2 ≤ Heuristic init.1 init.2 a.1 a.2 + 1 := by
  unfold Adjacent4 intAbs at h
  simp only [Heuristic, intAbs]
  split_ifs at h ⊢ <;> omega

theorem inBox_of_heuristic {init goal c : Int × Int}
    (h : Heuristic init.1 init.2 c.1 c.2 + Heuristic c.1 c.2 goal.1 goal.2
      ≤ Heuristic init.1 init.2 goal.1 goal.2) : InBox init goal c := by
  unfold Heuristic intAbs at h
  unfold InBox
  split_ifs at h <;> omega

theorem exists_forward {cur goal : Int × Int} (hne : cur ≠ goal) :
    ∃ d ∈ delta, Heuristic (cur.1 + d.1) (cur.2 + d.2) goal.1 goal.2
      = Heuristic cur.1 cur.2 goal.1 goal.2 - 1 := by
  have hcoord : cur.1 ≠ goal.1 ∨ cur.2 ≠ goal.2 := by
    by_contra hc
    push_neg at hc
    exact hne (Prod.ext hc.1 hc.2)
  simp only [delta, List.mem_cons, List.mem_singleton, List.not_mem_nil, or_false,
    exists_eq_or_imp, exists_eq_left, Heuristic, intAbs]
  by_cases h1 : cur.1 < goal.1
  · right; left
    split_ifs <;> omega
  by_cases h2 : goal.1 < cur.1
  · left
    split_ifs <;> omega
  by_cases h3 : cur.2 < goal.2
  · right; right; right
    split_ifs <;> omega
  · right; right; left
    split_ifs <;> omega

theorem split_snoc {F : Int} {cur n : Node} {A : List Node} (hF : F ≤ n.g + n.h)
    (hg : n.g = cur.g + 1) (h : Split F cur A) : Split F cur (A ++ [n]) := by
  obtain ⟨pre, c, post, rfl, hc, hcg, hpost⟩ := h
  by_cases hn : n.g + n.h = F
  · exact ⟨pre ++ c :: post, n, [], rfl, hn, hg, fun b hb => by cases hb⟩
  · refine ⟨pre, c, post ++ [n], by simp, hc, hcg, ?_⟩
    intro b hb
    rcases List.mem_append.1 hb with hb | hb
    · exact hpost b hb
    · rw [List.mem_singleton] at hb
      subst hb
      omega


theorem goodNode_child {init goal : Int × Int} {cur : Node} {d : Int × Int}
    (hcur : GoodNode init goal cur) (hd : d ∈ delta) :
    GoodNode init goal (Node.mk (cur.x + d.1) (cur.y + d.2) (cur.g + 1)
      (Heuristic (cur.x + d.1) (cur.y + d.2) goal.1 goal.2)) := by
  have hadj : Adjacent4 (cur.x, cur.y) (cur.x + d.1, cur.y + d.2) :=
    adjacent4_iff.2 ⟨d, hd, rfl⟩
  have h1 := heuristic_adjacent goal hadj
  have h2 := heuristic_from_adjacent init hadj
  obtain ⟨hh, hf, hg⟩ := hcur
  refine ⟨rfl, ?_, ?_⟩
  · simp only at h1 ⊢
    omega
  · simp only at h2 ⊢
    omega

theorem expand_fold_stair {init goal : Int × Int} {cur : Node}
    (hcur : GoodNode init goal cur)
    (hcurf : cur.g + cur.h = Heuristic init.1 init.2 goal.1 goal.2) :
    ∀ (l : List (Int × Int)) (A : List Node) (H : Grid) (A' : List Node) (H' : Grid),
      l.Nodup → (∀ d ∈ l, d ∈ delta) → IsRect H →
      l.foldlM (expandOne cur goal) (A, H) = .ok (A', H') →
      (∀ n ∈ A, GoodNode init goal n) →
      (∀ n ∈ A', GoodNode init goal n) ∧
        (Split (Heuristic init.1 init.2 goal.1 goal.2) cur A →
          Split (Heuristic init.1 init.2 goal.1 goal.2) cur A') ∧
        ∀ d ∈ l, Heuristic (cur.x + d.1) (cur.y + d.2) goal.1 goal.2 = cur.h - 1 →
          cellAt H (cur.x + d.1, cur.y + d.2) = .ok State.kEmpty →
          Split (Heuristic init.1 init.2 goal.1 goal.2) cur A' := by
  intro l
  induction l with
  | nil =>
    intro A H A' H' _ _ _ h hgood
    simp only [List.foldlM, pure, Except.pure, Except.ok.injEq, Prod.mk.injEq] at h
    obtain ⟨rfl, rfl⟩ := h
    exact ⟨hgood, id, fun d hd => by cases hd⟩
  | cons d l ih =>
    intro A H A' H' hnd hsub hrect h hgood
    rw [List.foldlM_cons] at h
    cases hstep : expandOne cur goal (A, H) d with
    | error e => simp [hstep, bind, Except.bind] at h
    | ok acc =>
      obtain ⟨B, K⟩ := acc
      simp only [hstep, bind, Except.bind] at h
      obtain ⟨hdl, hndl⟩ := List.nodup_cons.1 hnd
      have hdmem : d ∈ delta := hsub d (List.mem_cons_self _ _)
      have hsubl : ∀ d' ∈ l, d' ∈ delta := fun d' hd' => hsub d' (List.mem_cons_of_mem _ hd')
      have hrectK := isRect_of_shape (expandOne_shape hstep) hrect
      rcases expandOne_ok hstep with ⟨hE, -, hB, hset⟩ | ⟨hcheck, hB, hK⟩
      · subst hB
        have hn := goodNode_child hcur hdmem
        have hgoodB : ∀ m ∈ A ++ [Node.mk (cur.x + d.1) (cur.y + d.2) (cur.g + 1)
            (Heuristic (cur.x + d.1) (cur.y + d.2) goal.1 goal.2)],
            GoodNode init goal m := by
          intro m hm
          rcases List.mem_append.1 hm with hm | hm
          · exact hgood m hm
          · rw [List.mem_singleton] at hm
            exact hm ▸ hn
        obtain ⟨h1, h2, h3⟩ := ih _ K A' H' hndl hsubl hrectK h hgoodB
        refine ⟨h1, fun hs => h2 (split_snoc hn.2.1 rfl hs), ?_⟩
        intro d' hd' hfwd hEmp
        rcases List.mem_cons.1 hd' with rfl | hd'
        · apply h2
          refine ⟨A, _, [], rfl, ?_, rfl, fun b hb => by cases hb⟩
          simp only
          omega
        · apply h3 d' hd' hfwd
          rw [cellAt_setCell_ne hset]
          · exact hEmp
          · intro heq
            simp only [Prod.mk.injEq] at heq
            apply hdl
            have : d' = d := Prod.ext (by omega) (by omega)
            exact this ▸ hd'
      · subst hB hK
        obtain ⟨h1, h2, h3⟩ := ih B K A' H' hndl hsubl hrect h hgood
        refine ⟨h1, h2, ?_⟩
        intro d' hd' hfwd hEmp
        rcases List.mem_cons.1 hd' with rfl | hd'
        · exfalso
          rcases checkValidCell_false hcheck with hout | ⟨s, hs, hcell⟩
          · exact hout ((cellAt_ok_iff_inBounds hrect).1 ⟨_, hEmp⟩)
          · have hc : cellAt K (cur.x + d'.1, cur.y + d'.2) = .ok s := hcell
            rw [hEmp] at hc
            cases hc
            exact hs rfl
        · exact h3 d' hd' hfwd hEmp

theorem stair_popped {init goal : Int × Int} {P : List (Int × Int)} {O rest : List Node}
    {cur : Node} (hS : Stair init goal P O)
    (hsort : CellSort insertionSort O = rest ++ [cur]) :
    cur ∈ O ∧ cur.g + cur.h = Heuristic init.1 init.2 goal.1 goal.2 ∧
      cur.g = (P.length : Int) := by
  obtain ⟨pre, c, post, hO, hcf, hcg, hpost⟩ := hS.next
  have hlast := insertionSort_getLast? pre post c
    (fun b hb => by
      have := (hS.good b (by rw [hO]; simp [hb])).2.1
      omega)
    (fun b hb => by
      have := hpost b hb
      omega)
  rw [← hO, hsort, List.getLast?_concat] at hlast
  cases hlast
  exact ⟨by rw [hO]; simp, hcf, hcg⟩


theorem stair_seed {init goal : Int × Int} {O : List Node} {G grid0 : Grid}
    (hadd : AddToOpen init.1 init.2 0 (Heuristic init.1 init.2 goal.1 goal.2) [] grid0
      = .ok (O, G)) : Stair init goal [] O := by
  unfold AddToOpen at hadd
  simp only [bind, Except.bind, List.nil_append] at hadd
  cases hset : setCell grid0 init.1 init.2 State.kClosed with
  | error e => simp [hset] at hadd
  | ok G1 =>
    simp only [hset, pure, Except.pure, Except.ok.injEq, Prod.mk.injEq] at hadd
    obtain ⟨rfl, -⟩ := hadd
    have hzero : Heuristic init.1 init.2 init.1 init.2 = 0 := by
      simp [Heuristic, intAbs]
    refine ⟨?_, (fun p hp => by cases hp), Or.inr ⟨rfl, ?_⟩, ⟨[], _, [], rfl, ?_, rfl, ?_⟩⟩
    · intro n hn
      rw [List.mem_singleton] at hn
      subst hn
      exact ⟨rfl, by simp, by simp [hzero]⟩
    · intro n hn
      rw [List.mem_singleton] at hn
      subst hn
      rfl
    · simp
    · intro b hb
      cases hb

theorem stair_init_popped {init goal : Int × Int} {P : List (Int × Int)} {O : List Node}
    {cur : Node} (hS : Stair init goal P O) (hcur : cur ∈ O) : init ∈ P ++ [cur.cell] := by
  rcases hS.start with h | ⟨-, h⟩
  · exact List.mem_append_left _ h
  · rw [h cur hcur]
    simp

theorem searchBody_stair_found {grid0 : Grid} {init goal : Int × Int}
    {P : List (Int × Int)} {O : List Node} {G : Grid} {node : Node} {result : Grid}
    (hI : Inv grid0 init P O G) (hS : Stair init goal P O)
    (h : searchBody insertionSort init goal O G = .ok (Sum.inl (node, result))) :
    ∃ rest G1, Found grid0 init goal node result (P ++ [node.cell]) rest G1 ∧
      init ∈ P ++ [node.cell] ∧
      ((P ++ [node.cell]).length : Int) = Heuristic init.1 init.2 goal.1 goal.2 + 1 := by
  obtain ⟨rest, G1, hF⟩ := searchBody_found insertionSort_isStdSort hI h
  obtain ⟨cur, rest', G1', -, hsort, -, hcase⟩ := searchBody_ok insertionSort_isStdSort h
  rcases hcase with ⟨hcg, G2, G3, -, -, hres⟩ | ⟨-, nxt, -, hres⟩
  · cases hres
    obtain ⟨hmem, hf, hg⟩ := stair_popped hS hsort
    refine ⟨rest, G1, hF, stair_init_popped hS hmem, ?_⟩
    have hh := (hS.good node hmem).1
    have hx : node.x = goal.1 := congrArg Prod.fst hcg
    have hy : node.y = goal.2 := congrArg Prod.snd hcg
    have hzero : node.h = 0 := by
      rw [hh, hx, hy]
      simp [Heuristic, intAbs]
    simp only [List.length_append, List.length_singleton, Nat.cast_add, Nat.cast_one]
    omega
  · cases hres

theorem searchBody_stair_step {grid0 : Grid} {init goal : Int × Int}
    {P : List (Int × Int)} {O : List Node} {G : Grid} {next : List Node × Grid}
    (hrect : IsRect grid0)
    (hbox : ∀ c, InBox init goal c → cellAt grid0 c = .ok State.kEmpty)
    (hI : Inv grid0 init P O G) (hS : Stair init goal P O)
    (h : searchBody insertionSort init goal O G = .ok (Sum.inr next)) :
    ∃ P', Inv grid0 init P' next.1 next.2 ∧ Stair init goal P' next.1 := by
  obtain ⟨cur, rest, G1, hperm, hsort, hset, hcase⟩ := searchBody_ok insertionSort_isStdSort h
  rcases hcase with ⟨-, G2, G3, -, -, hres⟩ | ⟨hne, nxt, hexp, hres⟩
  · cases hres
  cases hres
  obtain ⟨hmem, hf, hg⟩ := stair_popped hS hsort
  have hcur := hS.good cur hmem
  have hI1 := hI.pop hperm hset
  have hI2 : Inv grid0 init (P ++ [cur.cell]) next.1 next.2 := hI1.expand (by simp) hexp
  have hrestO : ∀ n ∈ rest, n ∈ O := fun n hn => hperm.mem_iff.1 (List.mem_append_left _ hn)
  -- a neighbour one step closer to the goal is still `kEmpty`
  obtain ⟨d, hd, hfwd⟩ := exists_forward hne
  have hfwd' : Heuristic (cur.x + d.1) (cur.y + d.2) goal.1 goal.2 = cur.h - 1 := by
    rw [hcur.1]
    exact hfwd
  have hadj : Adjacent4 (cur.x, cur.y) (cur.x + d.1, cur.y + d.2) :=
    adjacent4_iff.2 ⟨d, hd, rfl⟩
  have hfrom := heuristic_from_adjacent init hadj
  simp only at hfrom
  have hinbox : InBox init goal (cur.x + d.1, cur.y + d.2) := by
    apply inBox_of_heuristic
    have := hcur.2.2
    simp only
    omega
  have hEmp0 := hbox _ hinbox
  have hnotP : (cur.x + d.1, cur.y + d.2) ∉ P ++ [cur.cell] := by
    intro hc
    rcases List.mem_append.1 hc with hc | hc
    · have := hS.far _ hc
      simp only at this
      omega
    · rw [List.mem_singleton] at hc
      have h1 : cur.x + d.1 = cur.x := congrArg Prod.fst hc
      have h2 : cur.y + d.2 = cur.y := congrArg Prod.snd hc
      rw [h1, h2, hcur.1] at hfwd'
      omega
  have hnotR : (cur.x + d.1, cur.y + d.2) ∉ rest.map Node.cell := by
    intro hc
    obtain ⟨m, hm, hmc⟩ := List.mem_map.1 hc
    rcases hI.parent m (hrestO m hm) with hmi | ⟨p, hp, hpadj⟩
    · rw [hmc] at hmi
      have h1 : cur.x + d.1 = init.1 := congrArg Prod.fst hmi
      have h2 : cur.y + d.2 = init.2 := congrArg Prod.snd hmi
      rw [h1, h2] at hfwd'
      omega
    · have h1 := heuristic_adjacent goal hpadj
      have h2 := hS.far p hp
      rw [hmc] at h1
      simp only at h1
      omega
  have hEmp1 : cellAt G1 (cur.x + d.1, cur.y + d.2) = .ok State.kEmpty := by
    rw [hI1.frame _ hnotP hnotR]
    exact hEmp0
  have hfold := expand_fold_stair hcur hf delta rest G1 next.1 next.2 (by decide)
    (fun d hd => hd) (isRect_of_shape hI1.shape hrect) hexp
    (fun n hn => hS.good n (hrestO n hn))
  obtain ⟨hgood, -, hsplit⟩ := hfold
  obtain ⟨pre, c, post, hO', hcf, hcg, hpost⟩ := hsplit d hd hfwd' hEmp1
  refine ⟨P ++ [cur.cell], hI2, hgood, ?_, Or.inl (stair_init_popped hS hmem),
    ⟨pre, c, post, hO', hcf, ?_, hpost⟩⟩
  · intro p hp
    simp only [List.length_append, List.length_singleton, Nat.cast_add, Nat.cast_one]
    rcases List.mem_append.1 hp with hp | hp
    · have := hS.far p hp
      omega
    · rw [List.mem_singleton] at hp
      subst hp
      have := hcur.1
      simp only [Node.cell]
      omega
  · simp only [List.length_append, List.length_singleton, Nat.cast_add, Nat.cast_one]
    omega

theorem searchRun_stair_count {fuel : Nat} {grid : Grid} {init goal : Int × Int}
    {node : Node} {result : Grid} (hrect : IsRect grid) (hmap : IsObstacleMap grid)
    (hbox : ∀ c, InBox init goal c → cellAt grid c = .ok State.kEmpty)
    (h : searchRun insertionSort fuel grid init goal = .ok (some (node, result))) :
    (taggedCount result : Int) = Heuristic init.1 init.2 goal.1 goal.2 + 1 := by
  unfold searchRun at h
  simp only [bind, Except.bind] at h
  cases hadd : AddToOpen init.1 init.2 0 (Heuristic init.1 init.2 goal.1 goal.2) [] grid with
  | error e => simp [hadd] at h
  | ok seeded =>
    simp only [hadd] at h
    obtain ⟨O1, G1⟩ := seeded
    have hseed : ∃ P, Inv grid init P O1 G1 ∧ Stair init goal P O1 :=
      ⟨[], Inv.seed hadd, stair_seed hadd⟩
    refine searchLoop_rule (fun O G => ∃ P, Inv grid init P O G ∧ Stair init goal P O)
      (fun r => ∀ node result, r = some (node, result) →
        (taggedCount result : Int) = Heuristic init.1 init.2 goal.1 goal.2 + 1)
      ?_ ?_ ?_ fuel O1 G1 _ hseed h node result rfl
    · intro G _ node result hr
      cases hr
    · rintro O G ⟨n, r⟩ ⟨P, hI, hS⟩ _ hb node result hr
      cases hr
      obtain ⟨rest, G1, hF, hinit, hlen⟩ := searchBody_stair_found hI hS hb
      rw [hF.taggedCount_eq hmap hinit]
      exact hlen
    · rintro O G next ⟨P, hI, hS⟩ _ hb
      exact searchBody_stair_step hrect hbox hI hS hb


/-! ## Concrete runs -/

/-- C8, counterexample: on the 1x1 grid whose cell is `kEmpty`, with `init = goal = (0, 0)`,
`Search` succeeds and the single cell ends as `kFinish`; the init cell is not tagged `kStart`. -/
theorem search_init_eq_goal_is_finish :
    Search insertionSort 1 [[State.kEmpty]] (0, 0) (0, 0) = .ok [[State.kFinish]] ∧
      cellAt [[State.kFinish]] (0, 0) ≠ .ok State.kStart := by
  constructor <;> decide

/-- C8, witness: the 1x3 grid of `kEmpty` cells, from `(0, 1)` to `(0, 2)`. -/
theorem search_marks_finish_then_start_witness :
    IsStdSort insertionSort ∧
      Search insertionSort 3 [[State.kEmpty, State.kEmpty, State.kEmpty]] (0, 1) (0, 2)
        = .ok [[State.kClosed, State.kStart, State.kFinish]] ∧
      cellAt [[State.kClosed, State.kStart, State.kFinish]] (0, 2) = .ok State.kFinish ∧
      (((0, 1) : Int × Int) ≠ (0, 2) →
        cellAt [[State.kClosed, State.kStart, State.kFinish]] (0, 1) = .ok State.kStart) :=
  ⟨insertionSort_isStdSort, by decide,
    search_marks_finish_then_start insertionSort_isStdSort
      (by decide : Search insertionSort 3 [[State.kEmpty, State.kEmpty, State.kEmpty]]
        (0, 1) (0, 2) = .ok [[State.kClosed, State.kStart, State.kFinish]]) (by decide)⟩

/-- C9, counterexample: on the 1x3 grid of `kEmpty` cells, from `(0, 1)` to `(0, 2)`, `Search`
succeeds and the cell `(0, 0)`, put on the open list and never popped, is `kClosed` in the
returned grid. -/
theorem search_leaves_closed_cell :
    Search insertionSort 3 [[State.kEmpty, State.kEmpty, State.kEmpty]] (0, 1) (0, 2)
        = .ok [[State.kClosed, State.kStart, State.kFinish]] ∧
      cellAt [[State.kClosed, State.kStart, State.kFinish]] (0, 0) = .ok State.kClosed := by
  constructor <;> decide

/-- C9, witness: the 1x3 grid of `kEmpty` cells, from `(0, 1)` to `(0, 2)`. -/
theorem search_closed_cells_were_enqueued_witness :
    IsStdSort insertionSort ∧
      IsObstacleMap [[State.kEmpty, State.kEmpty, State.kEmpty]] ∧
      Search insertionSort 3 [[State.kEmpty, State.kEmpty, State.kEmpty]] (0, 1) (0, 2)
        = .ok [[State.kClosed, State.kStart, State.kFinish]] ∧
      ∀ c, cellAt [[State.kClosed, State.kStart, State.kFinish]] c = .ok State.kClosed →
        cellAt [[State.kEmpty, State.kEmpty, State.kEmpty]] c = .ok State.kEmpty ∧
          c ≠ (0, 1) ∧ c ≠ (0, 2) ∧
          ∃ p, Adjacent4 p c ∧ IsTagged [[State.kClosed, State.kStart, State.kFinish]] p :=
  ⟨insertionSort_isStdSort, by decide, by decide,
    search_closed_cells_were_enqueued insertionSort_isStdSort (by decide)
      (by decide : Search insertionSort 3 [[State.kEmpty, State.kEmpty, State.kEmpty]]
        (0, 1) (0, 2) = .ok [[State.kClosed, State.kStart, State.kFinish]]) (by decide)⟩

/-- C10, witness: the 3x3 grid `gridDeadEnd`, from `(1, 0)` to `(2, 2)`. -/
theorem search_keeps_shape_and_obstacles_witness :
    IsStdSort insertionSort ∧ cellAt gridDeadEnd (1, 0) = .ok State.kEmpty ∧
      Search insertionSort 9 gridDeadEnd (1, 0) (2, 2) = .ok resultDeadEnd ∧
      resultDeadEnd.map List.length = gridDeadEnd.map List.length ∧
      ∀ c, cellAt resultDeadEnd c = .ok State.kObstacle ↔
        cellAt gridDeadEnd c = .ok State.kObstacle :=
  ⟨insertionSort_isStdSort, by decide, by decide,
    search_keeps_shape_and_obstacles insertionSort_isStdSort (by decide)
      (by decide : Search insertionSort 9 gridDeadEnd (1, 0) (2, 2) = .ok resultDeadEnd)
      (by decide)⟩

/-- C6, counterexample: on the 1x2 grid `[kObstacle, kEmpty]`, from `(0, 0)` to `(0, 1)`,
`Search` succeeds and tags the init cell `kStart`, although that cell is `kObstacle` in the
input: no walk from `init` to it runs through cells that are all `kEmpty` in the input. -/
theorem search_tags_obstacle_init :
    Search insertionSort 2 [[State.kObstacle, State.kEmpty]] (0, 0) (0, 1)
        = .ok [[State.kStart, State.kFinish]] ∧
      IsTagged [[State.kStart, State.kFinish]] (0, 0) ∧
      ¬ ∃ path, IsWalk (0, 0) (0, 0) path ∧
          ∀ d ∈ path, cellAt [[State.kObstacle, State.kEmpty]] d = .ok State.kEmpty := by
  refine ⟨by decide, by decide, ?_⟩
  rintro ⟨path, hw, hempty⟩
  cases path with
  | nil => cases hw.head
  | cons x t =>
    have hx : x = (0, 0) := by simpa using hw.head
    have := hempty x (List.mem_cons_self _ _)
    rw [hx] at this
    revert this
    decide

/-- C6, witness: the 3x3 grid `gridDeadEnd`, from `(1, 0)` to `(2, 2)`. -/
theorem search_tagged_cells_reachable_witness :
    IsStdSort insertionSort ∧ IsObstacleMap gridDeadEnd ∧
      cellAt gridDeadEnd (1, 0) = .ok State.kEmpty ∧
      Search insertionSort 9 gridDeadEnd (1, 0) (2, 2) = .ok resultDeadEnd ∧
      ∀ c, IsTagged resultDeadEnd c →
        ∃ path, IsWalk (1, 0) c path ∧ ∀ d ∈ path, cellAt gridDeadEnd d = .ok State.kEmpty :=
  ⟨insertionSort_isStdSort, by decide, by decide, by decide,
    search_tagged_cells_reachable insertionSort_isStdSort (by decide) (by decide)
      (by decide : Search insertionSort 9 gridDeadEnd (1, 0) (2, 2) = .ok resultDeadEnd)
      (by decide)⟩

/-- C5, counterexample: on the 3x3 grid `gridDeadEnd`, from `(1, 0)` to `(2, 2)`, `Search`
succeeds and tags the dead end `(2, 0)` as `kPath`; the tagged cells cannot be listed without
repetition as one walk from `init` to `goal`. -/
theorem search_tags_dead_end :
    Search insertionSort 9 gridDeadEnd (1, 0) (2, 2) = .ok resultDeadEnd ∧
      ¬ ∃ path, IsWalk (1, 0) (2, 2) path ∧ path.Nodup ∧
          ∀ c, c ∈ path ↔ IsTagged resultDeadEnd c := by
  refine ⟨by decide, ?_⟩
  rintro ⟨path, hw, hnd, htag⟩
  have hmem : ((2, 0) : Int × Int) ∈ path := (htag _).2 (by decide)
  obtain ⟨p, q, hp, hq, hpq, hpc, hcq⟩ :=
    hw.interior hnd hmem (by decide) (by decide)
  have hone : ∀ c, Adjacent4 (2, 0) c → IsTagged resultDeadEnd c → c = (1, 0) := by
    intro c hadj htg
    obtain ⟨d, hd, rfl⟩ := adjacent4_iff.1 hadj
    simp only [delta, List.mem_cons, List.mem_singleton, List.not_mem_nil, or_false] at hd
    rcases hd with rfl | rfl | rfl | rfl
    · rfl
    · revert htg; decide
    · revert htg; decide
    · revert htg; decide
  have h1 := hone p hpc.symm ((htag p).1 hp)
  have h2 := hone q hcq ((htag q).1 hq)
  exact hpq (h1.trans h2.symm)

/-- C5, witness: the 3x3 grid `gridDeadEnd`, from `(1, 0)` to `(2, 2)`. -/
theorem search_tagged_cells_connected_witness :
    IsStdSort insertionSort ∧ IsObstacleMap gridDeadEnd ∧
      Search insertionSort 9 gridDeadEnd (1, 0) (2, 2) = .ok resultDeadEnd ∧
      IsTagged resultDeadEnd (1, 0) ∧ IsTagged resultDeadEnd (2, 2) ∧
      ∀ c, IsTagged resultDeadEnd c →
        ∃ path, IsWalk (1, 0) c path ∧ ∀ d ∈ path, IsTagged resultDeadEnd d :=
  ⟨insertionSort_isStdSort, by decide, by decide,
    search_tagged_cells_connected insertionSort_isStdSort (by decide)
      (by decide : Search insertionSort 9 gridDeadEnd (1, 0) (2, 2) = .ok resultDeadEnd)
      (by decide)⟩

/-- C3, counterexample: on the 1x1 grid whose cell is `kObstacle`, with `init = goal = (0, 0)`,
the goal cell is an obstacle and yet `Search` succeeds and returns a non-empty grid. -/
theorem search_obstacle_goal_found :
    IsRect [[State.kObstacle]] ∧ InBounds [[State.kObstacle]] (0, 0) ∧
      cellAt [[State.kObstacle]] (0, 0) = .ok State.kObstacle ∧
      Search insertionSort 1 [[State.kObstacle]] (0, 0) (0, 0) = .ok [[State.kFinish]] := by
  refine ⟨by decide, by decide, by decide, by decide⟩

/-- C3, witness: the 1x2 grid `[kEmpty, kObstacle]`, from `(0, 0)` to `(0, 1)`. -/
theorem search_obstacle_goal_returns_empty_witness :
    IsStdSort insertionSort ∧ IsRect [[State.kEmpty, State.kObstacle]] ∧
      InBounds [[State.kEmpty, State.kObstacle]] (0, 0) ∧
      cellAt [[State.kEmpty, State.kObstacle]] (0, 1) = .ok State.kObstacle ∧
      ((0, 1) : Int × Int) ≠ (0, 0) ∧
      Search insertionSort 2 [[State.kEmpty, State.kObstacle]] (0, 0) (0, 1) = .ok [] :=
  ⟨insertionSort_isStdSort, by decide, by decide, by decide, by decide,
    search_obstacle_goal_returns_empty insertionSort_isStdSort (by decide) (by decide)
      (by decide) (by decide) (by decide)⟩


theorem adjacent4_snd_le {a b : Int × Int} (h : Adjacent4 a b) : b.2 ≤ a.2 + 1 := by
  unfold Adjacent4 intAbs at h
  split_ifs at h <;> omega

theorem adjacent4_fst_le {a b : Int × Int} (h : Adjacent4 a b) : b.1 ≤ a.1 + 1 := by
  unfold Adjacent4 intAbs at h
  split_ifs at h <;> omega

/-- C2, witness: the 1x3 grid `[kEmpty, kObstacle, kEmpty]`, from `(0, 0)` to `(0, 2)`; the
obstacle in column 1 separates the two cells. -/
theorem search_unreachable_returns_empty_witness :
    IsStdSort insertionSort ∧
      IsRect [[State.kEmpty, State.kObstacle, State.kEmpty]] ∧
      InBounds [[State.kEmpty, State.kObstacle, State.kEmpty]] (0, 0) ∧
      (¬ ∃ path, IsRoute [[State.kEmpty, State.kObstacle, State.kEmpty]] (0, 0) (0, 2) path) ∧
      Search insertionSort 3 [[State.kEmpty, State.kObstacle, State.kEmpty]] (0, 0) (0, 2)
        = .ok [] :=
  have hwall : ¬ ∃ path,
      IsRoute [[State.kEmpty, State.kObstacle, State.kEmpty]] (0, 0) (0, 2) path := by
    rintro ⟨path, hr⟩
    obtain ⟨c, hc, hck⟩ := walk_ivt (fun c => c.2) (fun a b => adjacent4_snd_le) path _ _
      hr.walk 1 (by decide) (by decide)
    obtain ⟨x, y⟩ := c
    simp only at hck
    subst hck
    have hcell := hr.empty (x, 1) hc (by simp)
    obtain ⟨hx0, -, row, hrow, hs⟩ := getCell_ok_iff.1 hcell
    obtain ⟨hxn, hrow'⟩ := List.getElem?_eq_some.1 hrow
    have hx : x.toNat = 0 := by simpa using hxn
    simp only [hx] at hrow'
    subst hrow'
    simp at hs
  ⟨insertionSort_isStdSort, by decide, by decide, hwall,
    search_unreachable_returns_empty insertionSort_isStdSort (by decide) (by decide) hwall
      (by decide)⟩

/-- C4, witness: the 3x3 grid `gridGate`, whose middle row is blocked except for column 1;
from `(0, 1)` to `(2, 1)` every route crosses `(1, 1)`, hence `(1, 1)` is tagged in the
returned grid. -/
theorem search_result_has_tagged_walk_witness :
    IsStdSort insertionSort ∧
      Search insertionSort 9 gridGate (0, 1) (2, 1)
        = .ok [[State.kClosed, State.kStart, State.kClosed],
               [State.kObstacle, State.kPath, State.kObstacle],
               [State.kEmpty, State.kFinish, State.kEmpty]] ∧
      IsTagged [[State.kClosed, State.kStart, State.kClosed],
                [State.kObstacle, State.kPath, State.kObstacle],
                [State.kEmpty, State.kFinish, State.kEmpty]] (1, 1) :=
  have hgate : ∀ route, IsRoute gridGate (0, 1) (2, 1) route → ((1, 1) : Int × Int) ∈ route := by
    intro route hr
    obtain ⟨c, hc, hck⟩ := walk_ivt (fun c => c.1) (fun a b => adjacent4_fst_le) route _ _
      hr.walk 1 (by decide) (by decide)
    obtain ⟨x, y⟩ := c
    simp only at hck
    subst hck
    have hcell := hr.empty (1, y) hc (by simp)
    obtain ⟨-, hy0, row, hrow, hs⟩ := getCell_ok_iff.1 hcell
    have hrow' : row = [State.kObstacle, State.kEmpty, State.kObstacle] := by
      simpa [gridGate] using hrow.symm
    subst hrow'
    obtain ⟨hyn, hval⟩ := List.getElem?_eq_some.1 hs
    simp only [List.length_cons, List.length_nil] at hyn
    have hy : y = 1 := by
      have h3 : y.toNat = 0 ∨ y.toNat = 1 ∨ y.toNat = 2 := by omega
      rcases h3 with h | h | h
      · simp [h] at hval
      · omega
      · simp [h] at hval
    rw [hy] at hc
    exact hc
  ⟨insertionSort_isStdSort, by decide,
    (search_result_has_tagged_walk insertionSort_isStdSort
      (by decide : Search insertionSort 9 gridGate (0, 1) (2, 1)
        = .ok [[State.kClosed, State.kStart, State.kClosed],
               [State.kObstacle, State.kPath, State.kObstacle],
               [State.kEmpty, State.kFinish, State.kEmpty]]) (by decide)).2 (1, 1) hgate⟩

/-- C1, failing input: on the 3x5 grid `gridPocket`, from `(1, 0)` to `(2, 4)`, the goal node
is popped with accumulated cost `g = 9`, although the route along the top row has only 7
steps (8 cells). The cell `(0, 2)` is first put on the open list from the pocket, with cost 5
instead of 3, and its cost is never lowered. The same happens when equal f-values are sorted
in reverse order. -/
theorem search_goal_cost_not_shortest :
    searchRun insertionSort 15 gridPocket (1, 0) (2, 4)
        = .ok (some ({ x := 2, y := 4, g := 9, h := 0 },
            [[State.kPath, State.kPath, State.kPath, State.kPath, State.kPath],
             [State.kStart, State.kObstacle, State.kPath, State.kObstacle, State.kPath],
             [State.kPath, State.kPath, State.kPath, State.kObstacle, State.kFinish]])) ∧
      searchRun reverseInsertionSort 15 gridPocket (1, 0) (2, 4)
        = .ok (some ({ x := 2, y := 4, g := 9, h := 0 },
            [[State.kPath, State.kPath, State.kPath, State.kPath, State.kPath],
             [State.kStart, State.kObstacle, State.kPath, State.kObstacle, State.kPath],
             [State.kPath, State.kPath, State.kPath, State.kObstacle, State.kFinish]])) ∧
      IsRoute gridPocket (1, 0) (2, 4)
        [(1, 0), (0, 0), (0, 1), (0, 2), (0, 3), (0, 4), (1, 4), (2, 4)] := by
  refine ⟨by decide, by decide, ⟨rfl, rfl, ?_⟩, ?_, by decide⟩
  · simp only [List.chain'_cons, List.chain'_singleton, and_true]
    decide
  · intro c hc
    simp only [List.mem_cons, List.mem_singleton, List.not_mem_nil, or_false] at hc
    rcases hc with rfl | rfl | rfl | rfl | rfl | rfl | rfl | rfl <;> exact ⟨_, rfl⟩


/-! ## C7: the rectangle spanned by `init` and `goal` -/

theorem searchRun_open_rectangle
    {stdSort : (Node → Node → Bool) → List Node → List Node} (hs : IsStdSort stdSort)
    {fuel : Nat} {grid : Grid} {init goal : Int × Int} (hrect : IsRect grid)
    (hbox : ∀ c, InBox init goal c → cellAt grid c = .ok State.kEmpty)
    (hfuel : grid.length * (grid.headD []).length ≤ fuel) :
    ∃ node result, searchRun stdSort fuel grid init goal = .ok (some (node, result)) ∧
      Search stdSort fuel grid init goal = .ok result ∧ result ≠ [] ∧
      Heuristic init.1 init.2 goal.1 goal.2 + 1 ≤ (taggedCount result : Int) := by
  have hinitBox : InBox init goal init := by
    unfold InBox
    omega
  have hinit : InBounds grid init := (cellAt_ok_iff_inBounds hrect).1 ⟨_, hbox init hinitBox⟩
  obtain ⟨node, result, hrun⟩ := searchRun_complete hs hrect hinit hfuel (box_route hbox)
  obtain ⟨P, O, G1, hF⟩ := searchRun_found hs hrun
  refine ⟨node, result, hrun, ?_, ?_, ?_⟩
  · unfold Search
    simp [hrun, bind, Except.bind, pure, Except.pure]
  · intro hnil
    have hshape := hF.shape
    rw [hnil] at hshape
    obtain ⟨h0, h1, -, -⟩ := hinit
    cases grid with
    | nil => simp at h1; omega
    | cons r t => simp at hshape
  · obtain ⟨l, hl, hlP⟩ := hF.inv.tree goal hF.goalPopped
    obtain ⟨L, hnd, hsub, hlen⟩ := walk_length_ge hl
    have := length_le_taggedCount hnd
      (fun c hc => hF.tagged_of_popped (hlP c (hsub c hc)))
    omega

/-- C7, as amended: on a rectangular grid in which every cell of the axis-aligned rectangle
spanned by `init` and `goal` is `kEmpty`, `Search`, given fuel for `rowCount * colCount`
iterations, succeeds and the returned grid contains at least `Heuristic(init, goal) + 1` cells
tagged `kPath`, `kStart` or `kFinish`, whatever order the sort leaves nodes of equal f in;
when the grid holds only `kEmpty` and `kObstacle` cells and the sort keeps nodes of equal f
in insertion order (insertion sort), it contains exactly `Heuristic(init, goal) + 1`. -/
theorem search_open_rectangle_succeeds
    {stdSort : (Node → Node → Bool) → List Node → List Node} (hs : IsStdSort stdSort)
    {fuel : Nat} {grid : Grid} {init goal : Int × Int} (hrect : IsRect grid)
    (hbox : ∀ c, InBox init goal c → cellAt grid c = .ok State.kEmpty)
    (hfuel : grid.length * (grid.headD []).length ≤ fuel) :
    (∃ result, Search stdSort fuel grid init goal = .ok result ∧ result ≠ [] ∧
      Heuristic init.1 init.2 goal.1 goal.2 + 1 ≤ (taggedCount result : Int)) ∧
    (IsObstacleMap grid →
      ∃ result, Search insertionSort fuel grid init goal = .ok result ∧ result ≠ [] ∧
        (taggedCount result : Int) = Heuristic init.1 init.2 goal.1 goal.2 + 1) := by
  constructor
  · obtain ⟨node, result, -, hsearch, hne, hcount⟩ :=
      searchRun_open_rectangle hs hrect hbox hfuel
    exact ⟨result, hsearch, hne, hcount⟩
  · intro hmap
    obtain ⟨node, result, hrun, hsearch, hne, -⟩ :=
      searchRun_open_rectangle insertionSort_isStdSort hrect hbox hfuel
    exact ⟨result, hsearch, hne, searchRun_stair_count hrect hmap hbox hrun⟩

/-- C7, counterexample: with `std::sort` as implemented in libstdc++, `Search` on the 4x10
grid of `kEmpty` cells, from `(1, 0)` to `(3, 8)`, returns a grid with 12 tagged cells, not
`Heuristic(init, goal) + 1 = 11`. Once the open list holds more than 16 nodes this sort no
longer leaves nodes of equal f in insertion order, and the cell `(2, 0)` is popped besides the
11 cells of a staircase. On the 5x5 grid of `kEmpty` cells from `(0, 0)` to `(4, 4)` the same
sort gives 9 tagged cells. -/
theorem search_open_rectangle_libstdcxx :
    IsRect gridOpen4x10 ∧ InBounds gridOpen4x10 (1, 0) ∧ InBounds gridOpen4x10 (3, 8) ∧
      (∀ row ∈ gridOpen4x10, ∀ s ∈ row, s = State.kEmpty) ∧
      Search libstdcxxSort 40 gridOpen4x10 (1, 0) (3, 8) = .ok resultOpen4x10 ∧
      taggedCount resultOpen4x10 = 12 ∧ Heuristic 1 0 3 8 + 1 = 11 ∧
      (Search libstdcxxSort 25 gridOpen5 (0, 0) (4, 4)).map taggedCount = .ok 9 := by
  refine ⟨by decide, by decide, by decide, by decide, ?_, by decide, by decide, ?_⟩
  · set_option maxRecDepth 100000 in decide
  · set_option maxRecDepth 100000 in decide

/-- The order among nodes of equal f matters under the postcondition of `std::sort` alone:
`reverseInsertionSort`, which is not the sort of a standard library, meets the postcondition,
and with it `Search` on the 2x2 grid of `kEmpty` cells, from `(0, 0)` to `(1, 1)`, pops both
equal-f neighbours of `init` before the goal, so that the returned grid has 4 tagged cells
where `Heuristic(init, goal) + 1 = 3`. -/
theorem search_open_rectangle_extra_cells :
    IsStdSort reverseInsertionSort ∧
      IsObstacleMap [[State.kEmpty, State.kEmpty], [State.kEmpty, State.kEmpty]] ∧
      Search reverseInsertionSort 4
          [[State.kEmpty, State.kEmpty], [State.kEmpty, State.kEmpty]] (0, 0) (1, 1)
        = .ok [[State.kStart, State.kPath], [State.kPath, State.kFinish]] ∧
      taggedCount [[State.kStart, State.kPath], [State.kPath, State.kFinish]] = 4 ∧
      Heuristic 0 0 1 1 + 1 = 3 :=
  ⟨reverseInsertionSort_isStdSort, by decide, by decide, by decide, by decide⟩

/-- C7, witness: the 5x5 grid without obstacles, from `(0, 0)` to `(4, 4)`; with insertion
sort the returned grid has exactly 9 tagged cells. -/
theorem search_open_rectangle_succeeds_witness :
    IsStdSort insertionSort ∧ IsRect gridOpen5 ∧
      (∀ c, InBox (0, 0) (4, 4) c → cellAt gridOpen5 c = .ok State.kEmpty) ∧
      IsObstacleMap gridOpen5 ∧
      (∃ result, Search insertionSort 25 gridOpen5 (0, 0) (4, 4) = .ok result ∧ result ≠ [] ∧
        Heuristic 0 0 4 4 + 1 ≤ (taggedCount result : Int)) ∧
      (∃ result, Search insertionSort 25 gridOpen5 (0, 0) (4, 4) = .ok result ∧ result ≠ [] ∧
        (taggedCount result : Int) = Heuristic 0 0 4 4 + 1) ∧
      Heuristic 0 0 4 4 + 1 = 9 :=
  have hbox : ∀ c, InBox (0, 0) (4, 4) c → cellAt gridOpen5 c = .ok State.kEmpty := by
    rintro ⟨x, y⟩ ⟨hx, hy⟩
    simp only at hx hy
    have hx' : 0 ≤ x ∧ x ≤ 4 := by omega
    have hy' : 0 ≤ y ∧ y ≤ 4 := by omega
    obtain ⟨hx0, hx4⟩ := hx'
    obtain ⟨hy0, hy4⟩ := hy'
    interval_cases x <;> interval_cases y <;> rfl
  have hmain := search_open_rectangle_succeeds insertionSort_isStdSort
    (by decide : IsRect gridOpen5) hbox
    (by decide : gridOpen5.length * (gridOpen5.headD []).length ≤ 25)
  ⟨insertionSort_isStdSort, by decide, hbox, by decide, hmain.1, hmain.2 (by decide),
    by decide⟩


/-! ## C11, C12, C15, C17: no fault, termination, completeness, node selection -/

theorem searchLoop_mono {stdSort : (Node → Node → Bool) → List Node → List Node}
    {init goal : Int × Int} :
    ∀ (fuel : Nat) (O : List Node) (G : Grid) (r : Option (Node × Grid)),
      searchLoop stdSort init goal fuel O G = .ok r →
      ∀ k, searchLoop stdSort init goal (fuel + k) O G = .ok r := by
  intro fuel
  induction fuel with
  | zero =>
    intro O G r h k
    unfold searchLoop at h
    split_ifs at h with he
    cases k with
    | zero => unfold searchLoop; simp [he, h]
    | succ k => rw [Nat.zero_add]; unfold searchLoop; simp [he, h]
  | succ fuel ih =>
    intro O G r h k
    rw [Nat.succ_add]
    unfold searchLoop at h ⊢
    split_ifs at h ⊢ with he
    · exact h
    · cases hb : searchBody stdSort init goal O G with
      | error e => simp [hb] at h
      | ok res =>
        cases res with
        | inl found => simpa [hb] using h
        | inr next =>
          simp only [hb] at h ⊢
          exact ih next.1 next.2 r h k

theorem searchLoop_no_outOfRange {stdSort : (Node → Node → Bool) → List Node → List Node}
    (hs : IsStdSort stdSort) {grid0 : Grid} {init : Int × Int} (goal : Int × Int)
    (hrect : IsRect grid0) (hne : grid0 ≠ []) :
    ∀ (fuel : Nat) (P : List (Int × Int)) (O : List Node) (G : Grid),
      Inv grid0 init P O G →
      searchLoop stdSort init goal fuel O G ≠ .error Fault.outOfRange := by
  intro fuel
  induction fuel with
  | zero =>
    intro P O G _ h
    unfold searchLoop at h
    split_ifs at h
    cases h
  | succ fuel ih =>
    intro P O G hI h
    unfold searchLoop at h
    split_ifs at h with he
    have hO : O ≠ [] := fun hO => he (by simp [hO])
    obtain ⟨res, hres⟩ := searchBody_total hs goal hrect hne hI hO
    cases res with
    | inl found => simp [hres] at h
    | inr next =>
      obtain ⟨cur, -, -, hI'⟩ := searchBody_step hs hI hres
      simp only [hres] at h
      exact ih _ next.1 next.2 hI' h

theorem search_eq_error_iff {stdSort : (Node → Node → Bool) → List Node → List Node}
    {fuel : Nat} {grid : Grid} {init goal : Int × Int} {e : Fault} :
    Search stdSort fuel grid init goal = .error e ↔
      searchRun stdSort fuel grid init goal = .error e := by
  unfold Search
  cases hr : searchRun stdSort fuel grid init goal with
  | error e' => simp [bind, Except.bind]
  | ok o => cases o <;> simp [bind, Except.bind, pure, Except.pure]

theorem seed_ok {grid : Grid} {init : Int × Int} (goal : Int × Int) (hrect : IsRect grid)
    (hinit : InBounds grid init) :
    ∃ G1, AddToOpen init.1 init.2 0 (Heuristic init.1 init.2 goal.1 goal.2) [] grid
      = .ok ([Node.mk init.1 init.2 0 (Heuristic init.1 init.2 goal.1 goal.2)], G1) := by
  obtain ⟨s, hs0⟩ := (cellAt_ok_iff_inBounds hrect).2 hinit
  obtain ⟨G1, hG1⟩ := setCell_of_getCell hs0 State.kClosed
  exact ⟨G1, by simp [AddToOpen, hG1, bind, Except.bind, pure, Except.pure]⟩

theorem ne_nil_of_inBounds {grid : Grid} {c : Int × Int} (h : InBounds grid c) :
    grid ≠ [] := by
  intro hnil
  obtain ⟨h0, h1, -, -⟩ := h
  rw [hnil] at h1
  simp at h1
  omega

/-- C11: on a rectangular grid with `init` in bounds, `Search` never reads or writes outside
a vector, whatever the fuel: no run ends in `Fault.outOfRange` (every access `grid[x][y]` of
`Search`, `AddToOpen` and `CheckValidCell` is in range and the open list is non-empty when its
last element is taken), and with fuel for `rowCount * colCount` iterations it returns a
grid. -/
theorem search_never_out_of_range
    {stdSort : (Node → Node → Bool) → List Node → List Node} (hs : IsStdSort stdSort)
    {grid : Grid} {init goal : Int × Int} (hrect : IsRect grid)
    (hinit : InBounds grid init) :
    (∀ fuel, Search stdSort fuel grid init goal ≠ .error Fault.outOfRange) ∧
      ∀ fuel, grid.length * (grid.headD []).length ≤ fuel →
        ∃ result, Search stdSort fuel grid init goal = .ok result := by
  constructor
  · intro fuel h
    rw [search_eq_error_iff] at h
    obtain ⟨G1, hadd⟩ := seed_ok goal hrect hinit
    unfold searchRun at h
    simp only [hadd, bind, Except.bind] at h
    exact searchLoop_no_outOfRange hs goal hrect (ne_nil_of_inBounds hinit) fuel [] _ _
      (Inv.seed hadd) h
  · intro fuel hfuel
    obtain ⟨r, hr⟩ := searchRun_total hs goal hrect hinit hfuel
    unfold Search
    cases r with
    | none => exact ⟨[], by simp [hr, bind, Except.bind, pure, Except.pure]⟩
    | some found => exact ⟨found.2, by simp [hr, bind, Except.bind, pure, Except.pure]⟩

/-- C12: on a rectangular grid with `init` in bounds and any `goal`, the loop of `Search`
ends, by success or by exhaustion of the open list, within `rowCount * colCount` runs of its
body: fuel for that many iterations suffices, and more fuel does not change the result. -/
theorem search_terminates_within_cell_count
    {stdSort : (Node → Node → Bool) → List Node → List Node} (hs : IsStdSort stdSort)
    {grid : Grid} {init goal : Int × Int} (hrect : IsRect grid)
    (hinit : InBounds grid init) :
    ∃ outcome,
      searchRun stdSort (grid.length * (grid.headD []).length) grid init goal = .ok outcome ∧
      ∀ fuel, grid.length * (grid.headD []).length ≤ fuel →
        searchRun stdSort fuel grid init goal = .ok outcome := by
  obtain ⟨r, hr⟩ := searchRun_total hs goal hrect hinit (le_refl _)
  refine ⟨r, hr, ?_⟩
  intro fuel hfuel
  obtain ⟨k, rfl⟩ := Nat.exists_eq_add_of_le hfuel
  obtain ⟨G1, hadd⟩ := seed_ok goal hrect hinit
  unfold searchRun at hr ⊢
  simp only [hadd, bind, Except.bind] at hr ⊢
  exact searchLoop_mono _ _ _ _ hr k

theorem search_of_searchRun {stdSort : (Node → Node → Bool) → List Node → List Node}
    (hs : IsStdSort stdSort) {fuel : Nat} {grid : Grid} {init goal : Int × Int}
    {node : Node} {result : Grid} (hne : grid ≠ [])
    (hrun : searchRun stdSort fuel grid init goal = .ok (some (node, result))) :
    Search stdSort fuel grid init goal = .ok result ∧ result ≠ [] := by
  obtain ⟨P, O, G1, hF⟩ := searchRun_found hs hrun
  constructor
  · unfold Search
    simp [hrun, bind, Except.bind, pure, Except.pure]
  · exact ne_nil_of_shape hF.shape hne

/-- C15: `Search` is complete. On a rectangular grid with `init` in bounds, given fuel for
`rowCount * colCount` iterations: if a route leads from `init` to `goal` (a sequence of
4-adjacent cells of the grid whose cells other than `init` are all `kEmpty` in the input), then
`Search` returns a non-empty grid; in particular it does so whenever `init = goal`. -/
theorem search_complete
    {stdSort : (Node → Node → Bool) → List Node → List Node} (hs : IsStdSort stdSort)
    {fuel : Nat} {grid : Grid} {init goal : Int × Int} (hrect : IsRect grid)
    (hinit : InBounds grid init) (hfuel : grid.length * (grid.headD []).length ≤ fuel) :
    ((∃ path, IsRoute grid init goal path) →
        ∃ result, Search stdSort fuel grid init goal = .ok result ∧ result ≠ []) ∧
      (init = goal →
        ∃ result, Search stdSort fuel grid init goal = .ok result ∧ result ≠ []) := by
  have main : (∃ path, IsRoute grid init goal path) →
      ∃ result, Search stdSort fuel grid init goal = .ok result ∧ result ≠ [] := by
    intro hreach
    obtain ⟨node, result, hrun⟩ := searchRun_complete hs hrect hinit hfuel hreach
    exact ⟨result, search_of_searchRun hs (ne_nil_of_inBounds hinit) hrun⟩
  refine ⟨main, fun heq => main ⟨[init], ?_⟩⟩
  subst heq
  refine ⟨isWalk_single init, ?_, ?_⟩
  · intro c hc
    rw [List.mem_singleton] at hc
    subst hc
    exact (cellAt_ok_iff_inBounds hrect).2 hinit
  · intro c hc hci
    rw [List.mem_singleton] at hc
    exact absurd hc hci

/-- C17: node selection returns a node of least f. For every sort that meets the
postcondition of `std::sort` and every non-empty open list `v`, `CellSort` leaves a last
element `cur` whose `f = g + h` is at most the f of every node of `v`, and the list in front
of it is a permutation of `v` with one occurrence of `cur` removed. -/
theorem cellSort_last_is_min
    {stdSort : (Node → Node → Bool) → List Node → List Node} (hs : IsStdSort stdSort)
    (v : List Node) (hne : v ≠ []) :
    ∃ cur rest, CellSort stdSort v = rest ++ [cur] ∧
      (CellSort stdSort v).getLast? = some cur ∧ (CellSort stdSort v).dropLast = rest ∧
      (∀ n ∈ v, cur.g + cur.h ≤ n.g + n.h) ∧ rest.Perm (v.erase cur) := by
  have hperm := hs.perm v
  have hsorted := hs.sorted v
  have hsne : CellSort stdSort v ≠ [] := by
    intro h
    unfold CellSort at h
    rw [h] at hperm
    exact hne hperm.symm.eq_nil
  obtain ⟨cur, rest, hsplit⟩ : ∃ cur rest, CellSort stdSort v = rest ++ [cur] :=
    ⟨(CellSort stdSort v).getLast hsne, (CellSort stdSort v).dropLast,
      (List.dropLast_concat_getLast hsne).symm⟩
  have hperm' : (rest ++ [cur]).Perm v := hsplit ▸ hperm
  have hsorted' : (rest ++ [cur]).Pairwise (fun a b => Compare b a = false) :=
    hsplit ▸ hsorted
  refine ⟨cur, rest, hsplit, by rw [hsplit]; simp, by rw [hsplit]; simp, ?_, ?_⟩
  · intro n hn
    rcases List.mem_append.1 (hperm'.mem_iff.2 hn) with hn | hn
    · have := (List.pairwise_append.1 hsorted').2.2 n hn cur (List.mem_singleton_self _)
      simp only [Compare, decide_eq_false_iff_not] at this
      omega
    · rw [List.mem_singleton] at hn
      rw [hn]
  · have h1 : ((rest ++ [cur]).erase cur).Perm (v.erase cur) := hperm'.erase cur
    have h2 : ((rest ++ [cur]).erase cur).Perm rest := by
      have h3 : (rest ++ [cur]).Perm (cur :: rest) := List.perm_append_comm
      have h4 := h3.erase cur
      rwa [List.erase_cons_head] at h4
    exact h2.symm.trans h1


/-! ## C19: the coordinate checks -/

theorem isValidCoord_eq {x y : Int} {grid : Grid} (hne : grid ≠ []) :
    IsValidCoord x y grid = .ok (decide (InBounds grid (x, y))) := by
  obtain ⟨b, hb⟩ := isValidCoord_total x y hne
  rw [hb]
  have := (isValidCoord_ok hb).2
  congr 1
  cases b with
  | true => exact (decide_eq_true (this.1 rfl)).symm
  | false =>
    symm
    apply decide_eq_false
    intro hin
    exact absurd (this.2 hin) (by simp)

theorem toSizeT_of_nonneg {v : Int} (h0 : 0 ≤ v) (h1 : v < 2 ^ 31) : (toSizeT v : Int) = v := by
  unfold toSizeT
  have h2 : v % 2 ^ 64 = v := Int.emod_eq_of_lt h0 (by omega)
  rw [h2]
  exact Int.toNat_of_nonneg h0

theorem isValidCoordUnsigned_eq {x y : Int} {grid : Grid} (hx : x < 2 ^ 31)
    (hy : y < 2 ^ 31) : IsValidCoordUnsigned x y grid = IsValidCoord x y grid := by
  unfold IsValidCoordUnsigned IsValidCoord
  cases grid with
  | nil => rfl
  | cons row0 rest =>
    have h1 : (x < 0 ∨ toSizeT x ≥ (row0 :: rest).length) ↔
        (x < 0 ∨ x ≥ ((row0 :: rest).length : Int)) := by
      by_cases hx0 : x < 0
      · simp [hx0]
      · have := toSizeT_of_nonneg (not_lt.1 hx0) hx
        constructor
        · rintro (h | h)
          · exact Or.inl h
          · right; omega
        · rintro (h | h)
          · exact Or.inl h
          · right; omega
    have h2 : (y < 0 ∨ toSizeT y ≥ row0.length) ↔ (y < 0 ∨ y ≥ (row0.length : Int)) := by
      by_cases hy0 : y < 0
      · simp [hy0]
      · have := toSizeT_of_nonneg (not_lt.1 hy0) hy
        constructor
        · rintro (h | h)
          · exact Or.inl h
          · right; omega
        · rintro (h | h)
          · exact Or.inl h
          · right; omega
    simp only [h1, h2]

/-- C19: for every non-empty grid and all integers `x`, `y`, `IsValidCoord(x, y, grid)`
returns whether `0 ≤ x < rowCount` and `0 ≤ y <` length of row 0; `CheckValidCell(x, y, grid)`
returns true if and only if these bounds hold and `grid[x][y]` is `kEmpty`, and false if and
only if the bounds fail or the cell carries another tag; and for 32-bit values the unsigned
comparisons of the source decide the same as the comparisons of integers, so negative
coordinates are rejected. -/
theorem coordinate_checks_characterised (x y : Int) {grid : Grid} (hne : grid ≠ []) :
    IsValidCoord x y grid = .ok (decide (InBounds grid (x, y))) ∧
      (CheckValidCell x y grid = .ok true ↔
        InBounds grid (x, y) ∧ cellAt grid (x, y) = .ok State.kEmpty) ∧
      (CheckValidCell x y grid = .ok false ↔
        ¬ InBounds grid (x, y) ∨ ∃ s, s ≠ State.kEmpty ∧ cellAt grid (x, y) = .ok s) ∧
      (x < 2 ^ 31 → y < 2 ^ 31 → IsValidCoordUnsigned x y grid = IsValidCoord x y grid) := by
  have hv := isValidCoord_eq (x := x) (y := y) hne
  refine ⟨hv, ⟨checkValidCell_true, ?_⟩, ⟨checkValidCell_false, ?_⟩,
    fun hx hy => isValidCoordUnsigned_eq hx hy⟩
  · rintro ⟨hin, hcell⟩
    have hcell' : getCell grid x y = .ok State.kEmpty := hcell
    unfold CheckValidCell
    simp [hv, hin, hcell', bind, Except.bind, pure, Except.pure]
  · rintro (hout | ⟨s, hs, hcell⟩)
    · unfold CheckValidCell
      simp [hv, hout, bind, Except.bind, pure, Except.pure]
    · have hcell' : getCell grid x y = .ok s := hcell
      unfold CheckValidCell
      by_cases hin : InBounds grid (x, y)
      · simp [hv, hin, hcell', hs, bind, Except.bind, pure, Except.pure]
      · simp [hv, hin, bind, Except.bind, pure, Except.pure]

/-! ## C14: the heuristic on 32-bit integers -/

theorem intAbs_eq_abs (v : Int) : intAbs v = |v| := by
  unfold intAbs
  split_ifs with h
  · exact (abs_of_neg h).symm
  · exact (abs_of_nonneg (not_lt.1 h)).symm

theorem heuristic_eq_abs (x1 y1 x2 y2 : Int) :
    Heuristic x1 y1 x2 y2 = |x2 - x1| + |y2 - y1| := by
  unfold Heuristic
  rw [intAbs_eq_abs, intAbs_eq_abs]

/-- C14, as amended: for all arguments whose Manhattan distance `|x2 - x1| + |y2 - y1|` is
representable as a 32-bit `int`, `Heuristic` on `int` overflows nowhere and returns that
distance, which is the value of `Heuristic` on unbounded integers and is non-negative. -/
theorem heuristic_is_manhattan (x1 y1 x2 y2 : Int)
    (hfit : |x2 - x1| + |y2 - y1| < 2 ^ 31) :
    HeuristicInt32 x1 y1 x2 y2 = some (|x2 - x1| + |y2 - y1|) ∧
      Heuristic x1 y1 x2 y2 = |x2 - x1| + |y2 - y1| ∧ 0 ≤ Heuristic x1 y1 x2 y2 := by
  have hx := abs_nonneg (x2 - x1)
  have hy := abs_nonneg (y2 - y1)
  have hx1 := neg_abs_le (x2 - x1)
  have hx2 := le_abs_self (x2 - x1)
  have hy1 := neg_abs_le (y2 - y1)
  have hy2 := le_abs_self (y2 - y1)
  refine ⟨?_, heuristic_eq_abs x1 y1 x2 y2, ?_⟩
  · have c1 : -2 ^ 31 ≤ x2 - x1 ∧ x2 - x1 < 2 ^ 31 := by omega
    have c2 : -2 ^ 31 ≤ |x2 - x1| ∧ |x2 - x1| < 2 ^ 31 := by omega
    have c3 : -2 ^ 31 ≤ y2 - y1 ∧ y2 - y1 < 2 ^ 31 := by omega
    have c4 : -2 ^ 31 ≤ |y2 - y1| ∧ |y2 - y1| < 2 ^ 31 := by omega
    have c5 : -2 ^ 31 ≤ |x2 - x1| + |y2 - y1| ∧ |x2 - x1| + |y2 - y1| < 2 ^ 31 := by omega
    have e1 : checkedInt (x2 - x1) = some (x2 - x1) := if_pos c1
    have e2 : checkedInt (intAbs (x2 - x1)) = some |x2 - x1| := by
      rw [intAbs_eq_abs]; exact if_pos c2
    have e3 : checkedInt (y2 - y1) = some (y2 - y1) := if_pos c3
    have e4 : checkedInt (intAbs (y2 - y1)) = some |y2 - y1| := by
      rw [intAbs_eq_abs]; exact if_pos c4
    have e5 : checkedInt (|x2 - x1| + |y2 - y1|) = some (|x2 - x1| + |y2 - y1|) := if_pos c5
    unfold HeuristicInt32
    simp only [e1, e2, e3, e4, e5, bind, Option.bind]
  · rw [heuristic_eq_abs]
    omega

/-- C14, counterexample: for `x1 = y1 = 0` and `x2 = y2 = 2147483647` both differences are
representable as `int`, but their sum 4294967294 is not: the addition overflows and
`Heuristic` does not return the Manhattan distance. -/
theorem heuristic_sum_overflows :
    checkedInt (2147483647 - 0) = some 2147483647 ∧
      HeuristicInt32 0 0 2147483647 2147483647 = none ∧
      Heuristic 0 0 2147483647 2147483647 = 4294967294 := by
  refine ⟨by decide, by decide, by decide⟩

/-- C14, witness: the corners of a 5x5 grid. -/
theorem heuristic_is_manhattan_witness :
    |(4 : Int) - 0| + |(4 : Int) - 0| < 2 ^ 31 ∧
      HeuristicInt32 0 0 4 4 = some (|(4 : Int) - 0| + |(4 : Int) - 0|) ∧
      Heuristic 0 0 4 4 = |(4 : Int) - 0| + |(4 : Int) - 0| ∧ 0 ≤ Heuristic 0 0 4 4 :=
  ⟨by decide, heuristic_is_manhattan 0 0 4 4 (by decide)⟩


/-! ## C18: the effect of `ExpandNeighbors` -/

theorem expandOne_eval (cur : Node) (goal : Int × Int) (A : List Node) {H : Grid}
    (d : Int × Int) (hrect : IsRect H) (hne : H ≠ []) :
    (cellAt H (cur.x + d.1, cur.y + d.2) = .ok State.kEmpty ∧
      ∃ K, setCell H (cur.x + d.1) (cur.y + d.2) State.kClosed = .ok K ∧
        expandOne cur goal (A, H) d = .ok (A ++ [neighborNode cur goal d], K)) ∨
    (cellAt H (cur.x + d.1, cur.y + d.2) ≠ .ok State.kEmpty ∧
      expandOne cur goal (A, H) d = .ok (A, H)) := by
  obtain ⟨⟨B, K⟩, hstep⟩ := expandOne_total cur goal A d hrect hne
  rcases expandOne_ok hstep with ⟨hE, -, rfl, hset⟩ | ⟨hcheck, rfl, rfl⟩
  · exact Or.inl ⟨hE, K, hset, hstep⟩
  · right
    refine ⟨?_, hstep⟩
    intro hE
    rcases checkValidCell_false hcheck with hout | ⟨s, hs, hcell⟩
    · exact hout ((cellAt_ok_iff_inBounds hrect).1 ⟨_, hE⟩)
    · have hc : cellAt K (cur.x + d.1, cur.y + d.2) = .ok s := hcell
      rw [hE] at hc
      cases hc
      exact hs rfl

theorem offset_cell_injective {cur : Node} {d d' : Int × Int}
    (h : (cur.x + d.1, cur.y + d.2) = (cur.x + d'.1, cur.y + d'.2)) : d = d' := by
  simp only [Prod.mk.injEq] at h
  exact Prod.ext (by omega) (by omega)

theorem expand_fold_eval (cur : Node) (goal : Int × Int) :
    ∀ (l : List (Int × Int)) (A : List Node) (H : Grid), l.Nodup → IsRect H → H ≠ [] →
      ∃ H', l.foldlM (expandOne cur goal) (A, H)
          = .ok (A ++ (l.filter fun d =>
              decide (cellAt H (cur.x + d.1, cur.y + d.2) = .ok State.kEmpty)).map
                (neighborNode cur goal), H') ∧
        H'.map List.length = H.map List.length ∧
        ∀ c, cellAt H' c =
          if c ∈ ((l.filter fun d =>
              decide (cellAt H (cur.x + d.1, cur.y + d.2) = .ok State.kEmpty)).map
                (neighborNode cur goal)).map Node.cell
          then .ok State.kClosed else cellAt H c := by
  intro l
  induction l with
  | nil =>
    intro A H _ _ _
    exact ⟨H, by simp [List.foldlM, pure, Except.pure], rfl, fun c => by simp⟩
  | cons d l ih =>
    intro A H hnd hrect hne
    obtain ⟨hdl, hndl⟩ := List.nodup_cons.1 hnd
    rw [List.foldlM_cons]
    rcases expandOne_eval cur goal A d hrect hne with
      ⟨hE, K, hset, hstep⟩ | ⟨hE, hstep⟩
    · have hshape := setCell_shape hset
      obtain ⟨H', hfold, hshape', hcells⟩ := ih (A ++ [neighborNode cur goal d]) K hndl
        (isRect_of_shape hshape hrect) (ne_nil_of_shape hshape hne)
      have hsame : (l.filter fun d' =>
            decide (cellAt K (cur.x + d'.1, cur.y + d'.2) = .ok State.kEmpty))
          = l.filter fun d' =>
            decide (cellAt H (cur.x + d'.1, cur.y + d'.2) = .ok State.kEmpty) := by
        apply List.filter_congr
        intro d' hd'
        rw [cellAt_setCell_ne hset]
        intro heq
        exact hdl (offset_cell_injective heq ▸ hd')
      rw [hsame] at hfold hcells
      refine ⟨H', ?_, hshape'.trans hshape, ?_⟩
      · simp only [hstep, bind, Except.bind, hfold]
        rw [List.filter_cons_of_pos (by simpa using hE)]
        simp
      · intro c
        rw [hcells c, cellAt_setCell hset c, List.filter_cons_of_pos (by simpa using hE)]
        simp only [List.map_cons, List.mem_cons]
        have hcell : (neighborNode cur goal d).cell = (cur.x + d.1, cur.y + d.2) := rfl
        rw [hcell]
        by_cases h1 : c = (cur.x + d.1, cur.y + d.2)
        · rw [if_pos (Or.inl h1), if_pos h1]
          split <;> rfl
        · rw [if_neg h1]
          by_cases h2 : c ∈ List.map Node.cell (List.map (neighborNode cur goal)
              (List.filter (fun d' =>
                decide (cellAt H (cur.x + d'.1, cur.y + d'.2) = .ok State.kEmpty)) l))
          · rw [if_pos h2, if_pos (Or.inr h2)]
          · rw [if_neg h2, if_neg (by rintro (h | h); exact h1 h; exact h2 h)]
    · obtain ⟨H', hfold, hshape', hcells⟩ := ih A H hndl hrect hne
      refine ⟨H', ?_, hshape', ?_⟩
      · simp only [hstep, bind, Except.bind, hfold]
        rw [List.filter_cons_of_neg (by simpa using hE)]
      · intro c
        rw [hcells c, List.filter_cons_of_neg (by simpa using hE)]

/-- C18: on a non-empty rectangular grid, for every node `cur`, goal and open list,
`ExpandNeighbors` returns the open list followed, in the order of the four offsets of `delta`,
by one node `(x', y', g + 1, Heuristic(x', y', goal))` for each offset whose cell `(x', y')` is
on the grid and `kEmpty`; these cells are pairwise distinct and are exactly the in-bounds
`kEmpty` 4-neighbours of the cell of `cur`; the new grid has the same shape, holds `kClosed`
on exactly these cells and is unchanged elsewhere. -/
theorem expandNeighbors_effect (cur : Node) (goal : Int × Int) (openlist : List Node)
    {grid : Grid} (hrect : IsRect grid) (hne : grid ≠ []) :
    ∃ grid', ExpandNeighbors cur goal openlist grid
        = .ok (openlist ++ (expandable cur grid).map (neighborNode cur goal), grid') ∧
      grid'.map List.length = grid.map List.length ∧
      (∀ c, cellAt grid' c =
        if c ∈ ((expandable cur grid).map (neighborNode cur goal)).map Node.cell
        then .ok State.kClosed else cellAt grid c) ∧
      (((expandable cur grid).map (neighborNode cur goal)).map Node.cell).Nodup ∧
      ∀ c, c ∈ ((expandable cur grid).map (neighborNode cur goal)).map Node.cell ↔
        Adjacent4 cur.cell c ∧ InBounds grid c ∧ cellAt grid c = .ok State.kEmpty := by
  obtain ⟨grid', hfold, hshape, hcells⟩ :=
    expand_fold_eval cur goal delta openlist grid (by decide) hrect hne
  refine ⟨grid', hfold, hshape, hcells, ?_, ?_⟩
  · rw [List.map_map]
    apply List.Nodup.map_on
    · intro d _ d' _ h
      exact offset_cell_injective h
    · exact List.Nodup.filter _ (by decide)
  · intro c
    simp only [expandable, List.map_map, List.mem_map, List.mem_filter, decide_eq_true_eq,
      Function.comp, neighborNode, Node.cell]
    constructor
    · rintro ⟨d, ⟨hd, hE⟩, rfl⟩
      exact ⟨adjacent4_iff.2 ⟨d, hd, rfl⟩, (cellAt_ok_iff_inBounds hrect).1 ⟨_, hE⟩, hE⟩
    · rintro ⟨hadj, -, hE⟩
      obtain ⟨d, hd, rfl⟩ := adjacent4_iff.1 hadj
      exact ⟨d, ⟨hd, hE⟩, rfl⟩


/-! ## Instances of the later theorems on sample grids -/

/-- C11, witness: the 3x3 grid `gridGate`, from `(0, 1)` to `(2, 1)`, with the stable sort. -/
theorem search_never_out_of_range_witness :
    IsStdSort insertionSort ∧ IsRect gridGate ∧ InBounds gridGate (0, 1) ∧
      ((∀ fuel, Search insertionSort fuel gridGate (0, 1) (2, 1) ≠ .error Fault.outOfRange) ∧
        ∀ fuel, gridGate.length * (gridGate.headD []).length ≤ fuel →
          ∃ result, Search insertionSort fuel gridGate (0, 1) (2, 1) = .ok result) :=
  ⟨insertionSort_isStdSort, by decide, by decide,
    search_never_out_of_range insertionSort_isStdSort (by decide) (by decide)⟩

/-- C12, witness: the 3x3 grid `gridDeadEnd`, from `(1, 0)` to `(2, 2)`, with the stable
sort. -/
theorem search_terminates_within_cell_count_witness :
    IsStdSort insertionSort ∧ IsRect gridDeadEnd ∧ InBounds gridDeadEnd (1, 0) ∧
      ∃ outcome,
        searchRun insertionSort (gridDeadEnd.length * (gridDeadEnd.headD []).length)
          gridDeadEnd (1, 0) (2, 2) = .ok outcome ∧
        ∀ fuel, gridDeadEnd.length * (gridDeadEnd.headD []).length ≤ fuel →
          searchRun insertionSort fuel gridDeadEnd (1, 0) (2, 2) = .ok outcome :=
  ⟨insertionSort_isStdSort, by decide, by decide,
    search_terminates_within_cell_count insertionSort_isStdSort (by decide) (by decide)⟩

/-- C15, witness: the 3x3 grid `gridGate`, from `(0, 1)` to `(2, 1)`, with fuel 9. -/
theorem search_complete_witness :
    IsStdSort insertionSort ∧ IsRect gridGate ∧ InBounds gridGate (0, 1) ∧
      gridGate.length * (gridGate.headD []).length ≤ 9 ∧
      (((∃ path, IsRoute gridGate (0, 1) (2, 1) path) →
          ∃ result, Search insertionSort 9 gridGate (0, 1) (2, 1) = .ok result ∧ result ≠ []) ∧
        ((0, 1) = ((2, 1) : Int × Int) →
          ∃ result, Search insertionSort 9 gridGate (0, 1) (2, 1) = .ok result ∧
            result ≠ [])) :=
  ⟨insertionSort_isStdSort, by decide, by decide, by decide,
    search_complete insertionSort_isStdSort (by decide) (by decide) (by decide)⟩

/-- C17, witness: the open list `[(0, 0, 0, 2), (0, 1, 1, 1), (1, 0, 1, 3)]` with the stable
sort. -/
theorem cellSort_last_is_min_witness :
    IsStdSort insertionSort ∧
      [Node.mk 0 0 0 2, Node.mk 0 1 1 1, Node.mk 1 0 1 3] ≠ [] ∧
      ∃ cur rest,
        CellSort insertionSort [Node.mk 0 0 0 2, Node.mk 0 1 1 1, Node.mk 1 0 1 3]
          = rest ++ [cur] ∧
        (CellSort insertionSort
          [Node.mk 0 0 0 2, Node.mk 0 1 1 1, Node.mk 1 0 1 3]).getLast? = some cur ∧
        (CellSort insertionSort
          [Node.mk 0 0 0 2, Node.mk 0 1 1 1, Node.mk 1 0 1 3]).dropLast = rest ∧
        (∀ n ∈ [Node.mk 0 0 0 2, Node.mk 0 1 1 1, Node.mk 1 0 1 3],
          cur.g + cur.h ≤ n.g + n.h) ∧
        rest.Perm ([Node.mk 0 0 0 2, Node.mk 0 1 1 1, Node.mk 1 0 1 3].erase cur) :=
  ⟨insertionSort_isStdSort, List.cons_ne_nil _ _,
    cellSort_last_is_min insertionSort_isStdSort _ (List.cons_ne_nil _ _)⟩

/-- C18, witness: the node `(0, 1, 0, 2)` on the 3x3 grid `gridGate` with goal `(2, 1)` and
an empty open list. -/
theorem expandNeighbors_effect_witness :
    IsRect gridGate ∧ gridGate ≠ [] ∧
      ∃ grid', ExpandNeighbors (Node.mk 0 1 0 2) (2, 1) [] gridGate
          = .ok ([] ++ (expandable (Node.mk 0 1 0 2) gridGate).map
              (neighborNode (Node.mk 0 1 0 2) (2, 1)), grid') ∧
        grid'.map List.length = gridGate.map List.length ∧
        (∀ c, cellAt grid' c =
          if c ∈ ((expandable (Node.mk 0 1 0 2) gridGate).map
              (neighborNode (Node.mk 0 1 0 2) (2, 1))).map Node.cell
          then .ok State.kClosed else cellAt gridGate c) ∧
        (((expandable (Node.mk 0 1 0 2) gridGate).map
            (neighborNode (Node.mk 0 1 0 2) (2, 1))).map Node.cell).Nodup ∧
        ∀ c, c ∈ ((expandable (Node.mk 0 1 0 2) gridGate).map
            (neighborNode (Node.mk 0 1 0 2) (2, 1))).map Node.cell ↔
          Adjacent4 (Node.mk 0 1 0 2).cell c ∧ InBounds gridGate c ∧
            cellAt gridGate c = .ok State.kEmpty :=
  ⟨by decide, by decide,
    expandNeighbors_effect (Node.mk 0 1 0 2) (2, 1) [] (by decide) (by decide)⟩

/-- C19, witness: the cell `(1, 1)` of the 3x3 grid `gridGate`. -/
theorem coordinate_checks_characterised_witness :
    gridGate ≠ [] ∧
      IsValidCoord 1 1 gridGate = .ok (decide (InBounds gridGate (1, 1))) ∧
      (CheckValidCell 1 1 gridGate = .ok true ↔
        InBounds gridGate (1, 1) ∧ cellAt gridGate (1, 1) = .ok State.kEmpty) ∧
      (CheckValidCell 1 1 gridGate = .ok false ↔
        ¬ InBounds gridGate (1, 1) ∨
          ∃ s, s ≠ State.kEmpty ∧ cellAt gridGate (1, 1) = .ok s) ∧
      ((1 : Int) < 2 ^ 31 → (1 : Int) < 2 ^ 31 →
        IsValidCoordUnsigned 1 1 gridGate = IsValidCoord 1 1 gridGate) :=
  ⟨by decide, coordinate_checks_characterised 1 1 (by decide)⟩


/-! ## C16, C20: the invariants of the loop states -/

theorem Inv.empty_origin {grid0 : Grid} {init : Int × Int} {P : List (Int × Int)}
    {A : List Node} {H : Grid} (hI : Inv grid0 init P A H) {c : Int × Int}
    (hE : cellAt H c = .ok State.kEmpty) : cellAt grid0 c = .ok State.kEmpty := by
  have hP : c ∉ P := by
    intro hc
    have := hI.isPath _ hc
    rw [hE] at this
    cases this
  have hA : c ∉ A.map Node.cell := by
    intro hc
    obtain ⟨n, hn, rfl⟩ := List.mem_map.1 hc
    have := hI.isClosed n hn
    rw [hE] at this
    cases this
  rw [← hI.frame c hP hA]
  exact hE

theorem CostOk.child {grid0 : Grid} {init goal : Int × Int} {cur : Node}
    (hcur : CostOk grid0 init goal cur) (hrect : IsRect grid0) {d : Int × Int}
    (hd : d ∈ delta) (hE : cellAt grid0 (cur.x + d.1, cur.y + d.2) = .ok State.kEmpty) :
    CostOk grid0 init goal (neighborNode cur goal d) := by
  refine ⟨rfl, ?_⟩
  obtain ⟨path, hw, hlen, hin, hempty⟩ := hcur.walk
  have hadj : Adjacent4 cur.cell (cur.x + d.1, cur.y + d.2) := adjacent4_iff.2 ⟨d, hd, rfl⟩
  refine ⟨path ++ [(cur.x + d.1, cur.y + d.2)], hw.snoc hadj, ?_, ?_, ?_⟩
  · simp only [List.length_append, List.length_singleton, neighborNode]
    push_cast
    omega
  · intro c hc
    rcases List.mem_append.1 hc with hc | hc
    · exact hin c hc
    · rw [List.mem_singleton] at hc
      subst hc
      exact (cellAt_ok_iff_inBounds hrect).1 ⟨_, hE⟩
  · intro c hc
    have hne : path ≠ [] := by
      intro h
      rw [h] at hw
      cases hw.head
    rw [List.tail_append_of_ne_nil hne] at hc
    rcases List.mem_append.1 hc with hc | hc
    · exact hempty c hc
    · rw [List.mem_singleton] at hc
      subst hc
      exact hE

theorem expand_fold_cost {grid0 : Grid} {init goal : Int × Int} {P : List (Int × Int)}
    {A A' : List Node} {H H' : Grid} {cur : Node} (hrect : IsRect grid0)
    (hI : Inv grid0 init P A H) (hcurP : cur.cell ∈ P) (hcur : CostOk grid0 init goal cur)
    (hA : ∀ n ∈ A, CostOk grid0 init goal n)
    (h : ExpandNeighbors cur goal A H = .ok (A', H')) :
    ∀ n ∈ A', CostOk grid0 init goal n := by
  unfold ExpandNeighbors at h
  have key := foldlM_rule_mem (expandOne cur goal)
    (fun acc => Inv grid0 init P acc.1 acc.2 ∧ ∀ n ∈ acc.1, CostOk grid0 init goal n) delta
    ?_ (A, H) (A', H') ⟨hI, hA⟩ h
  · exact key.2
  rintro ⟨B, K⟩ d ⟨B', K'⟩ hd ⟨hJ, hB⟩ hstep
  rcases expandOne_ok hstep with ⟨hE, -, rfl, hset⟩ | ⟨-, rfl, rfl⟩
  · refine ⟨hJ.push hcurP (adjacent4_iff.2 ⟨d, hd, rfl⟩) hE hset, ?_⟩
    intro n hn
    rcases List.mem_append.1 hn with hn | hn
    · exact hB n hn
    · rw [List.mem_singleton] at hn
      subst hn
      exact hcur.child hrect hd (hJ.empty_origin hE)
  · exact ⟨hJ, hB⟩

theorem stateOk_seed {grid : Grid} {init goal : Int × Int} {seeded : List Node × Grid}
    (hinit : InBounds grid init)
    (hadd : AddToOpen init.1 init.2 0 (Heuristic init.1 init.2 goal.1 goal.2) [] grid
      = .ok seeded) :
    StateOk grid init goal (LoopState.mk [] seeded.1 seeded.2) := by
  refine ⟨Inv.seed hadd, ?_⟩
  intro n hn
  have hO : seeded.1 = [Node.mk init.1 init.2 0 (Heuristic init.1 init.2 goal.1 goal.2)] := by
    unfold AddToOpen at hadd
    simp only [bind, Except.bind, List.nil_append] at hadd
    cases hset : setCell grid init.1 init.2 State.kClosed with
    | error e => simp [hset] at hadd
    | ok G1 =>
      simp only [hset, pure, Except.pure, Except.ok.injEq] at hadd
      rw [← hadd]
  simp only [List.nil_append, hO, List.mem_singleton] at hn
  subst hn
  refine ⟨rfl, [init], isWalk_single init, by simp, ?_, by simp⟩
  intro c hc
  rw [List.mem_singleton] at hc
  subst hc
  exact hinit

theorem loopStep_ok {stdSort : (Node → Node → Bool) → List Node → List Node}
    (hs : IsStdSort stdSort) {init goal : Int × Int} {s s' : LoopState}
    (h : loopStep stdSort init goal s = .ok (some s')) :
    ∃ cur rest G1, (rest ++ [cur]).Perm s.openlist ∧
      CellSort stdSort s.openlist = rest ++ [cur] ∧
      setCell s.grid cur.x cur.y State.kPath = .ok G1 ∧ cur.cell ≠ goal ∧
      ExpandNeighbors cur goal rest G1 = .ok (s'.openlist, s'.grid) ∧
      s'.popped = s.popped ++ [cur] ∧
      searchBody stdSort init goal s.openlist s.grid = .ok (Sum.inr (s'.openlist, s'.grid)) := by
  unfold loopStep at h
  by_cases hemp : s.openlist.isEmpty = true
  · rw [if_pos hemp] at h
    cases h
  · rw [if_neg hemp] at h
    cases hb : searchBody stdSort init goal s.openlist s.grid with
    | error e => simp [hb] at h
    | ok res =>
      obtain ⟨cur, rest, G1, hperm, hsort, hset, hcase⟩ := searchBody_ok hs hb
      rcases hcase with ⟨-, G2, G3, -, -, hres⟩ | ⟨hne, nxt, hexp, hres⟩
      · subst hres
        simp [hb] at h
      · subst hres
        simp only [hb, Except.ok.injEq, Option.some.injEq] at h
        subst h
        refine ⟨cur, rest, G1, hperm, hsort, hset, hne, hexp, ?_, rfl⟩
        simp [hsort]

theorem StateOk.step {stdSort : (Node → Node → Bool) → List Node → List Node}
    (hs : IsStdSort stdSort) {grid0 : Grid} {init goal : Int × Int} {s s' : LoopState}
    (hrect : IsRect grid0) (hok : StateOk grid0 init goal s)
    (h : loopStep stdSort init goal s = .ok (some s')) : StateOk grid0 init goal s' := by
  obtain ⟨cur, rest, G1, hperm, -, hset, -, hexp, hpop, -⟩ := loopStep_ok hs h
  have hmem : ∀ n, n ∈ s.openlist ↔ n ∈ rest ∨ n = cur := by
    intro n
    rw [← hperm.mem_iff, List.mem_append, List.mem_singleton]
  have hIpop : Inv grid0 init (s'.popped.map Node.cell) rest G1 := by
    rw [hpop, List.map_append, List.map_singleton]
    exact hok.inv.pop hperm hset
  have hcurP : cur.cell ∈ s'.popped.map Node.cell := by
    rw [hpop]
    simp
  have hcur : CostOk grid0 init goal cur :=
    hok.cost cur (List.mem_append.2 (Or.inr ((hmem cur).2 (Or.inr rfl))))
  refine ⟨hIpop.expand hcurP hexp, ?_⟩
  intro n hn
  rcases List.mem_append.1 hn with hn | hn
  · rw [hpop] at hn
    rcases List.mem_append.1 hn with hn | hn
    · exact hok.cost n (List.mem_append.2 (Or.inl hn))
    · rw [List.mem_singleton] at hn
      subst hn
      exact hcur
  · exact expand_fold_cost hrect hIpop hcurP hcur
      (fun m hm => hok.cost m (List.mem_append.2 (Or.inr ((hmem m).2 (Or.inl hm))))) hexp n hn

theorem loopState_total {stdSort : (Node → Node → Bool) → List Node → List Node}
    (hs : IsStdSort stdSort) {grid : Grid} {init : Int × Int} (goal : Int × Int)
    (hrect : IsRect grid) (hinit : InBounds grid init) (k : Nat) :
    ∃ r, loopState stdSort grid init goal k = .ok r ∧
      ∀ s, r = some s → StateOk grid init goal s := by
  induction k with
  | zero =>
    obtain ⟨G1, hadd⟩ := seed_ok goal hrect hinit
    refine ⟨some (LoopState.mk []
      [Node.mk init.1 init.2 0 (Heuristic init.1 init.2 goal.1 goal.2)] G1),
      by simp [loopState, hadd], ?_⟩
    intro s hs'
    cases hs'
    exact stateOk_seed hinit hadd
  | succ k ih =>
    obtain ⟨r, hr, hok⟩ := ih
    cases r with
    | none => exact ⟨none, by simp [loopState, hr], fun s hs' => by cases hs'⟩
    | some s =>
      have hS := hok s rfl
      have hstep : loopState stdSort grid init goal (k + 1) = loopStep stdSort init goal s := by
        simp [loopState, hr]
      rw [hstep]
      by_cases hemp : s.openlist = []
      · exact ⟨none, by simp [loopStep, hemp], fun s hs' => by cases hs'⟩
      · obtain ⟨res, hres⟩ := searchBody_total hs goal hrect (ne_nil_of_inBounds hinit)
          hS.inv hemp
        have hemp' : s.openlist.isEmpty = false := by
          cases hO : s.openlist with
          | nil => exact absurd hO hemp
          | cons a l => rfl
        cases res with
        | inl found => exact ⟨none, by simp [loopStep, hemp', hres], fun s hs' => by cases hs'⟩
        | inr next =>
          refine ⟨some _, by simp only [loopStep, hemp', hres]; rfl, ?_⟩
          intro s' hs'
          cases hs'
          exact hS.step hs hrect (by simp only [loopStep, hemp', hres]; rfl)

theorem searchRun_of_loopState {stdSort : (Node → Node → Bool) → List Node → List Node}
    (hs : IsStdSort stdSort) {grid : Grid} {init goal : Int × Int} :
    ∀ (k : Nat) (s : LoopState), loopState stdSort grid init goal k = .ok (some s) →
      ∀ fuel, searchRun stdSort (k + fuel) grid init goal
        = searchLoop stdSort init goal fuel s.openlist s.grid := by
  intro k
  induction k with
  | zero =>
    intro s h fuel
    unfold loopState at h
    unfold searchRun
    cases hadd : AddToOpen init.1 init.2 0 (Heuristic init.1 init.2 goal.1 goal.2) [] grid with
    | error e => simp [hadd] at h
    | ok seeded =>
      simp only [hadd, Except.ok.injEq, Option.some.injEq] at h
      subst h
      simp [bind, Except.bind, hadd]
  | succ k ih =>
    intro s' h fuel
    cases hk : loopState stdSort grid init goal k with
    | error e => simp [loopState, hk] at h
    | ok r =>
      cases r with
      | none => simp [loopState, hk] at h
      | some s =>
        have hstep : loopStep stdSort init goal s = .ok (some s') := by
          simpa [loopState, hk] using h
        obtain ⟨cur, rest, G1, hperm, -, -, -, -, -, hbody⟩ := loopStep_ok hs hstep
        have hne : s.openlist.isEmpty = false := by
          cases hO : s.openlist with
          | nil =>
            rw [hO] at hperm
            simpa using hperm.length_eq
          | cons a l => rfl
        have := ih s hk (fuel + 1)
        rw [show k + 1 + fuel = k + (fuel + 1) by omega, this]
        simp [searchLoop, hne, hbody]


/-- C16: closed on enqueue. On a rectangular grid with `init` in bounds, for every sort that
meets the postcondition of `std::sort` and every `k`, `Search` reaches the head of its loop
after `k` iterations without a fault or has left the loop before; in the state reached, the
cells of all nodes added to the open list so far, those popped and those still in the list,
are pairwise distinct, every node of the open list stands on a cell tagged `kClosed`, the
open list holds at most `rowCount * colCount` nodes, and the rest of the run of `Search` is
the loop run from this state. -/
theorem open_list_closed_on_enqueue
    {stdSort : (Node → Node → Bool) → List Node → List Node} (hs : IsStdSort stdSort)
    {grid : Grid} {init goal : Int × Int} (hrect : IsRect grid)
    (hinit : InBounds grid init) (k : Nat) :
    ∃ r, loopState stdSort grid init goal k = .ok r ∧
      ∀ s, r = some s →
        ((s.popped ++ s.openlist).map Node.cell).Nodup ∧
        (∀ n ∈ s.openlist, cellAt s.grid n.cell = .ok State.kClosed) ∧
        s.openlist.length ≤ grid.length * (grid.headD []).length ∧
        ∀ fuel, searchRun stdSort (k + fuel) grid init goal
          = searchLoop stdSort init goal fuel s.openlist s.grid := by
  obtain ⟨r, hr, hok⟩ := loopState_total hs goal hrect hinit k
  refine ⟨r, hr, ?_⟩
  intro s hrs
  subst hrs
  have hS := hok s rfl
  refine ⟨?_, hS.inv.isClosed, ?_, searchRun_of_loopState hs k s hr⟩
  · rw [List.map_append]
    exact hS.inv.nodup
  · have := hS.inv.length_le hrect
    omega

/-- C16, witness: the 3x3 grid `gridGate`, from `(0, 1)` to `(2, 1)`, after one iteration,
with the stable sort. -/
theorem open_list_closed_on_enqueue_witness :
    IsStdSort insertionSort ∧ IsRect gridGate ∧ InBounds gridGate (0, 1) ∧
      ∃ r, loopState insertionSort gridGate (0, 1) (2, 1) 1 = .ok r ∧
        ∀ s, r = some s →
          ((s.popped ++ s.openlist).map Node.cell).Nodup ∧
          (∀ n ∈ s.openlist, cellAt s.grid n.cell = .ok State.kClosed) ∧
          s.openlist.length ≤ gridGate.length * (gridGate.headD []).length ∧
          ∀ fuel, searchRun insertionSort (1 + fuel) gridGate (0, 1) (2, 1)
            = searchLoop insertionSort (0, 1) (2, 1) fuel s.openlist s.grid :=
  ⟨insertionSort_isStdSort, by decide, by decide,
    open_list_closed_on_enqueue insertionSort_isStdSort (by decide) (by decide) 1⟩

/-- C20: g is a path cost. On a rectangular grid with `init` in bounds, for every sort that
meets the postcondition of `std::sort` and every `k`, `Search` reaches the head of its loop
after `k` iterations without a fault or has left the loop before; in the state reached the
node popped next is a node of the open list, and every node `(x, y, g, h)` popped so far or
in the open list has `h = Heuristic(x, y, goal)` and `g ≥ 0`, there is a walk of exactly `g`
4-adjacent steps from `init` to `(x, y)` that stays on the grid and whose cells after `init`
are all `kEmpty` in the input grid, and every lower bound on the number of steps of the
routes from `init` to `(x, y)`, the shortest distance among them, is at most `g`. -/
theorem node_cost_is_route_length
    {stdSort : (Node → Node → Bool) → List Node → List Node} (hs : IsStdSort stdSort)
    {grid : Grid} {init goal : Int × Int} (hrect : IsRect grid)
    (hinit : InBounds grid init) (k : Nat) :
    ∃ r, loopState stdSort grid init goal k = .ok r ∧
      ∀ s, r = some s →
        (∀ cur, (CellSort stdSort s.openlist).getLast? = some cur → cur ∈ s.openlist) ∧
        ∀ n ∈ s.popped ++ s.openlist,
          n.h = Heuristic n.x n.y goal.1 goal.2 ∧ 0 ≤ n.g ∧
          (∃ path, IsWalk init n.cell path ∧ (path.length : Int) = n.g + 1 ∧
            (∀ c ∈ path, InBounds grid c) ∧
            ∀ c ∈ path.tail, cellAt grid c = .ok State.kEmpty) ∧
          ∀ d : Nat, (∀ path, IsRoute grid init n.cell path → d + 1 ≤ path.length) →
            (d : Int) ≤ n.g := by
  obtain ⟨r, hr, hok⟩ := loopState_total hs goal hrect hinit k
  refine ⟨r, hr, ?_⟩
  intro s hrs
  subst hrs
  have hS := hok s rfl
  constructor
  · intro cur hcur
    obtain ⟨rest, hrest⟩ := List.getLast?_eq_some_iff.1 hcur
    have hperm := hs.perm s.openlist
    unfold CellSort at hrest
    rw [hrest] at hperm
    exact hperm.mem_iff.1 (by simp)
  · intro n hn
    have hc := hS.cost n hn
    obtain ⟨path, hw, hlen, hin, hempty⟩ := hc.walk
    have hne : path ≠ [] := by
      intro h
      rw [h] at hw
      cases hw.head
    refine ⟨hc.heuristic, ?_, ⟨path, hw, hlen, hin, hempty⟩, ?_⟩
    · have : 0 < path.length := List.length_pos.2 hne
      omega
    · intro d hd
      have hroute : IsRoute grid init n.cell path := by
        refine ⟨hw, fun c hc => (cellAt_ok_iff_inBounds hrect).2 (hin c hc), ?_⟩
        intro c hc hci
        cases path with
        | nil => exact absurd rfl hne
        | cons a l =>
          have ha : a = init := by
            have := hw.head
            simpa using this
          rcases List.mem_cons.1 hc with hc | hc
          · exact absurd (hc.trans ha) hci
          · exact hempty c hc
      have := hd path hroute
      omega

/-- C20, witness: the 3x3 grid `gridGate`, from `(0, 1)` to `(2, 1)`, after two iterations,
with the stable sort. -/
theorem node_cost_is_route_length_witness :
    IsStdSort insertionSort ∧ IsRect gridGate ∧ InBounds gridGate (0, 1) ∧
      ∃ r, loopState insertionSort gridGate (0, 1) (2, 1) 2 = .ok r ∧
        ∀ s, r = some s →
          (∀ cur, (CellSort insertionSort s.openlist).getLast? = some cur →
            cur ∈ s.openlist) ∧
          ∀ n ∈ s.popped ++ s.openlist,
            n.h = Heuristic n.x n.y 2 1 ∧ 0 ≤ n.g ∧
            (∃ path, IsWalk (0, 1) n.cell path ∧ (path.length : Int) = n.g + 1 ∧
              (∀ c ∈ path, InBounds gridGate c) ∧
              ∀ c ∈ path.tail, cellAt gridGate c = .ok State.kEmpty) ∧
            ∀ d : Nat, (∀ path, IsRoute gridGate (0, 1) n.cell path → d + 1 ≤ path.length) →
              (d : Int) ≤ n.g :=
  ⟨insertionSort_isStdSort, by decide, by decide,
    node_cost_is_route_length insertionSort_isStdSort (by decide) (by decide) 2⟩


/-! ## C13: `ParseLine` -/

/-- C13, counterexample: on the line `0,1,0`, three tokens separated by single commas,
`ParseLine` returns the two cells `kEmpty`, `kObstacle`: after the last token the extraction
of the separator fails and the loop is left without a cell for that token. -/
theorem parseLine_drops_last_token :
    ParseLine 3 "0,1,0" = .ok [State.kEmpty, State.kObstacle] ∧
      (∀ fuel, 3 ≤ fuel → ParseLine fuel "0,1,0" = .ok [State.kEmpty, State.kObstacle]) ∧
      [State.kEmpty, State.kObstacle].length ≠ 3 := by
  refine ⟨by decide, ?_, by decide⟩
  intro fuel hfuel
  obtain ⟨k, rfl⟩ := Nat.exists_eq_add_of_le hfuel
  rw [show 3 + k = k + 1 + 1 + 1 by omega]
  rfl

theorem digit_not_space {d : Char} (h : isDigitChar d = true) : isSpaceChar d = false := by
  simp only [isDigitChar, isSpaceChar, decide_eq_true_eq, decide_eq_false_iff_not] at h ⊢
  omega

theorem digit_ne_of_toNat {d c : Char} (h : isDigitChar d = true)
    (hc : c.toNat < 48 ∨ 57 < c.toNat) : d ≠ c := by
  intro hdc
  subst hdc
  simp only [isDigitChar, decide_eq_true_eq] at h
  omega

theorem skipSpace_cons {c : Char} (r : List Char) (h : isSpaceChar c = false) :
    skipSpace (c :: r) = c :: r := by
  simp [skipSpace, h]

theorem readDigits_append (ds : List Char) (hds : ∀ d ∈ ds, isDigitChar d = true)
    (tail : List Char) (htail : ∀ c r, tail = c :: r → isDigitChar c = false) :
    readDigits (ds ++ tail) = (ds, tail) := by
  induction ds with
  | nil =>
    cases tail with
    | nil => rfl
    | cons c r => simp [readDigits, htail c r rfl]
  | cons d ds ih =>
    have hd := hds d (List.mem_cons_self _ _)
    have := ih (fun x hx => hds x (List.mem_cons_of_mem _ hx))
    simp [readDigits, hd, this]

theorem extractInt_token {t : Token} (ht : t.WellFormed) (tail : List Char)
    (htail : ∀ c r, tail = c :: r → isDigitChar c = false) :
    extractInt (t.text ++ tail) = some (t.value, tail) := by
  obtain ⟨hne, hdig, hlo, hhi⟩ := ht
  obtain ⟨sign, digits⟩ := t
  simp only at hne hdig
  cases digits with
  | nil => exact absurd rfl hne
  | cons d ds =>
    have hd := hdig d (List.mem_cons_self _ _)
    have hread := readDigits_append (d :: ds) hdig tail htail
    have hminus : d ≠ '-' := digit_ne_of_toNat hd (Or.inl (by decide))
    have hplus : d ≠ '+' := digit_ne_of_toNat hd (Or.inl (by decide))
    have hsp1 : isSpaceChar '-' = false := by decide
    have hsp2 : isSpaceChar '+' = false := by decide
    rcases sign with _ | _ | _
    · simp only [Token.value] at hlo hhi ⊢
      simp only [extractInt, readSign, Token.text, List.nil_append, List.cons_append,
        skipSpace_cons _ (digit_not_space hd), if_neg hminus, if_neg hplus]
      rw [← List.cons_append, hread]
      simp only [List.isEmpty_cons, Bool.false_eq_true, if_false]
      simp only [reduceCtorEq, if_false] at hlo hhi ⊢
      rw [if_pos ⟨hlo, hhi⟩]
    · simp only [Token.value] at hlo hhi ⊢
      simp only [extractInt, readSign, Token.text, List.cons_append, List.nil_append,
        skipSpace_cons _ hsp2, if_pos, show ('+' : Char) ≠ '-' by decide, if_false]
      rw [← List.cons_append, hread]
      simp only [List.isEmpty_cons, Bool.false_eq_true, if_false]
      simp only [Option.some.injEq, Bool.false_eq_true, if_false] at hlo hhi ⊢
      rw [if_pos ⟨hlo, hhi⟩]
    · simp only [Token.value] at hlo hhi ⊢
      simp only [extractInt, readSign, Token.text, List.cons_append, List.nil_append,
        skipSpace_cons _ hsp1, if_true]
      rw [← List.cons_append, hread]
      simp only [List.isEmpty_cons, Bool.false_eq_true, if_false]
      simp only [if_true] at hlo hhi ⊢
      rw [if_pos ⟨hlo, hhi⟩]

theorem parseCond_token_comma {t : Token} (ht : t.WellFormed) (r : List Char) :
    parseCond (t.text ++ ',' :: r) = some (t.value, r) := by
  have h := extractInt_token ht (',' :: r) (by
    intro c r' hc
    cases hc
    decide)
  have hsp : isSpaceChar ',' = false := by decide
  simp [parseCond, h, extractChar, skipSpace_cons _ hsp]

theorem parseCond_token_end {t : Token} (ht : t.WellFormed) : parseCond t.text = none := by
  have h := extractInt_token ht [] (by
    intro c r' hc
    cases hc)
  rw [List.append_nil] at h
  simp [parseCond, h, extractChar, skipSpace]

theorem parseLoop_tokens (toks : List Token) (hwf : ∀ t ∈ toks, t.WellFormed) :
    ∀ (fuel : Nat) (tail : List Char) (row : List State),
      parseLoop (toks.length + fuel) (commaTerminated toks ++ tail) row
        = parseLoop fuel tail (row ++ toks.map Token.cell) := by
  induction toks with
  | nil =>
    intro fuel tail row
    simp [commaTerminated]
  | cons t toks ih =>
    intro fuel tail row
    have ht := hwf t (List.mem_cons_self _ _)
    have hrest := ih (fun x hx => hwf x (List.mem_cons_of_mem _ hx)) fuel tail
    have hline : commaTerminated (t :: toks) ++ tail
        = t.text ++ ',' :: (commaTerminated toks ++ tail) := by
      simp [commaTerminated]
    rw [hline, show (t :: toks).length + fuel = (toks.length + fuel) + 1 by
      simp only [List.length_cons]; omega]
    simp only [parseLoop, parseCond_token_comma ht]
    rw [hrest]
    simp [Token.cell]

theorem parseLoop_stop (fuel : Nat) {s : List Char} (row : List State)
    (h : parseCond s = none) : parseLoop fuel s row = .ok row := by
  cases fuel with
  | zero => simp [parseLoop, h]
  | succ k => simp [parseLoop, h]

/-- C13 (amended): for every list of `n ≥ 0` decimal integer tokens in the range of `int`,
on the line in which every token is followed by a comma `ParseLine` returns, with fuel for
`n` iterations, a row of exactly `n` cells whose i-th cell is `kEmpty` when the i-th token is
0 and `kObstacle` otherwise; a further token at the end of the line that is not followed by
a comma adds no cell. -/
theorem parseLine_comma_terminated (toks : List Token) (hwf : ∀ t ∈ toks, t.WellFormed)
    (fuel : Nat) (hfuel : toks.length ≤ fuel) :
    ParseLine fuel (String.mk (commaTerminated toks)) = .ok (toks.map Token.cell) ∧
      (toks.map Token.cell).length = toks.length ∧
      ∀ last : Token, last.WellFormed →
        ParseLine fuel (String.mk (commaTerminated toks ++ last.text))
          = .ok (toks.map Token.cell) := by
  obtain ⟨k, rfl⟩ := Nat.exists_eq_add_of_le hfuel
  refine ⟨?_, List.length_map _ _, ?_⟩
  · have h := parseLoop_tokens toks hwf k [] []
    rw [List.append_nil, List.nil_append] at h
    show parseLoop (toks.length + k) (commaTerminated toks) [] = _
    rw [h]
    exact parseLoop_stop k _ (by decide)
  · intro last hlast
    have h := parseLoop_tokens toks hwf k last.text []
    rw [List.nil_append] at h
    show parseLoop (toks.length + k) (commaTerminated toks ++ last.text) [] = _
    rw [h]
    exact parseLoop_stop k _ (parseCond_token_end hlast)

/-- C13 (amended), witness: the tokens `0`, `1`, `-7`, that is the line `0,1,-7,`, and the
same line followed by the token `0`. -/
theorem parseLine_comma_terminated_witness :
    (∀ t ∈ [Token.mk none ['0'], Token.mk none ['1'], Token.mk (some true) ['7']],
        t.WellFormed) ∧
      [Token.mk none ['0'], Token.mk none ['1'], Token.mk (some true) ['7']].length ≤ 3 ∧
      String.mk (commaTerminated
        [Token.mk none ['0'], Token.mk none ['1'], Token.mk (some true) ['7']]) = "0,1,-7," ∧
      (ParseLine 3 (String.mk (commaTerminated
          [Token.mk none ['0'], Token.mk none ['1'], Token.mk (some true) ['7']]))
        = .ok ([Token.mk none ['0'], Token.mk none ['1'],
            Token.mk (some true) ['7']].map Token.cell) ∧
        ([Token.mk none ['0'], Token.mk none ['1'],
            Token.mk (some true) ['7']].map Token.cell).length
          = [Token.mk none ['0'], Token.mk none ['1'], Token.mk (some true) ['7']].length ∧
        ∀ last : Token, last.WellFormed →
          ParseLine 3 (String.mk (commaTerminated
              [Token.mk none ['0'], Token.mk none ['1'], Token.mk (some true) ['7']]
              ++ last.text))
            = .ok ([Token.mk none ['0'], Token.mk none ['1'],
                Token.mk (some true) ['7']].map Token.cell)) :=
  ⟨by decide, by decide, by decide,
    parseLine_comma_terminated _ (by decide) 3 (by decide)⟩

/-! ### `ParseLine` returns on every line -/

theorem skipSpace_length (s : List Char) : (skipSpace s).length ≤ s.length := by
  induction s with
  | nil => simp [skipSpace]
  | cons c cs ih =>
    unfold skipSpace
    split_ifs
    · exact Nat.le_succ_of_le ih
    · exact le_refl _

theorem readDigits_length (s : List Char) :
    (readDigits s).1.length + (readDigits s).2.length = s.length := by
  induction s with
  | nil => simp [readDigits]
  | cons c cs ih =>
    unfold readDigits
    split_ifs
    · simp only [List.length_cons]
      omega
    · simp

theorem readSign_length (s : List Char) : (readSign s).2.length ≤ s.length := by
  cases s with
  | nil => simp [readSign]
  | cons c r =>
    simp only [readSign]
    split_ifs <;> simp

theorem extractInt_length {s rest : List Char} {v : Int}
    (h : extractInt s = some (v, rest)) : rest.length < s.length := by
  unfold extractInt at h
  simp only at h
  have hskip := skipSpace_length s
  have hsign := readSign_length (skipSpace s)
  have hrd := readDigits_length (readSign (skipSpace s)).2
  by_cases hemp : (readDigits (readSign (skipSpace s)).2).1.isEmpty = true
  · rw [if_pos hemp] at h
    cases h
  · rw [if_neg hemp] at h
    have hpos : 0 < (readDigits (readSign (skipSpace s)).2).1.length := by
      cases hd : (readDigits (readSign (skipSpace s)).2).1 with
      | nil => simp [hd] at hemp
      | cons a l => simp
    have hrest : (readDigits (readSign (skipSpace s)).2).2 = rest := by
      split_ifs at h <;> simp only [Option.some.injEq, Prod.mk.injEq] at h <;> exact h.2
    rw [← hrest]
    omega

theorem extractChar_length {s rest : List Char} {c : Char}
    (h : extractChar s = some (c, rest)) : rest.length < s.length := by
  unfold extractChar at h
  have hskip := skipSpace_length s
  cases hs : skipSpace s with
  | nil => simp [hs] at h
  | cons a r =>
    simp only [hs, Option.some.injEq, Prod.mk.injEq] at h
    rw [hs] at hskip
    obtain ⟨-, rfl⟩ := h
    simp only [List.length_cons] at hskip
    omega

theorem parseCond_length {s rest : List Char} {n : Int}
    (h : parseCond s = some (n, rest)) : rest.length < s.length := by
  unfold parseCond at h
  cases h1 : extractInt s with
  | none => simp [h1] at h
  | some p =>
    obtain ⟨v, s1⟩ := p
    cases h2 : extractChar s1 with
    | none => simp [h1, h2] at h
    | some q =>
      obtain ⟨c, s2⟩ := q
      simp only [h1, h2] at h
      split_ifs at h
      simp only [Option.some.injEq, Prod.mk.injEq] at h
      obtain ⟨-, rfl⟩ := h
      have := extractInt_length h1
      have := extractChar_length h2
      omega

theorem parseLoop_total : ∀ (fuel : Nat) (s : List Char) (row : List State),
    s.length ≤ fuel → ∃ r, parseLoop fuel s row = .ok r := by
  intro fuel
  induction fuel with
  | zero =>
    intro s row hlen
    have hs : s = [] := List.length_eq_zero.1 (Nat.le_zero.1 hlen)
    subst hs
    exact ⟨row, rfl⟩
  | succ k ih =>
    intro s row hlen
    cases hc : parseCond s with
    | none => exact ⟨row, by simp [parseLoop, hc]⟩
    | some p =>
      obtain ⟨n, rest⟩ := p
      have := parseCond_length hc
      obtain ⟨r, hr⟩ := ih rest (row ++ [if n = 0 then State.kEmpty else State.kObstacle])
        (by omega)
      exact ⟨r, by simp [parseLoop, hc, hr]⟩

theorem parseLine_total (line : String) (fuel : Nat) (hfuel : line.toList.length ≤ fuel) :
    ∃ row, ParseLine fuel line = .ok row :=
  parseLoop_total fuel line.toList [] hfuel

end AStarSearchAlgorithm
